import Mathlib

/-!
# The synchronized store engine of estore-sim

A shallow embedding of `src/EStore.cpp`, `src/TaskQueue.cpp` and the worker threads of
`src/estoresim.cpp`.

* `double` values (prices, discounts, shipping, budgets) are modelled by exact rationals `ℚ`;
  rounding, infinities and NaN are outside the model.
* `int quantity` is modelled by `Int`; signed overflow is undefined behaviour in C++ and is
  outside the model.
* The header `EStore.h` is not part of the sources at hand.  The fields of `Item` and `EStore`
  are the ones `EStore.cpp` reads and writes, and the constant `INVENTORY_SIZE` is the
  parameter `N`; an item id is an index `Fin N` into the inventory array.
* Every operation returns the store it leaves behind together with the sequence of calls it
  makes into the threading library (`smutex_lock`, `smutex_unlock`, `scond_broadcast`,
  `scond_wait`) and the way it stops: it returned, it is suspended in `scond_wait`, its
  leading `assert` failed, or it is blocked for ever in `smutex_lock`.  Contention between
  threads is not modelled: an operation is run from the moment it gets the locks it asks
  for.  `sthread.h` declares `smutex_t` as a plain `pthread_mutex_t`, so a `smutex_lock` on a
  mutex the calling thread already holds never returns: the call is blocked there, with the
  store as it was at that point.
* `src/TaskQueue.cpp` and the worker threads of `src/estoresim.cpp` are embedded the same
  way; the header `TaskQueue.h` is not part of the sources at hand, and a `Task` is either a
  request with one of the request handlers or the stop marker with `stop_handler`.
-/

/-- One inventory slot: the fields of `Item` used by `EStore.cpp`. -/
structure Item where
  valid : Bool
  quantity : Int
  price : ℚ
  discount : ℚ
deriving DecidableEq

/-- The mutexes of an `EStore`: `mutex`, `fineMutexes[i]`, `shippingLock`, `discountLock`. -/
inductive Mutex (N : Nat) where
  | mutex : Mutex N
  | fineMutexes (i : Fin N) : Mutex N
  | shippingLock : Mutex N
  | discountLock : Mutex N
deriving DecidableEq

/-- A call into the threading library; `broadcast` and `wait` are on the one condition
variable `cond` (always paired with `mutex`). -/
inductive Event (N : Nat) where
  | lock (m : Mutex N) : Event N
  | unlock (m : Mutex N) : Event N
  | broadcast : Event N
  | wait : Event N
deriving DecidableEq

/-- How a call stops: it returned to its caller, it is suspended inside `scond_wait`, the
`assert` on the store mode failed, or it is blocked for ever inside `smutex_lock` on a mutex
that the calling thread already holds. -/
inductive Status where
  | returned : Status
  | waiting : Status
  | assertFailed : Status
  | blocked : Status
deriving DecidableEq

/-- How the first loop of `buyManyItems` (lines 157-176) ends: every entry is locked, valid
and in stock and `totalCost` is the sum; or the order is given up, everything unlocked; or
the call is blocked in `smutex_lock`. -/
inductive Locking where
  | locked (totalCost : ℚ) : Locking
  | gaveUp : Locking
  | blocked : Locking
deriving DecidableEq

/-- The data members of `EStore` (the mutexes and the condition variable carry no data). -/
structure EStore (N : Nat) where
  fineMode : Bool
  inventory : Fin N → Item
  storeDiscount : ℚ
  shippingCost : ℚ

/-- The outcome of running one operation. -/
structure Exec (N : Nat) where
  store : EStore N
  trace : List (Event N)
  status : Status

/-- The outcome of `buyManyItems`, which also reorders the caller's vector in place. -/
structure BuyManyExec (N : Nat) where
  store : EStore N
  trace : List (Event N)
  status : Status
  item_ids : List (Fin N)

namespace EStore

variable {N : Nat}

/-- The accessor `fineModeEnabled()`. -/
def fineModeEnabled (s : EStore N) : Bool := s.fineMode

/-- The assignment `inventory[item_id] = item`. -/
def setItem (s : EStore N) (item_id : Fin N) (item : Item) : EStore N :=
  { s with inventory := Function.update s.inventory item_id item }

/-- The cost expression of the `while` test of `buyItem`:
`price * (1 - discount) * (1 - storeDiscount) + shippingCost`. -/
def itemCost (s : EStore N) (item_id : Fin N) : ℚ :=
  (s.inventory item_id).price * (1 - (s.inventory item_id).discount) * (1 - s.storeDiscount)
    + s.shippingCost

/-- The `while` test of `buyItem` (lines 94-95). -/
def waitCondition (s : EStore N) (item_id : Fin N) (budget : ℚ) : Prop :=
  (s.inventory item_id).valid = true ∧
    ((s.inventory item_id).quantity = 0 ∨ s.itemCost item_id > budget)

instance (s : EStore N) (item_id : Fin N) (budget : ℚ) :
    Decidable (s.waitCondition item_id budget) :=
  inferInstanceAs (Decidable ((s.inventory item_id).valid = true ∧
    ((s.inventory item_id).quantity = 0 ∨ s.itemCost item_id > budget)))

/-- The statement `inventory[item_id].quantity -= 1`. -/
def decrement (s : EStore N) (item_id : Fin N) : EStore N :=
  s.setItem item_id
    { s.inventory item_id with quantity := (s.inventory item_id).quantity - 1 }

/-- The body of `buyItem` from the `while` test on (lines 94-111), run with `mutex` held:
one evaluation of the test, then either `scond_wait` or the code after the loop. -/
def buyItemLoop (s : EStore N) (item_id : Fin N) (budget : ℚ) : Exec N :=
  if s.waitCondition item_id budget then
    { store := s, trace := [Event.wait], status := Status.waiting }
  else if (s.inventory item_id).valid = false then
    { store := s, trace := [Event.unlock Mutex.mutex], status := Status.returned }
  else
    { store := s.decrement item_id, trace := [Event.unlock Mutex.mutex],
      status := Status.returned }

/-- The call `buyItem(item_id, budget)` up to its return or its first `scond_wait`. -/
def buyItem (s : EStore N) (item_id : Fin N) (budget : ℚ) : Exec N :=
  if s.fineModeEnabled then
    { store := s, trace := [], status := Status.assertFailed }
  else if (s.inventory item_id).valid = false then
    { store := s, trace := [Event.lock Mutex.mutex, Event.unlock Mutex.mutex],
      status := Status.returned }
  else
    let r := s.buyItemLoop item_id budget
    { r with trace := Event.lock Mutex.mutex :: r.trace }

/-- A suspended `buyItem(item_id, budget)` resumed by a wake-up: `scond_wait` returns with
`mutex` held and the `while` test is evaluated again, on the store as it is then. -/
def buyItemWake (s : EStore N) (item_id : Fin N) (budget : ℚ) : Exec N :=
  s.buyItemLoop item_id budget

/-- The first loop of `buyManyItems` (lines 157-176) from index `i` on: `rest` is
`item_ids[i..]`, `held` is `item_ids[0..i)` latest first, whose mutexes the call holds, and
`totalCost` the running sum.  Gives how the loop ends and the calls made.  The
`smutex_lock` of line 160 on `fineMutexes[id]` never returns when the call already holds
that mutex, which is when `id` is among `held`. -/
def lockAll (s : EStore N) :
    List (Fin N) → List (Fin N) → ℚ → Locking × List (Event N)
  | [], _, totalCost => (Locking.locked totalCost, [])
  | id :: rest, held, totalCost =>
    if id ∈ held then
      (Locking.blocked, [Event.lock (Mutex.fineMutexes id)])
    else if (s.inventory id).valid = false ∨ (s.inventory id).quantity = 0 then
      (Locking.gaveUp, Event.lock (Mutex.fineMutexes id) ::
        (id :: held).map (fun j => Event.unlock (Mutex.fineMutexes j)))
    else
      let r := lockAll s rest (id :: held)
        (totalCost + (s.inventory id).price * (1 - (s.inventory id).discount))
      (r.1, Event.lock (Mutex.fineMutexes id) :: r.2)

/-- The last loop of `buyManyItems` (lines 189-193), without its unlock calls. -/
def buyAll (s : EStore N) (item_ids : List (Fin N)) : EStore N :=
  item_ids.foldl decrement s

/-- The call `sort(item_ids->begin(), item_ids->end(), greater<int>())`. -/
def sortIds (item_ids : List (Fin N)) : List (Fin N) :=
  item_ids.insertionSort (fun a b => a ≥ b)

/-- The call `buyManyItems(item_ids, budget)`. -/
def buyManyItems (s : EStore N) (item_ids : List (Fin N)) (budget : ℚ) : BuyManyExec N :=
  if s.fineModeEnabled = false then
    { store := s, trace := [], status := Status.assertFailed, item_ids := item_ids }
  else if item_ids.isEmpty then
    { store := s, trace := [], status := Status.returned, item_ids := item_ids }
  else
    let sorted := sortIds item_ids
    match s.lockAll sorted [] 0 with
    | (Locking.blocked, tr) =>
      { store := s, trace := tr, status := Status.blocked, item_ids := sorted }
    | (Locking.gaveUp, tr) =>
      { store := s, trace := tr, status := Status.returned, item_ids := sorted }
    | (Locking.locked totalCost, tr) =>
      if totalCost * (1 - s.storeDiscount) + s.shippingCost * (sorted.length : ℚ) > budget then
        { store := s,
          trace := tr ++ sorted.map (fun j => Event.unlock (Mutex.fineMutexes j)),
          status := Status.returned, item_ids := sorted }
      else
        { store := s.buyAll sorted,
          trace := tr ++ sorted.map (fun j => Event.unlock (Mutex.fineMutexes j)),
          status := Status.returned, item_ids := sorted }

/-- The call `addItem(item_id, quantity, price, discount)`. -/
def addItem (s : EStore N) (item_id : Fin N) (quantity : Int) (price discount : ℚ) :
    Exec N :=
  if s.fineModeEnabled = false then
    if (s.inventory item_id).valid = true then
      { store := s, trace := [Event.lock Mutex.mutex, Event.unlock Mutex.mutex],
        status := Status.returned }
    else
      { store := s.setItem item_id
          { valid := true, quantity := quantity, price := price, discount := discount },
        trace := [Event.lock Mutex.mutex, Event.unlock Mutex.mutex],
        status := Status.returned }
  else
    if (s.inventory item_id).valid = true then
      { store := s,
        trace := [Event.lock (Mutex.fineMutexes item_id),
          Event.unlock (Mutex.fineMutexes item_id)],
        status := Status.returned }
    else
      { store := s.setItem item_id
          { valid := true, quantity := quantity, price := price, discount := discount },
        trace := [Event.lock (Mutex.fineMutexes item_id),
          Event.unlock (Mutex.fineMutexes item_id)],
        status := Status.returned }

/-- The call `removeItem(item_id)`. -/
def removeItem (s : EStore N) (item_id : Fin N) : Exec N :=
  if s.fineModeEnabled = false then
    if (s.inventory item_id).valid = false then
      { store := s, trace := [Event.lock Mutex.mutex, Event.unlock Mutex.mutex],
        status := Status.returned }
    else
      { store := s.setItem item_id { s.inventory item_id with valid := false },
        trace := [Event.lock Mutex.mutex, Event.broadcast, Event.unlock Mutex.mutex],
        status := Status.returned }
  else
    if (s.inventory item_id).valid = false then
      { store := s,
        trace := [Event.lock (Mutex.fineMutexes item_id),
          Event.unlock (Mutex.fineMutexes item_id)],
        status := Status.returned }
    else
      { store := s.setItem item_id { s.inventory item_id with valid := false },
        trace := [Event.lock (Mutex.fineMutexes item_id),
          Event.unlock (Mutex.fineMutexes item_id)],
        status := Status.returned }

/-- The call `addStock(item_id, count)`. -/
def addStock (s : EStore N) (item_id : Fin N) (count : Int) : Exec N :=
  if s.fineModeEnabled = false then
    if (s.inventory item_id).valid = false then
      { store := s, trace := [Event.lock Mutex.mutex, Event.unlock Mutex.mutex],
        status := Status.returned }
    else
      { store := s.setItem item_id
          { s.inventory item_id with quantity := (s.inventory item_id).quantity + count },
        trace := [Event.lock Mutex.mutex, Event.broadcast, Event.unlock Mutex.mutex],
        status := Status.returned }
  else
    if (s.inventory item_id).valid = false then
      { store := s,
        trace := [Event.lock (Mutex.fineMutexes item_id),
          Event.unlock (Mutex.fineMutexes item_id)],
        status := Status.returned }
    else
      { store := s.setItem item_id
          { s.inventory item_id with quantity := (s.inventory item_id).quantity + count },
        trace := [Event.lock (Mutex.fineMutexes item_id),
          Event.unlock (Mutex.fineMutexes item_id)],
        status := Status.returned }

/-- The call `priceItem(item_id, price)`. -/
def priceItem (s : EStore N) (item_id : Fin N) (price : ℚ) : Exec N :=
  if s.fineModeEnabled = false then
    if (s.inventory item_id).valid = false then
      { store := s, trace := [Event.lock Mutex.mutex, Event.unlock Mutex.mutex],
        status := Status.returned }
    else
      let oldPrice := (s.inventory item_id).price
      { store := s.setItem item_id { s.inventory item_id with price := price },
        trace :=
          if oldPrice > price then
            [Event.lock Mutex.mutex, Event.broadcast, Event.unlock Mutex.mutex]
          else [Event.lock Mutex.mutex, Event.unlock Mutex.mutex],
        status := Status.returned }
  else
    if (s.inventory item_id).valid = false then
      { store := s,
        trace := [Event.lock (Mutex.fineMutexes item_id),
          Event.unlock (Mutex.fineMutexes item_id)],
        status := Status.returned }
    else
      { store := s.setItem item_id { s.inventory item_id with price := price },
        trace := [Event.lock (Mutex.fineMutexes item_id),
          Event.unlock (Mutex.fineMutexes item_id)],
        status := Status.returned }

/-- The call `discountItem(item_id, discount)`. -/
def discountItem (s : EStore N) (item_id : Fin N) (discount : ℚ) : Exec N :=
  if s.fineModeEnabled = false then
    if (s.inventory item_id).valid = false then
      { store := s, trace := [Event.lock Mutex.mutex, Event.unlock Mutex.mutex],
        status := Status.returned }
    else
      let oldDiscount := (s.inventory item_id).discount
      { store := s.setItem item_id { s.inventory item_id with discount := discount },
        trace :=
          if oldDiscount < discount then
            [Event.lock Mutex.mutex, Event.broadcast, Event.unlock Mutex.mutex]
          else [Event.lock Mutex.mutex, Event.unlock Mutex.mutex],
        status := Status.returned }
  else
    if (s.inventory item_id).valid = false then
      { store := s,
        trace := [Event.lock (Mutex.fineMutexes item_id),
          Event.unlock (Mutex.fineMutexes item_id)],
        status := Status.returned }
    else
      { store := s.setItem item_id { s.inventory item_id with discount := discount },
        trace := [Event.lock (Mutex.fineMutexes item_id),
          Event.unlock (Mutex.fineMutexes item_id)],
        status := Status.returned }

/-- The call `setShippingCost(cost)`. -/
def setShippingCost (s : EStore N) (cost : ℚ) : Exec N :=
  if s.fineModeEnabled = false then
    let oldShippingCost := s.shippingCost
    { store := { s with shippingCost := cost },
      trace :=
        if oldShippingCost > cost then
          [Event.lock Mutex.mutex, Event.broadcast, Event.unlock Mutex.mutex]
        else [Event.lock Mutex.mutex, Event.unlock Mutex.mutex],
      status := Status.returned }
  else
    { store := { s with shippingCost := cost },
      trace := [Event.lock Mutex.shippingLock, Event.unlock Mutex.shippingLock],
      status := Status.returned }

/-- The call `setStoreDiscount(discount)`; the test reads `storeDiscount` after the
assignment, so it compares the old value with the new one. -/
def setStoreDiscount (s : EStore N) (discount : ℚ) : Exec N :=
  if s.fineModeEnabled = false then
    let oldStoreDiscount := s.storeDiscount
    let s1 : EStore N := { s with storeDiscount := discount }
    { store := s1,
      trace :=
        if oldStoreDiscount < s1.storeDiscount then
          [Event.lock Mutex.mutex, Event.broadcast, Event.unlock Mutex.mutex]
        else [Event.lock Mutex.mutex, Event.unlock Mutex.mutex],
      status := Status.returned }
  else
    { store := { s with storeDiscount := discount },
      trace := [Event.lock Mutex.discountLock, Event.unlock Mutex.discountLock],
      status := Status.returned }

end EStore

/-- The constructor `EStore(enableFineMode)`: `storeDiscount = 0`, `shippingCost = 3.0`, and
every slot built by `Item()`, which sets `valid` to false and leaves the other fields as
they are in memory (`memory` stands for those indeterminate contents). -/
def EStore.new {N : Nat} (enableFineMode : Bool) (memory : Fin N → Item) : EStore N :=
  { fineMode := enableFineMode,
    inventory := fun i => { memory i with valid := false },
    storeDiscount := 0,
    shippingCost := 3 }

/-- A supplier request, as dispatched by the handlers of `RequestHandlers.cpp`. -/
inductive SupplierReq (N : Nat) where
  | addItem (item_id : Fin N) (quantity : Int) (price discount : ℚ) : SupplierReq N
  | removeItem (item_id : Fin N) : SupplierReq N
  | addStock (item_id : Fin N) (additional_stock : Int) : SupplierReq N
  | changeItemPrice (item_id : Fin N) (new_price : ℚ) : SupplierReq N
  | changeItemDiscount (item_id : Fin N) (new_discount : ℚ) : SupplierReq N
  | setShippingCost (new_cost : ℚ) : SupplierReq N
  | setStoreDiscount (new_discount : ℚ) : SupplierReq N

/-- The store call made by the handler of a supplier request (`add_item_handler`,
`remove_item_handler`, `add_stock_handler`, `change_item_price_handler`,
`change_item_discount_handler`, `set_shipping_cost_handler`, `set_store_discount_handler`). -/
def SupplierReq.handle {N : Nat} (s : EStore N) : SupplierReq N → Exec N
  | SupplierReq.addItem item_id quantity price discount =>
    s.addItem item_id quantity price discount
  | SupplierReq.removeItem item_id => s.removeItem item_id
  | SupplierReq.addStock item_id additional_stock => s.addStock item_id additional_stock
  | SupplierReq.changeItemPrice item_id new_price => s.priceItem item_id new_price
  | SupplierReq.changeItemDiscount item_id new_discount => s.discountItem item_id new_discount
  | SupplierReq.setShippingCost new_cost => s.setShippingCost new_cost
  | SupplierReq.setStoreDiscount new_discount => s.setStoreDiscount new_discount

/-- A store of 16 slots, all empty, in coarse mode. -/
def emptyCoarse : EStore 16 :=
  EStore.new false (fun _ => { valid := false, quantity := 0, price := 0, discount := 0 })

/-- A store of 16 slots, all empty, in fine mode. -/
def emptyFine : EStore 16 :=
  EStore.new true (fun _ => { valid := false, quantity := 0, price := 0, discount := 0 })

/-- Scenario "basic buy": `addItem(5, 2, 10.0, 0.0)` then `setShippingCost(3.0)`. -/
def basicBuyStore : EStore 16 :=
  ((emptyCoarse.addItem 5 2 10 0).store.setShippingCost 3).store

/-- Scenario "wait then stock": `addItem(7, 0, 5.0, 0.0)` on a coarse store. -/
def waitStockStore : EStore 16 :=
  (emptyCoarse.addItem 7 0 5 0).store

/-- Scenario "wait then abandon": `addItem(9, 0, 1.0, 0.0)` on a coarse store. -/
def waitAbandonStore : EStore 16 :=
  (emptyCoarse.addItem 9 0 1 0).store

/-- Scenario "discount unblocks": `addItem(2, 1, 100.0, 0.0)` on a coarse store. -/
def discountStore : EStore 16 :=
  (emptyCoarse.addItem 2 1 100 0).store

/-- Scenario "fine-mode atomic buy": `addItem(1,1,10,0)`, `addItem(2,1,10,0)`,
`setShippingCost(1.0)` on a fine store. -/
def atomicBuyStore : EStore 16 :=
  (((emptyFine.addItem 1 1 10 0).store.addItem 2 1 10 0).store.setShippingCost 1).store

/-- Scenario "fine-mode atomic abort": `addItem(1,1,10,0)`, `addItem(2,0,10,0)` on a fine
store. -/
def atomicAbortStore : EStore 16 :=
  ((emptyFine.addItem 1 1 10 0).store.addItem 2 0 10 0).store

/-- A fine store carrying two units of item 1: `addItem(1, 2, 10.0, 0.0)`. -/
def twoUnitStore : EStore 16 :=
  (emptyFine.addItem 1 2 10 0).store

/-- A fine store carrying one unit of item 1: `addItem(1, 1, 10.0, 0.0)`. -/
def oneUnitStore : EStore 16 :=
  (emptyFine.addItem 1 1 10 0).store

/-- A fine store carrying one unit of item 2 and nothing else: `addItem(2, 1, 10.0, 0.0)`. -/
def repeatedIdStore : EStore 16 :=
  (emptyFine.addItem 2 1 10 0).store

/-- Invariant I1 of the specification, on the slots the store carries: no valid slot has a
negative quantity. -/
def EStore.stockNonneg {N : Nat} (s : EStore N) : Prop :=
  ∀ j, (s.inventory j).valid = true → 0 ≤ (s.inventory j).quantity

/-- A store with one valid slot, used to compare the `addItem`, `removeItem`, `addItem` round
trip with a single `addItem`: `addItem(3, 4, 20.0, 0.0)` on a coarse store. -/
def roundTripStore : EStore 16 :=
  (emptyCoarse.addItem 3 4 20 0).store

/-- One operation on the store, as a step of an execution in which the callers take the
store locks one after another: a supplier call, a `buyItem` call up to its return or its
first wait, a waiting `buyItem` resumed by a wake-up, or a `buyManyItems` call. -/
inductive StoreOp (N : Nat) where
  | supplier (req : SupplierReq N) : StoreOp N
  | buyItem (item_id : Fin N) (budget : ℚ) : StoreOp N
  | buyItemWake (item_id : Fin N) (budget : ℚ) : StoreOp N
  | buyManyItems (item_ids : List (Fin N)) (budget : ℚ) : StoreOp N

/-- The store left by one operation.  An operation whose `assert` fails, or which is blocked
in `smutex_lock`, leaves the store as it is. -/
def StoreOp.apply {N : Nat} (s : EStore N) : StoreOp N → EStore N
  | StoreOp.supplier req => (req.handle s).store
  | StoreOp.buyItem item_id budget => (s.buyItem item_id budget).store
  | StoreOp.buyItemWake item_id budget => (s.buyItemWake item_id budget).store
  | StoreOp.buyManyItems item_ids budget => (s.buyManyItems item_ids budget).store

/-- The arguments of an operation are non-negative where a stock is given: the quantity of
an `addItem` and the count of an `addStock`. -/
def StoreOp.nonnegArgs {N : Nat} : StoreOp N → Prop
  | StoreOp.supplier (SupplierReq.addItem _ quantity _ _) => 0 ≤ quantity
  | StoreOp.supplier (SupplierReq.addStock _ additional_stock) => 0 ≤ additional_stock
  | _ => True

/-- The store left by a sequence of operations run one after another. -/
def EStore.runOps {N : Nat} (s : EStore N) : List (StoreOp N) → EStore N
  | [] => s
  | op :: rest => EStore.runOps (op.apply s) rest

/-- The test that lets `buyManyItems` reach its last loop (lines 160, 162 and 179): fine
mode, no id listed twice (the second `smutex_lock` on its mutex would not return), every
listed slot valid and in stock, and the total not above the budget. -/
def EStore.commits {N : Nat} (s : EStore N) (item_ids : List (Fin N)) (budget : ℚ) : Prop :=
  s.fineMode = true ∧ item_ids.Nodup ∧
  (∀ i ∈ item_ids, (s.inventory i).valid = true ∧ (s.inventory i).quantity ≠ 0) ∧
  ¬ ((item_ids.map (fun i => (s.inventory i).price * (1 - (s.inventory i).discount))).sum
      * (1 - s.storeDiscount) + s.shippingCost * (item_ids.length : ℚ) > budget)

instance {N : Nat} (s : EStore N) (item_ids : List (Fin N)) (budget : ℚ) :
    Decidable (s.commits item_ids budget) :=
  inferInstanceAs (Decidable (_ ∧ _ ∧ _ ∧ _))

/-- The count asked of `addStock` by one operation for slot `id`: `n` for a call
`addStock(id, n)`, and 0 for anything else. -/
def StoreOp.stockAsked {N : Nat} (id : Fin N) : StoreOp N → Int
  | StoreOp.supplier (SupplierReq.addStock item_id additional_stock) =>
    if item_id = id then additional_stock else 0
  | _ => 0

/-- The units of item `id` bought by one operation run on the store `s`: 1 for a
`buyItem(id, _)` that completes its purchase (it returns, and the slot is valid when it
does), the number of occurrences of `id` in the order for a `buyManyItems` that commits, and
0 for anything else. -/
def StoreOp.unitsBought {N : Nat} (s : EStore N) (id : Fin N) : StoreOp N → Int
  | StoreOp.supplier _ => 0
  | StoreOp.buyItem item_id budget =>
    if item_id = id ∧ (s.buyItem item_id budget).status = Status.returned ∧
        (s.inventory item_id).valid = true then 1 else 0
  | StoreOp.buyItemWake item_id budget =>
    if item_id = id ∧ (s.buyItemWake item_id budget).status = Status.returned ∧
        (s.inventory item_id).valid = true then 1 else 0
  | StoreOp.buyManyItems item_ids budget =>
    if s.commits item_ids budget then (item_ids.count id : Int) else 0

/-- The sum of the counts of the `addStock(id, n)` calls of a sequence. -/
def totalStockAsked {N : Nat} (id : Fin N) (ops : List (StoreOp N)) : Int :=
  (ops.map (StoreOp.stockAsked id)).sum

/-- The units of item `id` bought along a sequence of operations started on `s`. -/
def EStore.totalUnitsBought {N : Nat} (s : EStore N) (id : Fin N) :
    List (StoreOp N) → Int
  | [] => 0
  | op :: rest => op.unitsBought s id + EStore.totalUnitsBought (op.apply s) id rest

/-- The struct `Task` of `TaskQueue.h` (a handler and its argument): the handler is one of the request
handlers of `RequestHandlers.cpp`, run on the request `req` it is given, or `stop_handler`,
the stop marker. -/
inductive TaskQueue.Task (Req : Type) where
  | request (req : Req) : TaskQueue.Task Req
  | stop : TaskQueue.Task Req
deriving DecidableEq

/-- A call of `TaskQueue.cpp` into the threading library, on the queue's own `mutex` and
`cond`. -/
inductive QueueEvent where
  | lock : QueueEvent
  | unlock : QueueEvent
  | broadcast : QueueEvent
  | wait : QueueEvent
deriving DecidableEq

/-- The data members of `TaskQueue` used by `TaskQueue.cpp`: the `std::queue` of tasks, front
first, and the cached count `queueSize`. -/
structure TaskQueue (Req : Type) where
  queue : List (TaskQueue.Task Req)
  queueSize : Int

/-- The outcome of `enqueue`. -/
structure EnqueueExec (Req : Type) where
  state : TaskQueue Req
  trace : List QueueEvent
  status : Status

/-- The outcome of `dequeue`: `result` is the task returned, if the call returned. -/
structure DequeueExec (Req : Type) where
  state : TaskQueue Req
  trace : List QueueEvent
  status : Status
  result : Option (TaskQueue.Task Req)

/-- The constructor `TaskQueue()`: an empty `std::queue` and `queueSize = 0`. -/
def TaskQueue.new {Req : Type} : TaskQueue Req :=
  { queue := [], queueSize := 0 }

/-- The call `enqueue(task)`. -/
def TaskQueue.enqueue {Req : Type} (q : TaskQueue Req) (task : TaskQueue.Task Req) :
    EnqueueExec Req :=
  { state := { queue := q.queue ++ [task], queueSize := q.queueSize + 1 },
    trace := [QueueEvent.lock, QueueEvent.broadcast, QueueEvent.unlock],
    status := Status.returned }

/-- The body of `dequeue` from the `while` test on (lines 106-120), run with `mutex` held:
one evaluation of the test, then either `scond_wait` or the code after the loop.  The result
is `none` when `queue.front()` is called on an empty `std::queue`, which is undefined. -/
def TaskQueue.dequeueLoop {Req : Type} (q : TaskQueue Req) : Option (DequeueExec Req) :=
  if q.queueSize = 0 then
    some { state := q, trace := [QueueEvent.wait], status := Status.waiting, result := none }
  else
    match q.queue with
    | [] => none
    | task :: rest =>
      some { state := { queue := rest, queueSize := q.queueSize - 1 },
             trace := [QueueEvent.broadcast, QueueEvent.unlock],
             status := Status.returned, result := some task }

/-- The call `dequeue()` up to its return or its first `scond_wait`. -/
def TaskQueue.dequeue {Req : Type} (q : TaskQueue Req) : Option (DequeueExec Req) :=
  q.dequeueLoop.map (fun r => { r with trace := QueueEvent.lock :: r.trace })

/-- A suspended `dequeue()` resumed by a wake-up: `scond_wait` returns with `mutex` held and
the `while` test is evaluated again, on the queue as it is then. -/
def TaskQueue.dequeueWake {Req : Type} (q : TaskQueue Req) : Option (DequeueExec Req) :=
  q.dequeueLoop

/-- The class invariant of `TaskQueue`: the cached count is the length of the sequence. -/
def TaskQueue.inStep {Req : Type} (q : TaskQueue Req) : Prop :=
  q.queueSize = (q.queue.length : Int)

/-- A call made on a queue by a thread that has it to itself. -/
inductive QueueCall (Req : Type) where
  | enqueue (task : TaskQueue.Task Req) : QueueCall Req
  | dequeue : QueueCall Req

/-- The tasks enqueued by a sequence of calls, in order. -/
def QueueCall.enqueued {Req : Type} : List (QueueCall Req) → List (TaskQueue.Task Req)
  | [] => []
  | QueueCall.enqueue task :: rest => task :: QueueCall.enqueued rest
  | QueueCall.dequeue :: rest => QueueCall.enqueued rest

/-- No `dequeue` of the sequence meets an empty queue, for a queue that holds `n` tasks at the
start. -/
def QueueCall.neverEmpty {Req : Type} : Nat → List (QueueCall Req) → Bool
  | _, [] => true
  | n, QueueCall.enqueue _ :: rest => QueueCall.neverEmpty (n + 1) rest
  | 0, QueueCall.dequeue :: _ => false
  | n + 1, QueueCall.dequeue :: rest => QueueCall.neverEmpty n rest

/-- A sequence of calls run by one thread: the queue it leaves and the tasks its `dequeue`
calls returned, in order.  The result is `none` when a `dequeue` does not return (the one
thread is suspended for ever on an empty queue) or is undefined. -/
def TaskQueue.runCalls {Req : Type} (q : TaskQueue Req) :
    List (QueueCall Req) → Option (TaskQueue Req × List (TaskQueue.Task Req))
  | [] => some (q, [])
  | QueueCall.enqueue task :: rest => TaskQueue.runCalls (q.enqueue task).state rest
  | QueueCall.dequeue :: rest =>
    match q.dequeue with
    | none => none
    | some r =>
      match r.result with
      | none => none
      | some task =>
        match TaskQueue.runCalls r.state rest with
        | none => none
        | some (q2, out) => some (q2, task :: out)

/-- The outcome of a worker thread: the queue it leaves, the tasks whose handler it has
invoked, in order, and whether the thread has exited (`returned`) or is suspended in
`dequeue` (`waiting`). -/
structure WorkerExec (Req : Type) where
  queue : TaskQueue Req
  handled : List (TaskQueue.Task Req)
  status : Status

/-- The thread function `supplier` (and `customer`, which is the same on the customer
queue) of `estoresim.cpp`, from the result of its `dequeue` on: `task.handler(task.arg)`
then `sthread_exit()`.  For a stop marker the handler itself calls `sthread_exit()`. -/
def workerAfterDequeue {Req : Type} (r : DequeueExec Req) : WorkerExec Req :=
  match r.result with
  | none => { queue := r.state, handled := [], status := Status.waiting }
  | some task => { queue := r.state, handled := [task], status := Status.returned }

/-- The thread function `supplier` / `customer` of `estoresim.cpp` run on its queue, up to
its exit or its first wait. -/
def worker {Req : Type} (q : TaskQueue Req) : Option (WorkerExec Req) :=
  q.dequeue.map workerAfterDequeue

/-- A worker suspended in `dequeue` resumed by a wake-up. -/
def workerWake {Req : Type} (q : TaskQueue Req) : Option (WorkerExec Req) :=
  q.dequeueWake.map workerAfterDequeue

/-- A supplier queue built by `enqueue` from the empty queue: two real requests,
`addItem(5, 2, 10.0, 0.0)` and `addStock(5, 1)`, followed by one stop marker. -/
def threeTaskQueue : TaskQueue (SupplierReq 16) :=
  (((TaskQueue.new.enqueue
      (TaskQueue.Task.request (SupplierReq.addItem 5 2 10 0))).state.enqueue
      (TaskQueue.Task.request (SupplierReq.addStock 5 1))).state.enqueue
      TaskQueue.Task.stop).state

/-- The outcome of `size()`. -/
structure SizeExec (Req : Type) where
  state : TaskQueue Req
  trace : List QueueEvent
  status : Status
  result : Int

/-- The outcome of `empty()`. -/
structure EmptyExec (Req : Type) where
  state : TaskQueue Req
  trace : List QueueEvent
  status : Status
  result : Bool

/-- The call `size()`. -/
def TaskQueue.size {Req : Type} (q : TaskQueue Req) : SizeExec Req :=
  let tmpSize := q.queueSize
  { state := q, trace := [QueueEvent.lock, QueueEvent.unlock], status := Status.returned,
    result := tmpSize }

/-- The call `empty()`. -/
def TaskQueue.empty {Req : Type} (q : TaskQueue Req) : EmptyExec Req :=
  { state := q, trace := [QueueEvent.lock, QueueEvent.unlock], status := Status.returned,
    result := if q.queueSize = 0 then true else false }

/-- The queue states reachable from construction by `enqueue` and `dequeue` calls, a
`dequeue` being taken up to its return or its first wait, or from a wake-up on. -/
inductive TaskQueue.Reachable {Req : Type} : TaskQueue Req → Prop where
  | new : TaskQueue.Reachable TaskQueue.new
  | enqueue (q : TaskQueue Req) (task : TaskQueue.Task Req) :
      TaskQueue.Reachable q → TaskQueue.Reachable (q.enqueue task).state
  | dequeue (q : TaskQueue Req) (r : DequeueExec Req) :
      TaskQueue.Reachable q → q.dequeue = some r → TaskQueue.Reachable r.state
  | dequeueWake (q : TaskQueue Req) (r : DequeueExec Req) :
      TaskQueue.Reachable q → q.dequeueWake = some r → TaskQueue.Reachable r.state

/-- A whole call `dequeue()`, continued from the outcome `r` reached so far: each time the
call is suspended in `scond_wait` it is woken up on the next of the queue states `wakes`
(the queue as the other threads have left it by then). -/
def TaskQueue.dequeueResume {Req : Type} (r : DequeueExec Req) :
    List (TaskQueue Req) → Option (DequeueExec Req)
  | [] => some r
  | q :: rest =>
    if r.status = Status.waiting then
      match q.dequeueWake with
      | none => none
      | some w => TaskQueue.dequeueResume { w with trace := r.trace ++ w.trace } rest
    else some r

/-- A whole call `dequeue()` on the queue `q`, woken up on the queue states `wakes`. -/
def TaskQueue.dequeueCall {Req : Type} (q : TaskQueue Req) (wakes : List (TaskQueue Req)) :
    Option (DequeueExec Req) :=
  match q.dequeue with
  | none => none
  | some r => TaskQueue.dequeueResume r wakes

/-- A whole call `buyItem(item_id, budget)`, continued from the outcome `r` reached so far:
each time the call is suspended in `scond_wait` it is woken up on the next of the stores
`wakes` (the store as the other threads have left it by then). -/
def EStore.buyItemResume {N : Nat} (item_id : Fin N) (budget : ℚ) (r : Exec N) :
    List (EStore N) → Exec N
  | [] => r
  | t :: rest =>
    if r.status = Status.waiting then
      EStore.buyItemResume item_id budget
        { store := (t.buyItemWake item_id budget).store,
          trace := r.trace ++ (t.buyItemWake item_id budget).trace,
          status := (t.buyItemWake item_id budget).status } rest
    else r

/-- A whole call `buyItem(item_id, budget)` on the store `s`, woken up on the stores
`wakes`. -/
def EStore.buyItemCall {N : Nat} (s : EStore N) (item_id : Fin N) (budget : ℚ)
    (wakes : List (EStore N)) : Exec N :=
  EStore.buyItemResume item_id budget (s.buyItem item_id budget) wakes

/-- The mutexes held after a sequence of calls into the threading library, starting with
the mutexes `held`; `none` when an `smutex_unlock` is made on a mutex that is not held.
`scond_wait` gives `mutex` up and has it again when it returns; `scond_broadcast` keeps
it. -/
def heldAfter {N : Nat} : List (Mutex N) → List (Event N) → Option (List (Mutex N))
  | held, [] => some held
  | held, Event.lock m :: rest => heldAfter (m :: held) rest
  | held, Event.unlock m :: rest =>
    if m ∈ held then heldAfter (held.erase m) rest else none
  | held, Event.broadcast :: rest => heldAfter held rest
  | held, Event.wait :: rest => heldAfter held rest

/-- Lock balance of a sequence of calls: no mutex is released without being held, none is
held at the end, and every mutex is released as many times as it is acquired. -/
def lockBalanced {N : Nat} (trace : List (Event N)) : Prop :=
  heldAfter [] trace = some [] ∧
  ∀ m, trace.count (Event.unlock m) = trace.count (Event.lock m)

/-- How many times the queue's `mutex` is held after a sequence of calls of `TaskQueue.cpp`
into the threading library, starting from `held`; `none` when an `smutex_unlock` is made
while it is not held. -/
def queueHeldAfter : Nat → List QueueEvent → Option Nat
  | held, [] => some held
  | held, QueueEvent.lock :: rest => queueHeldAfter (held + 1) rest
  | 0, QueueEvent.unlock :: _ => none
  | held + 1, QueueEvent.unlock :: rest => queueHeldAfter held rest
  | held, QueueEvent.broadcast :: rest => queueHeldAfter held rest
  | held, QueueEvent.wait :: rest => queueHeldAfter held rest

/-- Lock balance of a sequence of calls of `TaskQueue.cpp`. -/
def queueLockBalanced (trace : List QueueEvent) : Prop :=
  queueHeldAfter 0 trace = some 0 ∧
  trace.count QueueEvent.unlock = trace.count QueueEvent.lock

/-- The ids `i` of the slot mutexes `fineMutexes[i]` on which a sequence of calls makes
`smutex_lock`, in order. -/
def slotLocks {N : Nat} : List (Event N) → List (Fin N)
  | [] => []
  | Event.lock (Mutex.fineMutexes i) :: rest => i :: slotLocks rest
  | _ :: rest => slotLocks rest

/-! ## Elementary facts about the embedding -/

section Basics

variable {N : Nat}

@[simp]
theorem EStore.setItem_inventory_same (s : EStore N) (i : Fin N) (it : Item) :
    (s.setItem i it).inventory i = it := by
  simp [EStore.setItem]

@[simp]
theorem EStore.setItem_inventory_ne (s : EStore N) {i j : Fin N} (it : Item) (h : j ≠ i) :
    (s.setItem i it).inventory j = s.inventory j := by
  simp [EStore.setItem, Function.update_noteq h]

@[simp]
theorem EStore.setItem_fineMode (s : EStore N) (i : Fin N) (it : Item) :
    (s.setItem i it).fineMode = s.fineMode := rfl

@[simp]
theorem EStore.setItem_storeDiscount (s : EStore N) (i : Fin N) (it : Item) :
    (s.setItem i it).storeDiscount = s.storeDiscount := rfl

@[simp]
theorem EStore.setItem_shippingCost (s : EStore N) (i : Fin N) (it : Item) :
    (s.setItem i it).shippingCost = s.shippingCost := rfl

theorem EStore.setItem_self (s : EStore N) (i : Fin N) :
    s.setItem i (s.inventory i) = s := by
  cases s
  simp [EStore.setItem]

end Basics

/-! ## Single-item purchase in coarse mode -/

section BuyItem

variable {N : Nat}

/-- C1. In coarse mode, when the slot is valid, its quantity is not 0 and the per-unit cost
`price * (1 - discount) * (1 - storeDiscount) + shippingCost` is at most the budget (equality
included), `buyItem` returns without ever calling `scond_wait`, lowers the quantity of that
slot by exactly 1, and leaves the slot's valid/price/discount, every other slot, the store
discount, the shipping cost and the mode as they were. -/
theorem buyItem_buys_when_affordable (s : EStore N) (item_id : Fin N) (budget : ℚ)
    (hmode : s.fineMode = false)
    (hvalid : (s.inventory item_id).valid = true)
    (hstock : (s.inventory item_id).quantity ≠ 0)
    (hcost : (s.inventory item_id).price * (1 - (s.inventory item_id).discount)
      * (1 - s.storeDiscount) + s.shippingCost ≤ budget) :
    (s.buyItem item_id budget).status = Status.returned ∧
    Event.wait ∉ (s.buyItem item_id budget).trace ∧
    ((s.buyItem item_id budget).store.inventory item_id).quantity
      = (s.inventory item_id).quantity - 1 ∧
    ((s.buyItem item_id budget).store.inventory item_id).valid = true ∧
    ((s.buyItem item_id budget).store.inventory item_id).price
      = (s.inventory item_id).price ∧
    ((s.buyItem item_id budget).store.inventory item_id).discount
      = (s.inventory item_id).discount ∧
    (∀ j, j ≠ item_id → (s.buyItem item_id budget).store.inventory j = s.inventory j) ∧
    (s.buyItem item_id budget).store.storeDiscount = s.storeDiscount ∧
    (s.buyItem item_id budget).store.shippingCost = s.shippingCost ∧
    (s.buyItem item_id budget).store.fineMode = s.fineMode := by
  have hw : ¬ s.waitCondition item_id budget := by
    simp only [EStore.waitCondition, EStore.itemCost, not_and, not_or, not_lt]
    exact fun _ => ⟨hstock, hcost⟩
  have hb : s.buyItem item_id budget =
      { store := s.decrement item_id,
        trace := [Event.lock Mutex.mutex, Event.unlock Mutex.mutex],
        status := Status.returned } := by
    simp [EStore.buyItem, EStore.buyItemLoop, EStore.fineModeEnabled, hmode, hvalid, hw]
  rw [hb]
  refine ⟨rfl, by simp, ?_, ?_, ?_, ?_, ?_, rfl, rfl, rfl⟩
  · simp [EStore.decrement]
  · simp [EStore.decrement, hvalid]
  · simp [EStore.decrement]
  · simp [EStore.decrement]
  · intro j hj
    simp [EStore.decrement, hj]

/-- Scenario 1 of the specification: after `addItem(5, 2, 10.0, 0.0)` and
`setShippingCost(3.0)`, `buyItem(5, 13.0)` returns at once and slot 5 holds 1 unit. -/
theorem buyItem_buys_when_affordable_witness :
    (basicBuyStore.buyItem 5 13).status = Status.returned ∧
    ((basicBuyStore.buyItem 5 13).store.inventory 5).quantity = 1 := by
  have h := buyItem_buys_when_affordable basicBuyStore 5 13
    (by simp [basicBuyStore, emptyCoarse, EStore.new, EStore.addItem, EStore.setShippingCost,
      EStore.fineModeEnabled])
    (by simp [basicBuyStore, emptyCoarse, EStore.new, EStore.addItem, EStore.setShippingCost,
      EStore.fineModeEnabled])
    (by simp [basicBuyStore, emptyCoarse, EStore.new, EStore.addItem, EStore.setShippingCost,
      EStore.fineModeEnabled])
    (by norm_num [basicBuyStore, emptyCoarse, EStore.new, EStore.addItem,
      EStore.setShippingCost, EStore.fineModeEnabled])
  refine ⟨h.1, ?_⟩
  rw [h.2.2.1]
  simp [basicBuyStore, emptyCoarse, EStore.new, EStore.addItem, EStore.setShippingCost,
    EStore.fineModeEnabled]

end BuyItem

/-! ## Multi-item purchase in fine mode -/

section BuyMany

variable {N : Nat}

theorem EStore.ext_fields {s t : EStore N} (h1 : s.fineMode = t.fineMode)
    (h2 : ∀ j, s.inventory j = t.inventory j) (h3 : s.storeDiscount = t.storeDiscount)
    (h4 : s.shippingCost = t.shippingCost) : s = t := by
  cases s
  cases t
  simp only [EStore.mk.injEq] at *
  exact ⟨h1, funext h2, h3, h4⟩

theorem EStore.decrement_inventory (s : EStore N) (a j : Fin N) :
    (s.decrement a).inventory j =
      { s.inventory j with
        quantity := (s.inventory j).quantity - (if j = a then 1 else 0) } := by
  by_cases h : j = a
  · subst h
    simp [EStore.decrement]
  · simp [EStore.decrement, h]

theorem EStore.buyAll_cons (s : EStore N) (a : Fin N) (l : List (Fin N)) :
    s.buyAll (a :: l) = (s.decrement a).buyAll l := rfl

theorem EStore.buyAll_globals (l : List (Fin N)) (s : EStore N) :
    (s.buyAll l).fineMode = s.fineMode ∧ (s.buyAll l).storeDiscount = s.storeDiscount ∧
      (s.buyAll l).shippingCost = s.shippingCost := by
  induction l generalizing s with
  | nil => exact ⟨rfl, rfl, rfl⟩
  | cons a l ih =>
    rw [EStore.buyAll_cons]
    obtain ⟨h1, h2, h3⟩ := ih (s.decrement a)
    exact ⟨h1, h2, h3⟩

/-- After the last loop every slot has lost as many units as its id occurs in the list, and
nothing else has changed. -/
theorem EStore.buyAll_inventory (l : List (Fin N)) (s : EStore N) (j : Fin N) :
    (s.buyAll l).inventory j =
      { s.inventory j with quantity := (s.inventory j).quantity - (l.count j : Int) } := by
  induction l generalizing s with
  | nil => simp [EStore.buyAll]
  | cons a l ih =>
    rw [EStore.buyAll_cons, ih, EStore.decrement_inventory]
    by_cases h : j = a
    · subst h
      simp only [List.count_cons_self, if_true, Item.mk.injEq, true_and, and_true]
      push_cast
      ring
    · have h2 : (a == j) = false := by simpa using fun e => h e.symm
      simp [h, List.count_cons, h2]

theorem EStore.buyAll_perm {l1 l2 : List (Fin N)} (h : l1.Perm l2) (s : EStore N) :
    s.buyAll l1 = s.buyAll l2 := by
  apply EStore.ext_fields
  · rw [(EStore.buyAll_globals l1 s).1, (EStore.buyAll_globals l2 s).1]
  · intro j
    rw [EStore.buyAll_inventory, EStore.buyAll_inventory, h.count_eq]
  · rw [(EStore.buyAll_globals l1 s).2.1, (EStore.buyAll_globals l2 s).2.1]
  · rw [(EStore.buyAll_globals l1 s).2.2, (EStore.buyAll_globals l2 s).2.2]

theorem EStore.sortIds_perm (l : List (Fin N)) : (EStore.sortIds l).Perm l :=
  List.perm_insertionSort _ l

theorem EStore.sortIds_nodup (l : List (Fin N)) : (EStore.sortIds l).Nodup ↔ l.Nodup :=
  (EStore.sortIds_perm l).nodup_iff

/-- The first loop when every entry is valid and in stock, no id is repeated and none is
held already: every entry is locked, in order, and the running sum is handed back. -/
theorem EStore.lockAll_all (s : EStore N) (l held : List (Fin N)) (t : ℚ)
    (hok : ∀ i ∈ l, (s.inventory i).valid = true ∧ (s.inventory i).quantity ≠ 0)
    (hnd : l.Nodup) (hheld : ∀ i ∈ l, i ∉ held) :
    s.lockAll l held t =
      (Locking.locked (t + (l.map (fun i =>
          (s.inventory i).price * (1 - (s.inventory i).discount))).sum),
        l.map (fun j => Event.lock (Mutex.fineMutexes j))) := by
  induction l generalizing held t with
  | nil => simp [EStore.lockAll]
  | cons a l ih =>
    have ha := hok a (List.mem_cons_self a l)
    have hna : ¬ ((s.inventory a).valid = false ∨ (s.inventory a).quantity = 0) := by
      simp [ha.1, ha.2]
    have hah : a ∉ held := hheld a (List.mem_cons_self a l)
    obtain ⟨hal, hnd2⟩ := List.nodup_cons.mp hnd
    have hheld2 : ∀ i ∈ l, i ∉ a :: held := by
      intro i hi hmem
      rcases List.mem_cons.mp hmem with rfl | hmem
      · exact hal hi
      · exact hheld i (List.mem_cons_of_mem a hi) hmem
    unfold EStore.lockAll
    rw [if_neg hah, if_neg hna]
    simp only
    rw [ih _ _ (fun i hi => hok i (List.mem_cons_of_mem a hi)) hnd2 hheld2]
    simp [add_assoc]

/-- The first loop when it gives up at the entry `bad`, the entries `pre` before it being
valid and in stock, with no id repeated up to `bad` and none held already: the locks of
`pre` and `bad` in order, then the unlocks of `bad`, of `pre` backwards and of what was
held. -/
theorem EStore.lockAll_abort (s : EStore N) (pre : List (Fin N)) (bad : Fin N)
    (post held : List (Fin N)) (t : ℚ)
    (hok : ∀ i ∈ pre, (s.inventory i).valid = true ∧ (s.inventory i).quantity ≠ 0)
    (hnd : (pre ++ [bad]).Nodup) (hheld : ∀ i ∈ pre ++ [bad], i ∉ held)
    (hbad : (s.inventory bad).valid = false ∨ (s.inventory bad).quantity = 0) :
    s.lockAll (pre ++ bad :: post) held t =
      (Locking.gaveUp,
        (pre ++ [bad]).map (fun j => Event.lock (Mutex.fineMutexes j)) ++
          ((bad :: pre.reverse) ++ held).map
            (fun j => Event.unlock (Mutex.fineMutexes j))) := by
  induction pre generalizing held t with
  | nil =>
    have hbh : bad ∉ held := hheld bad (by simp)
    simp only [List.nil_append]
    unfold EStore.lockAll
    rw [if_neg hbh, if_pos hbad]
    simp
  | cons a pre ih =>
    have ha := hok a (List.mem_cons_self a pre)
    have hna : ¬ ((s.inventory a).valid = false ∨ (s.inventory a).quantity = 0) := by
      simp [ha.1, ha.2]
    have hah : a ∉ held := hheld a (by simp)
    rw [List.cons_append] at hnd
    obtain ⟨hal, hnd2⟩ := List.nodup_cons.mp hnd
    have hheld2 : ∀ i ∈ pre ++ [bad], i ∉ a :: held := by
      intro i hi hmem
      rcases List.mem_cons.mp hmem with rfl | hmem
      · exact hal hi
      · exact hheld i (by rw [List.cons_append]; exact List.mem_cons_of_mem a hi) hmem
    simp only [List.cons_append]
    unfold EStore.lockAll
    rw [if_neg hah, if_neg hna]
    simp only
    rw [ih _ _ (fun i hi => hok i (List.mem_cons_of_mem a hi)) hnd2 hheld2]
    simp

/-- The first loop when it reaches an entry `again` whose mutex the call already holds, the
entries `pre` before it being valid and in stock, with no id repeated among them and none
held already: the locks of `pre` in order, then the `smutex_lock` that never returns. -/
theorem EStore.lockAll_blocked (s : EStore N) (pre : List (Fin N)) (again : Fin N)
    (post held : List (Fin N)) (t : ℚ)
    (hok : ∀ i ∈ pre, (s.inventory i).valid = true ∧ (s.inventory i).quantity ≠ 0)
    (hnd : pre.Nodup) (hheld : ∀ i ∈ pre, i ∉ held)
    (hagain : again ∈ pre ∨ again ∈ held) :
    s.lockAll (pre ++ again :: post) held t =
      (Locking.blocked,
        (pre ++ [again]).map (fun j => Event.lock (Mutex.fineMutexes j))) := by
  induction pre generalizing held t with
  | nil =>
    have hbh : again ∈ held := by
      rcases hagain with h | h
      · exact absurd h (List.not_mem_nil again)
      · exact h
    simp only [List.nil_append]
    unfold EStore.lockAll
    rw [if_pos hbh]
    simp
  | cons a pre ih =>
    have ha := hok a (List.mem_cons_self a pre)
    have hna : ¬ ((s.inventory a).valid = false ∨ (s.inventory a).quantity = 0) := by
      simp [ha.1, ha.2]
    have hah : a ∉ held := hheld a (List.mem_cons_self a pre)
    obtain ⟨hal, hnd2⟩ := List.nodup_cons.mp hnd
    have hheld2 : ∀ i ∈ pre, i ∉ a :: held := by
      intro i hi hmem
      rcases List.mem_cons.mp hmem with rfl | hmem
      · exact hal hi
      · exact hheld i (List.mem_cons_of_mem a hi) hmem
    have hagain2 : again ∈ pre ∨ again ∈ a :: held := by
      rcases hagain with h | h
      · rcases List.mem_cons.mp h with rfl | h
        · exact Or.inr (List.mem_cons_self _ _)
        · exact Or.inl h
      · exact Or.inr (List.mem_cons_of_mem a h)
    simp only [List.cons_append]
    unfold EStore.lockAll
    rw [if_neg hah, if_neg hna]
    simp only
    rw [ih _ _ (fun i hi => hok i (List.mem_cons_of_mem a hi)) hnd2 hheld2 hagain2]
    simp

/-- A list that has an unavailable entry, a repeated id or an id held already splits at the
first entry at which the first loop stops: an entry that is invalid or out of stock, or an
entry whose mutex is held. -/
theorem EStore.exists_first_stop (s : EStore N) (l held : List (Fin N))
    (h : ¬ ((∀ i ∈ l, (s.inventory i).valid = true ∧ (s.inventory i).quantity ≠ 0) ∧
      l.Nodup ∧ ∀ i ∈ l, i ∉ held)) :
    ∃ pre stop post, l = pre ++ stop :: post ∧
      (∀ i ∈ pre, (s.inventory i).valid = true ∧ (s.inventory i).quantity ≠ 0) ∧
      pre.Nodup ∧ (∀ i ∈ pre, i ∉ held) ∧
      ((stop ∈ pre ∨ stop ∈ held) ∨
        ((pre ++ [stop]).Nodup ∧ (∀ i ∈ pre ++ [stop], i ∉ held) ∧
          ((s.inventory stop).valid = false ∨ (s.inventory stop).quantity = 0))) := by
  induction l generalizing held with
  | nil => exact absurd ⟨fun i hi => absurd hi (List.not_mem_nil i), List.nodup_nil,
      fun i hi => absurd hi (List.not_mem_nil i)⟩ h
  | cons a l ih =>
    by_cases hah : a ∈ held
    · exact ⟨[], a, l, rfl, fun i hi => absurd hi (List.not_mem_nil i), List.nodup_nil,
        fun i hi => absurd hi (List.not_mem_nil i), Or.inl (Or.inr hah)⟩
    · by_cases ha : (s.inventory a).valid = true ∧ (s.inventory a).quantity ≠ 0
      · have hl : ¬ ((∀ i ∈ l, (s.inventory i).valid = true ∧ (s.inventory i).quantity ≠ 0) ∧
            l.Nodup ∧ ∀ i ∈ l, i ∉ a :: held) := by
          rintro ⟨h1, h2, h3⟩
          apply h
          refine ⟨?_, ?_, ?_⟩
          · intro i hi
            rcases List.mem_cons.mp hi with rfl | hi
            · exact ha
            · exact h1 i hi
          · exact List.nodup_cons.mpr ⟨fun hmem => h3 a hmem (List.mem_cons_self a held), h2⟩
          · intro i hi
            rcases List.mem_cons.mp hi with rfl | hi
            · exact hah
            · exact fun hmem => h3 i hi (List.mem_cons_of_mem a hmem)
        obtain ⟨pre, stop, post, h1, h2, h3, h4, h5⟩ := ih (a :: held) hl
        have hapre : a ∉ pre := fun hmem => h4 a hmem (List.mem_cons_self a held)
        refine ⟨a :: pre, stop, post, by rw [h1]; rfl, ?_, List.nodup_cons.mpr ⟨hapre, h3⟩,
          ?_, ?_⟩
        · intro i hi
          rcases List.mem_cons.mp hi with rfl | hi
          · exact ha
          · exact h2 i hi
        · intro i hi
          rcases List.mem_cons.mp hi with rfl | hi
          · exact hah
          · exact fun hmem => h4 i hi (List.mem_cons_of_mem a hmem)
        · rcases h5 with (h5 | h5) | ⟨h5, h6, h7⟩
          · exact Or.inl (Or.inl (List.mem_cons_of_mem a h5))
          · rcases List.mem_cons.mp h5 with rfl | h5
            · exact Or.inl (Or.inl (List.mem_cons_self _ _))
            · exact Or.inl (Or.inr h5)
          · refine Or.inr ⟨?_, ?_, h7⟩
            · rw [List.cons_append]
              exact List.nodup_cons.mpr
                ⟨fun hmem => h6 a hmem (List.mem_cons_self a held), h5⟩
            · intro i hi
              rw [List.cons_append] at hi
              rcases List.mem_cons.mp hi with rfl | hi
              · exact hah
              · exact fun hmem => h6 i hi (List.mem_cons_of_mem a hmem)
      · refine ⟨[], a, l, rfl, fun i hi => absurd hi (List.not_mem_nil i), List.nodup_nil,
          fun i hi => absurd hi (List.not_mem_nil i), Or.inr ⟨by simp, ?_, ?_⟩⟩
        · intro i hi
          have : i = a := by simpa using hi
          rw [this]
          exact hah
        · by_cases hv : (s.inventory a).valid = true
          · right
            by_contra hq
            exact ha ⟨hv, hq⟩
          · left
            simpa using hv

theorem EStore.buyManyItems_eq (s : EStore N) (ids : List (Fin N)) (budget : ℚ)
    (hmode : s.fineMode = true) (hne : ids ≠ []) :
    s.buyManyItems ids budget =
      match s.lockAll (EStore.sortIds ids) [] 0 with
      | (Locking.blocked, tr) =>
        { store := s, trace := tr, status := Status.blocked,
          item_ids := EStore.sortIds ids }
      | (Locking.gaveUp, tr) =>
        { store := s, trace := tr, status := Status.returned,
          item_ids := EStore.sortIds ids }
      | (Locking.locked totalCost, tr) =>
        if totalCost * (1 - s.storeDiscount)
            + s.shippingCost * ((EStore.sortIds ids).length : ℚ) > budget then
          { store := s,
            trace := tr ++ (EStore.sortIds ids).map
              (fun j => Event.unlock (Mutex.fineMutexes j)),
            status := Status.returned, item_ids := EStore.sortIds ids }
        else
          { store := s.buyAll (EStore.sortIds ids),
            trace := tr ++ (EStore.sortIds ids).map
              (fun j => Event.unlock (Mutex.fineMutexes j)),
            status := Status.returned, item_ids := EStore.sortIds ids } := by
  have hemp : ids.isEmpty = false := by
    cases ids with
    | nil => exact absurd rfl hne
    | cons a l => rfl
  unfold EStore.buyManyItems
  simp only [EStore.fineModeEnabled, hmode, Bool.true_eq_false, if_false, hemp,
    Bool.false_eq_true]

/-- The outcome of `buyManyItems` in fine mode on a non-empty order with no repeated id and
every listed slot valid and in stock: all the slots are locked in the sorted order, the
total is compared with the budget, the order is bought or not, and all the slots are
unlocked. -/
theorem EStore.buyManyItems_all (s : EStore N) (ids : List (Fin N)) (budget : ℚ)
    (hmode : s.fineMode = true) (hne : ids ≠ []) (hnd : ids.Nodup)
    (hok : ∀ i ∈ ids, (s.inventory i).valid = true ∧ (s.inventory i).quantity ≠ 0) :
    s.buyManyItems ids budget =
      { store :=
          if (ids.map (fun i => (s.inventory i).price * (1 - (s.inventory i).discount))).sum
              * (1 - s.storeDiscount) + s.shippingCost * (ids.length : ℚ) > budget
          then s else s.buyAll ids,
        trace := (EStore.sortIds ids).map (fun j => Event.lock (Mutex.fineMutexes j)) ++
          (EStore.sortIds ids).map (fun j => Event.unlock (Mutex.fineMutexes j)),
        status := Status.returned,
        item_ids := EStore.sortIds ids } := by
  have hperm := EStore.sortIds_perm ids
  have hok2 : ∀ i ∈ EStore.sortIds ids,
      (s.inventory i).valid = true ∧ (s.inventory i).quantity ≠ 0 :=
    fun i hi => hok i (hperm.mem_iff.mp hi)
  have hsum : ((EStore.sortIds ids).map (fun i =>
        (s.inventory i).price * (1 - (s.inventory i).discount))).sum =
      (ids.map (fun i => (s.inventory i).price * (1 - (s.inventory i).discount))).sum :=
    (hperm.map _).sum_eq
  rw [EStore.buyManyItems_eq s ids budget hmode hne,
    EStore.lockAll_all s (EStore.sortIds ids) [] 0 hok2 ((EStore.sortIds_nodup ids).mpr hnd)
      (fun i _ => List.not_mem_nil i)]
  simp only [zero_add, hsum, hperm.length_eq]
  split_ifs
  · rfl
  · rw [EStore.buyAll_perm hperm s]

/-- The outcome of `buyManyItems` in fine mode on a non-empty order when it gives up at the
entry `bad` of the sorted list, no id being repeated up to it: it returns with the store as
it was. -/
theorem EStore.buyManyItems_abort (s : EStore N) (ids : List (Fin N)) (budget : ℚ)
    (hmode : s.fineMode = true) (hne : ids ≠ [])
    (pre : List (Fin N)) (bad : Fin N) (post : List (Fin N))
    (hsplit : EStore.sortIds ids = pre ++ bad :: post)
    (hok : ∀ i ∈ pre, (s.inventory i).valid = true ∧ (s.inventory i).quantity ≠ 0)
    (hnd : (pre ++ [bad]).Nodup)
    (hbad : (s.inventory bad).valid = false ∨ (s.inventory bad).quantity = 0) :
    s.buyManyItems ids budget =
      { store := s,
        trace := (pre ++ [bad]).map (fun j => Event.lock (Mutex.fineMutexes j)) ++
          (bad :: pre.reverse).map (fun j => Event.unlock (Mutex.fineMutexes j)),
        status := Status.returned,
        item_ids := EStore.sortIds ids } := by
  rw [EStore.buyManyItems_eq s ids budget hmode hne]
  have h := EStore.lockAll_abort s pre bad post [] 0 hok hnd
    (fun i _ => List.not_mem_nil i) hbad
  rw [← hsplit] at h
  rw [h]
  simp

/-- The outcome of `buyManyItems` in fine mode on a non-empty order when the sorted list
reaches an id for the second time, the entries before it being valid and in stock: the call
is blocked in `smutex_lock` on the mutex it holds, with the store as it was. -/
theorem EStore.buyManyItems_blocked (s : EStore N) (ids : List (Fin N)) (budget : ℚ)
    (hmode : s.fineMode = true) (hne : ids ≠ [])
    (pre : List (Fin N)) (again : Fin N) (post : List (Fin N))
    (hsplit : EStore.sortIds ids = pre ++ again :: post)
    (hok : ∀ i ∈ pre, (s.inventory i).valid = true ∧ (s.inventory i).quantity ≠ 0)
    (hnd : pre.Nodup) (hagain : again ∈ pre) :
    s.buyManyItems ids budget =
      { store := s,
        trace := (pre ++ [again]).map (fun j => Event.lock (Mutex.fineMutexes j)),
        status := Status.blocked,
        item_ids := EStore.sortIds ids } := by
  rw [EStore.buyManyItems_eq s ids budget hmode hne]
  have h := EStore.lockAll_blocked s pre again post [] 0 hok hnd
    (fun i _ => List.not_mem_nil i) (Or.inl hagain)
  rw [← hsplit] at h
  rw [h]

/-- The three ways the first loop of `buyManyItems` runs over the sorted order: every entry
is locked, or the loop gives up at the first entry that is invalid or out of stock, or it is
blocked at the first entry that repeats an earlier one. -/
theorem EStore.buyManyItems_cases (s : EStore N) (ids : List (Fin N)) :
    (ids.Nodup ∧ ∀ i ∈ ids, (s.inventory i).valid = true ∧ (s.inventory i).quantity ≠ 0) ∨
    (∃ pre bad post, EStore.sortIds ids = pre ++ bad :: post ∧
      (∀ i ∈ pre, (s.inventory i).valid = true ∧ (s.inventory i).quantity ≠ 0) ∧
      (pre ++ [bad]).Nodup ∧
      ((s.inventory bad).valid = false ∨ (s.inventory bad).quantity = 0)) ∨
    (∃ pre again post, EStore.sortIds ids = pre ++ again :: post ∧
      (∀ i ∈ pre, (s.inventory i).valid = true ∧ (s.inventory i).quantity ≠ 0) ∧
      pre.Nodup ∧ again ∈ pre) := by
  by_cases h : (∀ i ∈ EStore.sortIds ids,
      (s.inventory i).valid = true ∧ (s.inventory i).quantity ≠ 0) ∧
      (EStore.sortIds ids).Nodup ∧ ∀ i ∈ EStore.sortIds ids, i ∉ ([] : List (Fin N))
  · left
    exact ⟨(EStore.sortIds_nodup ids).mp h.2.1,
      fun i hi => h.1 i ((EStore.sortIds_perm ids).mem_iff.mpr hi)⟩
  · right
    obtain ⟨pre, stop, post, h1, h2, h3, _, h5⟩ :=
      EStore.exists_first_stop s (EStore.sortIds ids) [] h
    rcases h5 with (h5 | h5) | ⟨h5, _, h7⟩
    · exact Or.inr ⟨pre, stop, post, h1, h2, h3, h5⟩
    · exact absurd h5 (List.not_mem_nil stop)
    · exact Or.inl ⟨pre, stop, post, h1, h2, h5, h7⟩

/-- What `buyManyItems` does to the store in fine mode: the order is bought (one unit of
each listed slot) when no id is listed twice, every listed slot is valid and in stock and
the total compared at line 179 does not exceed the budget, and the store is left alone
otherwise. -/
theorem EStore.buyManyItems_store (s : EStore N) (ids : List (Fin N)) (budget : ℚ)
    (hmode : s.fineMode = true) :
    (s.buyManyItems ids budget).store =
      if (∀ i ∈ ids, (s.inventory i).valid = true ∧ (s.inventory i).quantity ≠ 0) ∧
          ids.Nodup ∧
          ¬ ((ids.map (fun i => (s.inventory i).price * (1 - (s.inventory i).discount))).sum
              * (1 - s.storeDiscount) + s.shippingCost * (ids.length : ℚ) > budget) then
        s.buyAll ids
      else s := by
  by_cases hne : ids = []
  · subst hne
    simp [EStore.buyManyItems, EStore.fineModeEnabled, hmode, EStore.buyAll]
  · rcases EStore.buyManyItems_cases s ids with ⟨hnd, hok⟩ |
      ⟨pre, bad, post, h1, h2, h3, h4⟩ | ⟨pre, again, post, h1, h2, h3, h4⟩
    · rw [EStore.buyManyItems_all s ids budget hmode hne hnd hok]
      by_cases hb : (ids.map (fun i =>
          (s.inventory i).price * (1 - (s.inventory i).discount))).sum
          * (1 - s.storeDiscount) + s.shippingCost * (ids.length : ℚ) > budget
      · simp only [if_pos hb]
        rw [if_neg (fun h => h.2.2 hb)]
      · simp only [if_neg hb]
        rw [if_pos ⟨hok, hnd, hb⟩]
    · rw [EStore.buyManyItems_abort s ids budget hmode hne pre bad post h1 h2 h3 h4, if_neg]
      rintro ⟨hok, _, _⟩
      have hmem : bad ∈ ids :=
        (EStore.sortIds_perm ids).mem_iff.mp (by rw [h1]; simp)
      have := hok bad hmem
      rcases h4 with h4 | h4
      · rw [h4] at this
        exact absurd this.1 (by decide)
      · exact this.2 h4
    · rw [EStore.buyManyItems_blocked s ids budget hmode hne pre again post h1 h2 h3 h4,
        if_neg]
      rintro ⟨_, hnd, _⟩
      have hnd2 : (EStore.sortIds ids).Nodup := (EStore.sortIds_nodup ids).mpr hnd
      rw [h1] at hnd2
      have := (List.nodup_append.mp hnd2).2.2
      exact this h4 (List.mem_cons_self again post)

/-- In fine mode `buyManyItems` either returns or is blocked on a repeated id. -/
theorem EStore.buyManyItems_status (s : EStore N) (ids : List (Fin N)) (budget : ℚ)
    (hmode : s.fineMode = true) :
    (s.buyManyItems ids budget).status = Status.returned ∨
    (s.buyManyItems ids budget).status = Status.blocked := by
  by_cases hne : ids = []
  · subst hne
    left
    simp [EStore.buyManyItems, EStore.fineModeEnabled, hmode]
  · rcases EStore.buyManyItems_cases s ids with ⟨hnd, hok⟩ |
      ⟨pre, bad, post, h1, h2, h3, h4⟩ | ⟨pre, again, post, h1, h2, h3, h4⟩
    · rw [EStore.buyManyItems_all s ids budget hmode hne hnd hok]
      exact Or.inl rfl
    · rw [EStore.buyManyItems_abort s ids budget hmode hne pre bad post h1 h2 h3 h4]
      exact Or.inl rfl
    · rw [EStore.buyManyItems_blocked s ids budget hmode hne pre again post h1 h2 h3 h4]
      exact Or.inr rfl

/-- In fine mode `buyManyItems` returns on every order without a repeated id. -/
theorem EStore.buyManyItems_returns (s : EStore N) (ids : List (Fin N)) (budget : ℚ)
    (hmode : s.fineMode = true) (hnd : ids.Nodup) :
    (s.buyManyItems ids budget).status = Status.returned := by
  by_cases hne : ids = []
  · subst hne
    simp [EStore.buyManyItems, EStore.fineModeEnabled, hmode]
  · rcases EStore.buyManyItems_cases s ids with ⟨hnd, hok⟩ |
      ⟨pre, bad, post, h1, h2, h3, h4⟩ | ⟨pre, again, post, h1, h2, h3, h4⟩
    · rw [EStore.buyManyItems_all s ids budget hmode hne hnd hok]
    · rw [EStore.buyManyItems_abort s ids budget hmode hne pre bad post h1 h2 h3 h4]
    · have hnd2 : (EStore.sortIds ids).Nodup := (EStore.sortIds_nodup ids).mpr hnd
      rw [h1] at hnd2
      exact absurd (List.mem_cons_self again post) ((List.nodup_append.mp hnd2).2.2 h4)

end BuyMany

/-! ## Budget, abort and atomicity of purchases -/

section Purchases

variable {N : Nat}

theorem EStore.buyItemLoop_changes (s : EStore N) (item_id j : Fin N) (budget : ℚ)
    (h : ((s.buyItemLoop item_id budget).store.inventory j).quantity
      ≠ (s.inventory j).quantity) :
    j = item_id ∧ s.itemCost item_id ≤ budget := by
  unfold EStore.buyItemLoop at h
  by_cases hw : s.waitCondition item_id budget
  · rw [if_pos hw] at h
    exact absurd rfl h
  · rw [if_neg hw] at h
    by_cases hv : (s.inventory item_id).valid = false
    · rw [if_pos hv] at h
      exact absurd rfl h
    · rw [if_neg hv] at h
      have hv2 : (s.inventory item_id).valid = true := by simpa using hv
      have hc : s.itemCost item_id ≤ budget := by
        by_contra hc
        exact hw ⟨hv2, Or.inr (not_le.mp hc)⟩
      refine ⟨?_, hc⟩
      by_contra hj
      exact h (by simp [EStore.decrement, hj])

/-- C2. No buy completes over budget.  Whenever `buyItem` (on entry or after a wake-up)
changes the quantity of a slot, that slot is the one asked for and its cost
`price * (1 - discount) * (1 - storeDiscount) + shippingCost`, on the store in which the
decrement is made, is at most the budget; whenever `buyManyItems` changes the quantity of any
slot, the total `Σ price_i * (1 - discount_i) * (1 - storeDiscount) + |ids| * shippingCost`
on the store it observed is at most the budget. -/
theorem no_buy_over_budget (s : EStore N) (item_id : Fin N) (ids : List (Fin N))
    (budget : ℚ) :
    (∀ j, ((s.buyItem item_id budget).store.inventory j).quantity ≠ (s.inventory j).quantity →
      j = item_id ∧
      (s.inventory item_id).price * (1 - (s.inventory item_id).discount)
        * (1 - s.storeDiscount) + s.shippingCost ≤ budget) ∧
    (∀ j, ((s.buyItemWake item_id budget).store.inventory j).quantity
        ≠ (s.inventory j).quantity →
      j = item_id ∧
      (s.inventory item_id).price * (1 - (s.inventory item_id).discount)
        * (1 - s.storeDiscount) + s.shippingCost ≤ budget) ∧
    ((∃ j, ((s.buyManyItems ids budget).store.inventory j).quantity
        ≠ (s.inventory j).quantity) →
      (ids.map (fun i => (s.inventory i).price * (1 - (s.inventory i).discount)
        * (1 - s.storeDiscount))).sum + (ids.length : ℚ) * s.shippingCost ≤ budget) := by
  refine ⟨?_, ?_, ?_⟩
  · intro j h
    unfold EStore.buyItem at h
    by_cases hm : s.fineModeEnabled = true
    · rw [if_pos hm] at h
      exact absurd rfl h
    · rw [if_neg hm] at h
      by_cases hv : (s.inventory item_id).valid = false
      · rw [if_pos hv] at h
        exact absurd rfl h
      · rw [if_neg hv] at h
        exact EStore.buyItemLoop_changes s item_id j budget h
  · intro j h
    exact EStore.buyItemLoop_changes s item_id j budget h
  · rintro ⟨j, h⟩
    by_cases hm : s.fineMode = true
    · rw [EStore.buyManyItems_store s ids budget hm] at h
      split_ifs at h with hc
      · have hb := not_lt.mp hc.2.2
        rw [List.sum_map_mul_right]
        linarith [mul_comm (ids.length : ℚ) s.shippingCost]
      · exact absurd rfl h
    · have hm2 : s.fineMode = false := by simpa using hm
      simp [EStore.buyManyItems, EStore.fineModeEnabled, hm2] at h

/-- Scenario 1 again: `buyItem(5, 13.0)` changes the quantity of slot 5, so its cost
`10 * 1 * 1 + 3` is within the budget 13. -/
theorem no_buy_over_budget_witness :
    (basicBuyStore.inventory 5).price * (1 - (basicBuyStore.inventory 5).discount)
      * (1 - basicBuyStore.storeDiscount) + basicBuyStore.shippingCost ≤ 13 :=
  ((no_buy_over_budget basicBuyStore 5 [] 13).1 5
    (by simp [basicBuyStore, emptyCoarse, EStore.new, EStore.addItem, EStore.setShippingCost,
      EStore.fineModeEnabled, EStore.buyItem, EStore.buyItemLoop, EStore.waitCondition,
      EStore.itemCost, EStore.decrement]; norm_num)).2

/-- On an order without a repeated id, in fine mode: if some listed slot is invalid or out
of stock, or if every listed slot is valid and in stock but the total computed at line 179
exceeds the budget, then `buyManyItems` returns and the store is exactly as it was. -/
theorem EStore.buyManyItems_gives_up (s : EStore N) (ids : List (Fin N)) (budget : ℚ)
    (hmode : s.fineMode = true) (hnd : ids.Nodup)
    (h : (∃ i ∈ ids, (s.inventory i).valid = false ∨ (s.inventory i).quantity = 0) ∨
      ((∀ i ∈ ids, (s.inventory i).valid = true ∧ (s.inventory i).quantity ≠ 0) ∧
        (ids.map (fun i => (s.inventory i).price * (1 - (s.inventory i).discount))).sum
          * (1 - s.storeDiscount) + s.shippingCost * (ids.length : ℚ) > budget)) :
    (s.buyManyItems ids budget).status = Status.returned ∧
    (s.buyManyItems ids budget).store = s := by
  refine ⟨EStore.buyManyItems_returns s ids budget hmode hnd, ?_⟩
  rw [EStore.buyManyItems_store s ids budget hmode, if_neg]
  rintro ⟨hall, _, hb⟩
  rcases h with ⟨i, hi, hbad⟩ | ⟨_, hover⟩
  · have := hall i hi
    rcases hbad with hbad | hbad
    · simp [hbad] at this
    · exact this.2 hbad
  · exact hb hover

/-- C3 at its failing input. On a fine store carrying one unit of item 2 and nothing in
slot 1, the order `[2,2,1]` names a slot that is invalid, so the abort of lines 162 to 168 is
what the order calls for; but the sorted list is `[2,2,1]`, the first loop locks
`fineMutexes[2]` and then asks for it again at line 160, and the call is blocked there: it
does not return.  The store is as it was, and `fineMutexes[2]` is still held. -/
theorem buyManyItems_repeated_id_blocks_abort :
    repeatedIdStore.fineMode = true ∧
    (∃ i ∈ ([2, 2, 1] : List (Fin 16)), (repeatedIdStore.inventory i).valid = false ∨
      (repeatedIdStore.inventory i).quantity = 0) ∧
    (repeatedIdStore.buyManyItems [2, 2, 1] 1000).item_ids = [2, 2, 1] ∧
    (repeatedIdStore.buyManyItems [2, 2, 1] 1000).trace =
      [Event.lock (Mutex.fineMutexes 2), Event.lock (Mutex.fineMutexes 2)] ∧
    (repeatedIdStore.buyManyItems [2, 2, 1] 1000).status = Status.blocked ∧
    (repeatedIdStore.buyManyItems [2, 2, 1] 1000).status ≠ Status.returned ∧
    (repeatedIdStore.buyManyItems [2, 2, 1] 1000).store = repeatedIdStore := by
  have hm : repeatedIdStore.fineMode = true := by
    simp [repeatedIdStore, emptyFine, EStore.new, EStore.addItem, EStore.fineModeEnabled]
  have hsort : EStore.sortIds ([2, 2, 1] : List (Fin 16)) = [2] ++ 2 :: [1] := by decide
  have hrun := EStore.buyManyItems_blocked repeatedIdStore [2, 2, 1] 1000 hm (by simp)
    [2] 2 [1] hsort
    (by simp [repeatedIdStore, emptyFine, EStore.new, EStore.addItem, EStore.fineModeEnabled,
      EStore.setItem])
    (by simp) (by simp)
  refine ⟨hm, ⟨1, by simp, Or.inl ?_⟩, ?_, ?_, ?_, ?_, ?_⟩
  · simp [repeatedIdStore, emptyFine, EStore.new, EStore.addItem, EStore.fineModeEnabled,
      EStore.setItem, Function.update]
  · rw [hrun, hsort]
    rfl
  · rw [hrun]
    rfl
  · rw [hrun]
  · rw [hrun]
    decide
  · rw [hrun]

/-- C4. In fine mode, after `buyManyItems(ids, budget)` either the store is unchanged, or
every slot named in `ids` has lost exactly 1 unit and is otherwise as it was, no slot
outside `ids` has changed, and the store discount, the shipping cost and the mode are as
they were. -/
theorem buyManyItems_all_or_nothing (s : EStore N) (ids : List (Fin N)) (budget : ℚ)
    (hmode : s.fineMode = true) :
    (s.buyManyItems ids budget).store = s ∨
    ((∀ j ∈ ids, (s.buyManyItems ids budget).store.inventory j =
        { s.inventory j with quantity := (s.inventory j).quantity - 1 }) ∧
      (∀ j, j ∉ ids → (s.buyManyItems ids budget).store.inventory j = s.inventory j) ∧
      (s.buyManyItems ids budget).store.storeDiscount = s.storeDiscount ∧
      (s.buyManyItems ids budget).store.shippingCost = s.shippingCost ∧
      (s.buyManyItems ids budget).store.fineMode = s.fineMode) := by
  rw [EStore.buyManyItems_store s ids budget hmode]
  split_ifs with hc
  · right
    refine ⟨?_, ?_, (EStore.buyAll_globals ids s).2.1, (EStore.buyAll_globals ids s).2.2,
      (EStore.buyAll_globals ids s).1⟩
    · intro j hj
      rw [EStore.buyAll_inventory, List.count_eq_one_of_mem hc.2.1 hj]
      simp
    · intro j hj
      rw [EStore.buyAll_inventory, List.count_eq_zero_of_not_mem hj]
      simp
  · exact Or.inl rfl

/-- Scenario 5 of the specification: with `addItem(1,1,10,0)`, `addItem(2,1,10,0)` and
`setShippingCost(1.0)` in fine mode, `buyManyItems([1,2], 22.0)` leaves the store alone or
takes one unit from slot 1 and one from slot 2 and nothing else. -/
theorem buyManyItems_all_or_nothing_witness :
    (atomicBuyStore.buyManyItems [1, 2] 22).store = atomicBuyStore ∨
    ((∀ j ∈ ([1, 2] : List (Fin 16)),
        (atomicBuyStore.buyManyItems [1, 2] 22).store.inventory j =
          { atomicBuyStore.inventory j with
            quantity := (atomicBuyStore.inventory j).quantity - 1 }) ∧
      (∀ j, j ∉ ([1, 2] : List (Fin 16)) →
        (atomicBuyStore.buyManyItems [1, 2] 22).store.inventory j
          = atomicBuyStore.inventory j) ∧
      (atomicBuyStore.buyManyItems [1, 2] 22).store.storeDiscount
        = atomicBuyStore.storeDiscount ∧
      (atomicBuyStore.buyManyItems [1, 2] 22).store.shippingCost
        = atomicBuyStore.shippingCost ∧
      (atomicBuyStore.buyManyItems [1, 2] 22).store.fineMode = atomicBuyStore.fineMode) :=
  buyManyItems_all_or_nothing atomicBuyStore [1, 2] 22
    (by simp [atomicBuyStore, emptyFine, EStore.new, EStore.addItem, EStore.setShippingCost,
      EStore.fineModeEnabled])

theorem EStore.buyAll_ne_self (s : EStore N) (a : Fin N) (l : List (Fin N)) :
    s.buyAll (a :: l) ≠ s := by
  intro h
  have hq := congrArg (fun t : EStore N => (t.inventory a).quantity) h
  simp only [EStore.buyAll_inventory, List.count_cons_self] at hq
  push_cast at hq
  have : (0 : Int) ≤ (l.count a : Int) := Int.ofNat_nonneg _
  omega

/-- The total that `buyManyItems` compares with the budget at line 179,
`(Σ price_i * (1 - discount_i)) * (1 - storeDiscount) + shippingCost * |ids|`, equals the sum
over `ids` of the per-unit cost of `buyItem`. -/
theorem EStore.total_eq_sum_itemCost (s : EStore N) (ids : List (Fin N)) :
    (ids.map (fun i => (s.inventory i).price * (1 - (s.inventory i).discount))).sum
        * (1 - s.storeDiscount) + s.shippingCost * (ids.length : ℚ)
      = (ids.map (fun i => s.itemCost i)).sum := by
  induction ids with
  | nil => simp
  | cons a l ih =>
    simp only [List.map_cons, List.sum_cons, List.length_cons] at ih ⊢
    rw [← ih]
    simp only [EStore.itemCost]
    push_cast
    ring

/-- On an order without a repeated id, in fine mode, when every listed slot is valid and in
stock: the order is bought (one unit of each listed slot) if the total is at most the budget
and the store is left unchanged if it is more, so that a non-empty order changes the store
if and only if the total is at most the budget. -/
theorem EStore.buyManyItems_commit_iff (s : EStore N) (ids : List (Fin N)) (budget : ℚ)
    (hmode : s.fineMode = true) (hnd : ids.Nodup)
    (hok : ∀ i ∈ ids, (s.inventory i).valid = true ∧ (s.inventory i).quantity ≠ 0) :
    (s.buyManyItems ids budget).status = Status.returned ∧
    ((ids.map (fun i => s.itemCost i)).sum ≤ budget →
      (s.buyManyItems ids budget).store = s.buyAll ids) ∧
    (budget < (ids.map (fun i => s.itemCost i)).sum →
      (s.buyManyItems ids budget).store = s) ∧
    (ids ≠ [] →
      ((s.buyManyItems ids budget).store ≠ s ↔
        (ids.map (fun i => s.itemCost i)).sum ≤ budget)) := by
  have hstore := EStore.buyManyItems_store s ids budget hmode
  rw [EStore.total_eq_sum_itemCost s ids] at hstore
  have hle : (ids.map (fun i => s.itemCost i)).sum ≤ budget →
      (s.buyManyItems ids budget).store = s.buyAll ids := by
    intro h
    rw [hstore, if_pos ⟨hok, hnd, not_lt.mpr h⟩]
  have hgt : budget < (ids.map (fun i => s.itemCost i)).sum →
      (s.buyManyItems ids budget).store = s := by
    intro h
    rw [hstore, if_neg (fun hc => hc.2.2 h)]
  refine ⟨EStore.buyManyItems_returns s ids budget hmode hnd, hle, hgt, ?_⟩
  intro hne
  constructor
  · intro hch
    by_contra hnle
    exact hch (hgt (not_le.mp hnle))
  · intro h
    rw [hle h]
    cases ids with
    | nil => exact absurd rfl hne
    | cons a l => exact EStore.buyAll_ne_self s a l

/-- C6 at its failing input. On a fine store carrying two units of item 1 at price 10 with
the shipping cost 3, the order `[1,1]` has every listed slot valid and in stock and its
total, the sum of the per-unit costs of `buyItem`, is 26, within the budget 1000, so the
order is one to commit; but the first loop locks `fineMutexes[1]` and then asks for it again
at line 160, and the call is blocked there: nothing is bought and the call does not
return. -/
theorem buyManyItems_repeated_id_blocks_commit :
    twoUnitStore.fineMode = true ∧
    (∀ i ∈ ([1, 1] : List (Fin 16)), (twoUnitStore.inventory i).valid = true ∧
      (twoUnitStore.inventory i).quantity ≠ 0) ∧
    (([1, 1] : List (Fin 16)).map
        (fun i => (twoUnitStore.inventory i).price
          * (1 - (twoUnitStore.inventory i).discount))).sum
      * (1 - twoUnitStore.storeDiscount)
      + twoUnitStore.shippingCost * (([1, 1] : List (Fin 16)).length : ℚ) = 26 ∧
    (([1, 1] : List (Fin 16)).map (fun i => twoUnitStore.itemCost i)).sum = 26 ∧
    (26 : ℚ) ≤ 1000 ∧
    (twoUnitStore.buyManyItems [1, 1] 1000).trace =
      [Event.lock (Mutex.fineMutexes 1), Event.lock (Mutex.fineMutexes 1)] ∧
    (twoUnitStore.buyManyItems [1, 1] 1000).status = Status.blocked ∧
    (twoUnitStore.buyManyItems [1, 1] 1000).store = twoUnitStore ∧
    ((twoUnitStore.buyManyItems [1, 1] 1000).store.inventory 1).quantity = 2 := by
  have hm : twoUnitStore.fineMode = true := by
    simp [twoUnitStore, emptyFine, EStore.new, EStore.addItem, EStore.fineModeEnabled]
  have hsort : EStore.sortIds ([1, 1] : List (Fin 16)) = [1] ++ 1 :: [] := by decide
  have hrun := EStore.buyManyItems_blocked twoUnitStore [1, 1] 1000 hm (by simp)
    [1] 1 [] hsort
    (by simp [twoUnitStore, emptyFine, EStore.new, EStore.addItem, EStore.fineModeEnabled,
      EStore.setItem])
    (by simp) (by simp)
  have htotal : (([1, 1] : List (Fin 16)).map
        (fun i => (twoUnitStore.inventory i).price
          * (1 - (twoUnitStore.inventory i).discount))).sum
      * (1 - twoUnitStore.storeDiscount)
      + twoUnitStore.shippingCost * (([1, 1] : List (Fin 16)).length : ℚ) = 26 := by
    simp [twoUnitStore, emptyFine, EStore.new, EStore.addItem, EStore.fineModeEnabled,
      EStore.setItem]
    norm_num
  refine ⟨hm, ?_, htotal, ?_, by norm_num, ?_, ?_, ?_, ?_⟩
  · simp [twoUnitStore, emptyFine, EStore.new, EStore.addItem, EStore.fineModeEnabled,
      EStore.setItem]
  · rw [← EStore.total_eq_sum_itemCost, htotal]
  · rw [hrun]
    rfl
  · rw [hrun]
  · rw [hrun]
  · rw [hrun]
    simp [twoUnitStore, emptyFine, EStore.new, EStore.addItem, EStore.fineModeEnabled,
      EStore.setItem]

end Purchases

/-! ## The wait loop of `buyItem` -/

section WaitLoop

variable {N : Nat}

/-- C7. In coarse mode, in every state where the slot is valid and (its quantity is 0 or
its cost exceeds the budget), `buyItem` on entry and `buyItem` resumed by any wake-up both
call `scond_wait` again and leave the store unchanged; and whenever either of them stops
otherwise than in `scond_wait`, the slot is invalid or (its quantity is not 0 and its cost
is at most the budget). -/
theorem buyItem_waits_while_condition (s : EStore N) (item_id : Fin N) (budget : ℚ)
    (hmode : s.fineMode = false) :
    (((s.inventory item_id).valid = true ∧
        ((s.inventory item_id).quantity = 0 ∨
          (s.inventory item_id).price * (1 - (s.inventory item_id).discount)
            * (1 - s.storeDiscount) + s.shippingCost > budget)) →
      ((s.buyItem item_id budget).status = Status.waiting ∧
        (s.buyItem item_id budget).store = s ∧
        (s.buyItem item_id budget).trace = [Event.lock Mutex.mutex, Event.wait]) ∧
      ((s.buyItemWake item_id budget).status = Status.waiting ∧
        (s.buyItemWake item_id budget).store = s ∧
        (s.buyItemWake item_id budget).trace = [Event.wait])) ∧
    ((s.buyItem item_id budget).status ≠ Status.waiting →
      (s.inventory item_id).valid = false ∨
        ((s.inventory item_id).quantity ≠ 0 ∧
          (s.inventory item_id).price * (1 - (s.inventory item_id).discount)
            * (1 - s.storeDiscount) + s.shippingCost ≤ budget)) ∧
    ((s.buyItemWake item_id budget).status ≠ Status.waiting →
      (s.inventory item_id).valid = false ∨
        ((s.inventory item_id).quantity ≠ 0 ∧
          (s.inventory item_id).price * (1 - (s.inventory item_id).discount)
            * (1 - s.storeDiscount) + s.shippingCost ≤ budget)) := by
  have hloop : s.waitCondition item_id budget →
      s.buyItemLoop item_id budget
        = { store := s, trace := [Event.wait], status := Status.waiting } := by
    intro hw
    simp [EStore.buyItemLoop, hw]
  have hleave : ¬ s.waitCondition item_id budget →
      (s.inventory item_id).valid = false ∨
        ((s.inventory item_id).quantity ≠ 0 ∧
          (s.inventory item_id).price * (1 - (s.inventory item_id).discount)
            * (1 - s.storeDiscount) + s.shippingCost ≤ budget) := by
    intro hw
    by_cases hv : (s.inventory item_id).valid = true
    · right
      simp only [EStore.waitCondition, EStore.itemCost, not_and, not_or, not_lt] at hw
      exact hw hv
    · left
      simpa using hv
  refine ⟨?_, ?_, ?_⟩
  · intro hw
    have hw2 : s.waitCondition item_id budget := hw
    constructor
    · simp [EStore.buyItem, EStore.fineModeEnabled, hmode, hw.1, hloop hw2]
    · simp [EStore.buyItemWake, hloop hw2]
  · intro hst
    apply hleave
    intro hw
    apply hst
    simp [EStore.buyItem, EStore.fineModeEnabled, hmode, hw.1, hloop hw]
  · intro hst
    apply hleave
    intro hw
    apply hst
    simp [EStore.buyItemWake, hloop hw]

/-- Scenario 2 of the specification: after `addItem(7, 0, 5.0, 0.0)`, `buyItem(7, 8.0)`
blocks in `scond_wait` with the store unchanged, and a spurious wake-up blocks it again. -/
theorem buyItem_waits_while_condition_witness :
    ((waitStockStore.buyItem 7 8).status = Status.waiting ∧
      (waitStockStore.buyItem 7 8).store = waitStockStore ∧
      (waitStockStore.buyItem 7 8).trace = [Event.lock Mutex.mutex, Event.wait]) ∧
    ((waitStockStore.buyItemWake 7 8).status = Status.waiting ∧
      (waitStockStore.buyItemWake 7 8).store = waitStockStore ∧
      (waitStockStore.buyItemWake 7 8).trace = [Event.wait]) :=
  (buyItem_waits_while_condition waitStockStore 7 8
    (by simp [waitStockStore, emptyCoarse, EStore.new, EStore.addItem,
      EStore.fineModeEnabled])).1
    ⟨by simp [waitStockStore, emptyCoarse, EStore.new, EStore.addItem,
        EStore.fineModeEnabled],
      Or.inl (by simp [waitStockStore, emptyCoarse, EStore.new, EStore.addItem,
        EStore.fineModeEnabled])⟩

/-- C8. In coarse mode `buyItem` never buys an item the store does not carry: if the slot is
invalid when `buyItem` is called it returns without calling `scond_wait`, and if the slot is
invalid when a waiting `buyItem` evaluates its test again it returns; in both cases the whole
store, the quantity of that slot included, is unchanged. -/
theorem buyItem_not_carried (s : EStore N) (item_id : Fin N) (budget : ℚ)
    (hmode : s.fineMode = false) (hinvalid : (s.inventory item_id).valid = false) :
    ((s.buyItem item_id budget).status = Status.returned ∧
      Event.wait ∉ (s.buyItem item_id budget).trace ∧
      (s.buyItem item_id budget).store = s) ∧
    ((s.buyItemWake item_id budget).status = Status.returned ∧
      Event.wait ∉ (s.buyItemWake item_id budget).trace ∧
      (s.buyItemWake item_id budget).store = s) := by
  have hw : ¬ s.waitCondition item_id budget := by
    simp [EStore.waitCondition, hinvalid]
  constructor
  · simp [EStore.buyItem, EStore.fineModeEnabled, hmode, hinvalid]
  · simp [EStore.buyItemWake, EStore.buyItemLoop, hw, hinvalid]

/-- Scenario 3 of the specification: `addItem(9, 0, 1.0, 0.0)`, then `removeItem(9)` while a
`buyItem(9, 4.0)` waits; the woken buyer returns, the store is as `removeItem` left it and
slot 9 is invalid. -/
theorem buyItem_not_carried_witness :
    ((waitAbandonStore.removeItem 9).store.buyItemWake 9 4).status = Status.returned ∧
    ((waitAbandonStore.removeItem 9).store.buyItemWake 9 4).store
      = (waitAbandonStore.removeItem 9).store ∧
    (((waitAbandonStore.removeItem 9).store.buyItemWake 9 4).store.inventory 9).valid
      = false := by
  have hinv : ((waitAbandonStore.removeItem 9).store.inventory 9).valid = false := by
    simp [waitAbandonStore, emptyCoarse, EStore.new, EStore.addItem, EStore.removeItem,
      EStore.fineModeEnabled]
  have h := (buyItem_not_carried (waitAbandonStore.removeItem 9).store 9 4
    (by simp [waitAbandonStore, emptyCoarse, EStore.new, EStore.addItem, EStore.removeItem,
      EStore.fineModeEnabled])
    hinv).2
  refine ⟨h.1, h.2.2, ?_⟩
  rw [h.2.2]
  exact hinv

end WaitLoop

/-! ## The wake-up policy of the mutators -/

section WakePolicy

variable {N : Nat}

theorem EStore.waitCondition_congr (s t : EStore N) {item_id : Fin N} (budget : ℚ)
    (h1 : t.inventory item_id = s.inventory item_id)
    (h2 : t.storeDiscount = s.storeDiscount) (h3 : t.shippingCost = s.shippingCost)
    (h : s.waitCondition item_id budget) : t.waitCondition item_id budget := by
  simpa only [EStore.waitCondition, EStore.itemCost, h1, h2, h3] using h

/-- A change that keeps the slot valid, keeps its quantity and does not lower its cost keeps
a waiting buyer waiting. -/
theorem EStore.waitCondition_mono (s t : EStore N) {item_id : Fin N} (budget : ℚ)
    (hv : (t.inventory item_id).valid = (s.inventory item_id).valid)
    (hq : (t.inventory item_id).quantity = (s.inventory item_id).quantity)
    (hc : s.itemCost item_id ≤ t.itemCost item_id)
    (h : s.waitCondition item_id budget) : t.waitCondition item_id budget := by
  obtain ⟨h1, h2⟩ := h
  refine ⟨hv.trans h1, ?_⟩
  rcases h2 with h2 | h2
  · exact Or.inl (hq.trans h2)
  · exact Or.inr (lt_of_lt_of_le h2 hc)

theorem EStore.lockAll_no_broadcast (s : EStore N) (l held : List (Fin N)) (t : ℚ) :
    Event.broadcast ∉ (s.lockAll l held t).2 := by
  induction l generalizing held t with
  | nil => simp [EStore.lockAll]
  | cons a l ih =>
    unfold EStore.lockAll
    split_ifs
    · simp
    · simp
    · simpa using ih (a :: held) _

/-- C9. The wake policy is complete in coarse mode: for a slot with `price ≥ 0` and
`discount ≤ 1` in a store with `storeDiscount ≤ 1` (in particular whenever `price ≥ 0`,
`0 ≤ discount ≤ 1` and `0 ≤ storeDiscount ≤ 1`), whatever supplier call is made (`addItem`,
`removeItem`, `addStock`, `priceItem`, `discountItem`, `setShippingCost`, `setStoreDiscount`,
with any arguments), if the wait test of `buyItem(item_id, budget)` is true before the call
and false after it, then the call has broadcast on the condition variable. -/
theorem wake_policy_complete (s : EStore N) (req : SupplierReq N) (item_id : Fin N)
    (budget : ℚ) (hmode : s.fineMode = false)
    (hprice : 0 ≤ (s.inventory item_id).price)
    (hdisc1 : (s.inventory item_id).discount ≤ 1)
    (hstore1 : s.storeDiscount ≤ 1)
    (hbefore : s.waitCondition item_id budget)
    (hafter : ¬ (req.handle s).store.waitCondition item_id budget) :
    Event.broadcast ∈ (req.handle s).trace := by
  have hvalid : (s.inventory item_id).valid = true := hbefore.1
  have hd : 0 ≤ 1 - (s.inventory item_id).discount := by linarith
  have hsd : 0 ≤ 1 - s.storeDiscount := by linarith
  cases req with
  | addItem id quantity price discount =>
    exfalso
    apply hafter
    simp only [SupplierReq.handle, EStore.addItem, EStore.fineModeEnabled, hmode, if_true]
    by_cases hv : (s.inventory id).valid = true
    · rw [if_pos hv]
      exact hbefore
    · rw [if_neg hv]
      have hne : item_id ≠ id := fun e => hv (e ▸ hvalid)
      exact EStore.waitCondition_congr s _ budget (by simp [hne]) rfl rfl hbefore
  | removeItem id =>
    simp only [SupplierReq.handle, EStore.removeItem, EStore.fineModeEnabled, hmode,
      if_true] at hafter ⊢
    by_cases hv : (s.inventory id).valid = false
    · rw [if_pos hv] at hafter
      exact absurd hbefore hafter
    · rw [if_neg hv]
      simp
  | addStock id additional_stock =>
    simp only [SupplierReq.handle, EStore.addStock, EStore.fineModeEnabled, hmode,
      if_true] at hafter ⊢
    by_cases hv : (s.inventory id).valid = false
    · rw [if_pos hv] at hafter
      exact absurd hbefore hafter
    · rw [if_neg hv]
      simp
  | changeItemPrice id new_price =>
    simp only [SupplierReq.handle, EStore.priceItem, EStore.fineModeEnabled, hmode,
      if_true] at hafter ⊢
    by_cases hv : (s.inventory id).valid = false
    · rw [if_pos hv] at hafter
      exact absurd hbefore hafter
    · rw [if_neg hv] at hafter ⊢
      by_cases hlt : (s.inventory id).price > new_price
      · simp [hlt]
      · exfalso
        apply hafter
        by_cases hid : item_id = id
        · subst hid
          apply EStore.waitCondition_mono s _ budget _ _ _ hbefore
          · simp
          · simp
          · simp only [EStore.itemCost, EStore.setItem_inventory_same,
              EStore.setItem_storeDiscount, EStore.setItem_shippingCost]
            have := mul_le_mul_of_nonneg_right (not_lt.mp hlt) (mul_nonneg hd hsd)
            linarith
        · exact EStore.waitCondition_congr s _ budget (by simp [hid]) rfl rfl hbefore
  | changeItemDiscount id new_discount =>
    simp only [SupplierReq.handle, EStore.discountItem, EStore.fineModeEnabled, hmode,
      if_true] at hafter ⊢
    by_cases hv : (s.inventory id).valid = false
    · rw [if_pos hv] at hafter
      exact absurd hbefore hafter
    · rw [if_neg hv] at hafter ⊢
      by_cases hlt : (s.inventory id).discount < new_discount
      · simp [hlt]
      · exfalso
        apply hafter
        by_cases hid : item_id = id
        · subst hid
          apply EStore.waitCondition_mono s _ budget _ _ _ hbefore
          · simp
          · simp
          · simp only [EStore.itemCost, EStore.setItem_inventory_same,
              EStore.setItem_storeDiscount, EStore.setItem_shippingCost]
            have h1 : 1 - (s.inventory item_id).discount ≤ 1 - new_discount := by
              linarith [not_lt.mp hlt]
            have := mul_le_mul_of_nonneg_right
              (mul_le_mul_of_nonneg_left h1 hprice) hsd
            linarith
        · exact EStore.waitCondition_congr s _ budget (by simp [hid]) rfl rfl hbefore
  | setShippingCost new_cost =>
    simp only [SupplierReq.handle, EStore.setShippingCost, EStore.fineModeEnabled, hmode,
      if_true] at hafter ⊢
    by_cases hlt : s.shippingCost > new_cost
    · simp [hlt]
    · exfalso
      apply hafter
      refine EStore.waitCondition_mono s _ budget ?_ ?_ ?_ hbefore
      · rfl
      · rfl
      · simp only [EStore.itemCost]
        linarith [not_lt.mp hlt]
  | setStoreDiscount new_discount =>
    simp only [SupplierReq.handle, EStore.setStoreDiscount, EStore.fineModeEnabled, hmode,
      if_true] at hafter ⊢
    by_cases hlt : s.storeDiscount < new_discount
    · simp [hlt]
    · exfalso
      apply hafter
      refine EStore.waitCondition_mono s _ budget ?_ ?_ ?_ hbefore
      · rfl
      · rfl
      · simp only [EStore.itemCost]
        have h1 : 1 - s.storeDiscount ≤ 1 - new_discount := by linarith [not_lt.mp hlt]
        have := mul_le_mul_of_nonneg_left h1 (mul_nonneg hprice hd)
        linarith

/-- Scenario 4 of the specification: after `addItem(2, 1, 100.0, 0.0)` a `buyItem(2, 13.0)`
waits (cost 103); `setStoreDiscount(0.9)` brings the cost to 13, makes the wait test false
and broadcasts. -/
theorem wake_policy_complete_witness :
    discountStore.waitCondition 2 13 ∧
    ¬ (discountStore.setStoreDiscount (9 / 10)).store.waitCondition 2 13 ∧
    Event.broadcast ∈ (discountStore.setStoreDiscount (9 / 10)).trace := by
  have hb : discountStore.waitCondition 2 13 := by
    simp [EStore.waitCondition, EStore.itemCost, discountStore, emptyCoarse, EStore.new,
      EStore.addItem, EStore.fineModeEnabled]
    norm_num
  have ha : ¬ (discountStore.setStoreDiscount (9 / 10)).store.waitCondition 2 13 := by
    simp [EStore.waitCondition, EStore.itemCost, discountStore, emptyCoarse, EStore.new,
      EStore.addItem, EStore.setStoreDiscount, EStore.fineModeEnabled]
    norm_num
  exact ⟨hb, ha, wake_policy_complete discountStore (SupplierReq.setStoreDiscount (9 / 10)) 2 13
    (by simp [discountStore, emptyCoarse, EStore.new, EStore.addItem, EStore.fineModeEnabled])
    (by simp [discountStore, emptyCoarse, EStore.new, EStore.addItem, EStore.fineModeEnabled])
    (by simp [discountStore, emptyCoarse, EStore.new, EStore.addItem, EStore.fineModeEnabled])
    (by simp [discountStore, emptyCoarse, EStore.new, EStore.addItem, EStore.fineModeEnabled])
    hb ha⟩

/-- C10. The broadcast decision of every operation is the tabulated one. `addItem` never
broadcasts; `removeItem` and `addStock` broadcast exactly when the store is in coarse mode and
the slot is valid; `priceItem` exactly when moreover the new price is below the old one;
`discountItem` exactly when moreover the new discount is above the old one;
`setShippingCost` exactly in coarse mode with a new cost below the old one;
`setStoreDiscount` exactly in coarse mode with a new discount above the old one.  Hence a
call on a slot the store does not carry never broadcasts and nothing broadcasts in fine mode,
the buyers included. -/
theorem broadcast_decision (s : EStore N) (item_id : Fin N) (quantity count : Int)
    (price discount cost budget : ℚ) (ids : List (Fin N)) :
    Event.broadcast ∉ (s.addItem item_id quantity price discount).trace ∧
    (Event.broadcast ∈ (s.removeItem item_id).trace ↔
      s.fineMode = false ∧ (s.inventory item_id).valid = true) ∧
    (Event.broadcast ∈ (s.addStock item_id count).trace ↔
      s.fineMode = false ∧ (s.inventory item_id).valid = true) ∧
    (Event.broadcast ∈ (s.priceItem item_id price).trace ↔
      s.fineMode = false ∧ (s.inventory item_id).valid = true ∧
        price < (s.inventory item_id).price) ∧
    (Event.broadcast ∈ (s.discountItem item_id discount).trace ↔
      s.fineMode = false ∧ (s.inventory item_id).valid = true ∧
        discount > (s.inventory item_id).discount) ∧
    (Event.broadcast ∈ (s.setShippingCost cost).trace ↔
      s.fineMode = false ∧ cost < s.shippingCost) ∧
    (Event.broadcast ∈ (s.setStoreDiscount discount).trace ↔
      s.fineMode = false ∧ discount > s.storeDiscount) ∧
    Event.broadcast ∉ (s.buyItem item_id budget).trace ∧
    Event.broadcast ∉ (s.buyItemWake item_id budget).trace ∧
    Event.broadcast ∉ (s.buyManyItems ids budget).trace := by
  refine ⟨?_, ?_, ?_, ?_, ?_, ?_, ?_, ?_, ?_, ?_⟩
  · unfold EStore.addItem
    split_ifs <;> simp
  · unfold EStore.removeItem EStore.fineModeEnabled
    cases hm : s.fineMode <;> cases hv : (s.inventory item_id).valid <;> simp
  · unfold EStore.addStock EStore.fineModeEnabled
    cases hm : s.fineMode <;> cases hv : (s.inventory item_id).valid <;> simp
  · unfold EStore.priceItem EStore.fineModeEnabled
    cases hm : s.fineMode <;> cases hv : (s.inventory item_id).valid <;> simp
    by_cases hlt : price < (s.inventory item_id).price <;> simp [hlt]
  · unfold EStore.discountItem EStore.fineModeEnabled
    cases hm : s.fineMode <;> cases hv : (s.inventory item_id).valid <;> simp
    by_cases hlt : (s.inventory item_id).discount < discount <;> simp [hlt]
  · unfold EStore.setShippingCost EStore.fineModeEnabled
    cases hm : s.fineMode <;> simp
    by_cases hlt : cost < s.shippingCost <;> simp [hlt]
  · unfold EStore.setStoreDiscount EStore.fineModeEnabled
    cases hm : s.fineMode <;> simp
    by_cases hlt : s.storeDiscount < discount <;> simp [hlt]
  · unfold EStore.buyItem EStore.buyItemLoop
    split_ifs <;> simp
  · unfold EStore.buyItemWake EStore.buyItemLoop
    split_ifs <;> simp
  · have hl := EStore.lockAll_no_broadcast s (EStore.sortIds ids) [] 0
    unfold EStore.buyManyItems
    split_ifs
    · simp
    · simp
    · dsimp only
      generalize s.lockAll (EStore.sortIds ids) [] 0 = r at hl ⊢
      obtain ⟨r1, r2⟩ := r
      cases r1 with
      | blocked => simpa using hl
      | gaveUp => simpa using hl
      | locked t =>
        dsimp only
        split_ifs <;> simpa using hl

end WakePolicy

/-! ## What each mutator does to the store -/

section MutatorStores

variable {N : Nat}

theorem EStore.addItem_store (s : EStore N) (item_id : Fin N) (quantity : Int)
    (price discount : ℚ) :
    (s.addItem item_id quantity price discount).store =
      if (s.inventory item_id).valid = true then s
      else s.setItem item_id
        { valid := true, quantity := quantity, price := price, discount := discount } := by
  unfold EStore.addItem
  cases s.fineModeEnabled <;> cases (s.inventory item_id).valid <;> rfl

theorem EStore.removeItem_store (s : EStore N) (item_id : Fin N) :
    (s.removeItem item_id).store =
      if (s.inventory item_id).valid = false then s
      else s.setItem item_id { s.inventory item_id with valid := false } := by
  unfold EStore.removeItem
  cases s.fineModeEnabled <;> cases (s.inventory item_id).valid <;> rfl

theorem EStore.addStock_store (s : EStore N) (item_id : Fin N) (count : Int) :
    (s.addStock item_id count).store =
      if (s.inventory item_id).valid = false then s
      else s.setItem item_id
        { s.inventory item_id with quantity := (s.inventory item_id).quantity + count } := by
  unfold EStore.addStock
  cases s.fineModeEnabled <;> cases (s.inventory item_id).valid <;> rfl

theorem EStore.priceItem_store (s : EStore N) (item_id : Fin N) (price : ℚ) :
    (s.priceItem item_id price).store =
      if (s.inventory item_id).valid = false then s
      else s.setItem item_id { s.inventory item_id with price := price } := by
  unfold EStore.priceItem
  cases s.fineModeEnabled <;> cases (s.inventory item_id).valid <;> rfl

theorem EStore.discountItem_store (s : EStore N) (item_id : Fin N) (discount : ℚ) :
    (s.discountItem item_id discount).store =
      if (s.inventory item_id).valid = false then s
      else s.setItem item_id { s.inventory item_id with discount := discount } := by
  unfold EStore.discountItem
  cases s.fineModeEnabled <;> cases (s.inventory item_id).valid <;> rfl

theorem EStore.setShippingCost_store (s : EStore N) (cost : ℚ) :
    (s.setShippingCost cost).store = { s with shippingCost := cost } := by
  unfold EStore.setShippingCost
  cases s.fineModeEnabled <;> rfl

theorem EStore.setStoreDiscount_store (s : EStore N) (discount : ℚ) :
    (s.setStoreDiscount discount).store = { s with storeDiscount := discount } := by
  unfold EStore.setStoreDiscount
  cases s.fineModeEnabled <;> rfl

end MutatorStores

/-! ## Stock never goes negative -/

section StockInvariant

variable {N : Nat}

theorem EStore.setItem_stockNonneg (s : EStore N) (item_id : Fin N) (item : Item)
    (h : s.stockNonneg) (hitem : item.valid = true → 0 ≤ item.quantity) :
    (s.setItem item_id item).stockNonneg := by
  intro j hj
  by_cases hji : j = item_id
  · subst hji
    rw [EStore.setItem_inventory_same] at hj ⊢
    exact hitem hj
  · rw [EStore.setItem_inventory_ne s item hji] at hj ⊢
    exact h j hj

/-- Every supplier call keeps the quantities of valid slots non-negative, given a
non-negative quantity for `addItem` and a non-negative count for `addStock`. -/
theorem SupplierReq.handle_stockNonneg (s : EStore N) (req : SupplierReq N)
    (hreq : match req with
      | SupplierReq.addItem _ quantity _ _ => 0 ≤ quantity
      | SupplierReq.addStock _ additional_stock => 0 ≤ additional_stock
      | _ => True)
    (h : s.stockNonneg) : (req.handle s).store.stockNonneg := by
  cases req with
  | addItem id quantity price discount =>
    simp only at hreq
    simp only [SupplierReq.handle, EStore.addItem_store]
    split_ifs
    · exact h
    · exact EStore.setItem_stockNonneg s id _ h (fun _ => hreq)
  | removeItem id =>
    simp only [SupplierReq.handle, EStore.removeItem_store]
    split_ifs
    · exact h
    · exact EStore.setItem_stockNonneg s id _ h (fun hv => by simp at hv)
  | addStock id additional_stock =>
    simp only at hreq
    simp only [SupplierReq.handle, EStore.addStock_store]
    split_ifs
    · exact h
    · refine EStore.setItem_stockNonneg s id _ h (fun hv => ?_)
      have := h id hv
      simp only
      omega
  | changeItemPrice id new_price =>
    simp only [SupplierReq.handle, EStore.priceItem_store]
    split_ifs
    · exact h
    · exact EStore.setItem_stockNonneg s id _ h (fun hv => h id hv)
  | changeItemDiscount id new_discount =>
    simp only [SupplierReq.handle, EStore.discountItem_store]
    split_ifs
    · exact h
    · exact EStore.setItem_stockNonneg s id _ h (fun hv => h id hv)
  | setShippingCost new_cost =>
    simp only [SupplierReq.handle, EStore.setShippingCost_store]
    exact h
  | setStoreDiscount new_discount =>
    simp only [SupplierReq.handle, EStore.setStoreDiscount_store]
    exact h

/-- The single-item buy keeps the quantities of valid slots non-negative, on entry and after
any wake-up. -/
theorem EStore.buyItem_stockNonneg (s : EStore N) (item_id : Fin N) (budget : ℚ)
    (h : s.stockNonneg) :
    (s.buyItem item_id budget).store.stockNonneg ∧
    (s.buyItemWake item_id budget).store.stockNonneg := by
  have hloop : (s.buyItemLoop item_id budget).store.stockNonneg := by
    unfold EStore.buyItemLoop
    by_cases hw : s.waitCondition item_id budget
    · rw [if_pos hw]
      exact h
    · rw [if_neg hw]
      by_cases hv : (s.inventory item_id).valid = false
      · rw [if_pos hv]
        exact h
      · rw [if_neg hv]
        have hv2 : (s.inventory item_id).valid = true := by simpa using hv
        have hq : (s.inventory item_id).quantity ≠ 0 := fun hq => hw ⟨hv2, Or.inl hq⟩
        refine EStore.setItem_stockNonneg s item_id _ h (fun _ => ?_)
        have := h item_id hv2
        simp only
        omega
  refine ⟨?_, hloop⟩
  unfold EStore.buyItem
  split_ifs
  · exact h
  · exact h
  · exact hloop

/-- The multi-item buy keeps the quantities of valid slots non-negative, whatever the
order: it takes one unit from slots that are in stock, and only when no id is repeated. -/
theorem EStore.buyManyItems_stockNonneg (s : EStore N) (ids : List (Fin N)) (budget : ℚ)
    (h : s.stockNonneg) :
    (s.buyManyItems ids budget).store.stockNonneg := by
  by_cases hm : s.fineMode = true
  · rw [EStore.buyManyItems_store s ids budget hm]
    split_ifs with hc
    · intro j hj
      rw [EStore.buyAll_inventory] at hj ⊢
      have hq := h j hj
      by_cases hmem : j ∈ ids
      · have h1 := (hc.1 j hmem).2
        rw [List.count_eq_one_of_mem hc.2.1 hmem]
        simp only [Nat.cast_one]
        omega
      · rw [List.count_eq_zero_of_not_mem hmem]
        simpa using hq
    · exact h
  · have hm2 : s.fineMode = false := by simpa using hm
    simpa [EStore.buyManyItems, EStore.fineModeEnabled, hm2] using h

/-- Every operation keeps the quantities of valid slots non-negative, given a non-negative
quantity for `addItem` and a non-negative count for `addStock`. -/
theorem StoreOp.apply_stockNonneg (s : EStore N) (op : StoreOp N)
    (hop : op.nonnegArgs) (h : s.stockNonneg) : (op.apply s).stockNonneg := by
  cases op with
  | supplier req =>
    refine SupplierReq.handle_stockNonneg s req ?_ h
    cases req <;> exact hop
  | buyItem item_id budget => exact (EStore.buyItem_stockNonneg s item_id budget h).1
  | buyItemWake item_id budget => exact (EStore.buyItem_stockNonneg s item_id budget h).2
  | buyManyItems item_ids budget => exact EStore.buyManyItems_stockNonneg s item_ids budget h

theorem EStore.runOps_stockNonneg (ops : List (StoreOp N)) (s : EStore N)
    (hops : ∀ op ∈ ops, op.nonnegArgs) (h : s.stockNonneg) : (s.runOps ops).stockNonneg := by
  induction ops generalizing s with
  | nil => exact h
  | cons op rest ih =>
    exact ih (op.apply s) (fun o ho => hops o (List.mem_cons_of_mem op ho))
      (StoreOp.apply_stockNonneg s op (hops op (List.mem_cons_self op rest)) h)

/-- C5. Quantity never goes negative.  From a store in which every valid slot has a
quantity of at least 0, every operation (a supplier call, with a quantity of at least 0 for
`addItem` and a count of at least 0 for `addStock`; `buyItem` on entry and after a wake-up;
`buyManyItems` with any list) leaves a store in which every valid slot has a quantity of at
least 0; the store built by the constructor is such a store, whatever the memory it is built
in; hence so is every store reached from it by such operations. -/
theorem stock_never_negative (s : EStore N) (op : StoreOp N) (ops : List (StoreOp N))
    (enableFineMode : Bool) (memory : Fin N → Item) :
    (s.stockNonneg → op.nonnegArgs → (op.apply s).stockNonneg) ∧
    (s.stockNonneg → (∀ o ∈ ops, o.nonnegArgs) → (s.runOps ops).stockNonneg) ∧
    (EStore.new enableFineMode memory).stockNonneg ∧
    ((∀ o ∈ ops, o.nonnegArgs) →
      ((EStore.new enableFineMode memory).runOps ops).stockNonneg) := by
  have hnew : (EStore.new enableFineMode memory).stockNonneg := by
    intro j hj
    simp [EStore.new] at hj
  exact ⟨fun h hop => StoreOp.apply_stockNonneg s op hop h,
    fun h hops => EStore.runOps_stockNonneg ops s hops h, hnew,
    fun hops => EStore.runOps_stockNonneg ops _ hops hnew⟩

/-- The fine store carrying one unit of item 1 has no negative quantity, the order `[1,1]`
is an operation like any other, and the store it leaves has no negative quantity either:
slot 1 still holds its one unit, the call being blocked at its second `smutex_lock`. -/
theorem stock_never_negative_witness :
    oneUnitStore.stockNonneg ∧
    (StoreOp.buyManyItems [1, 1] 1000 : StoreOp 16).nonnegArgs ∧
    ((StoreOp.buyManyItems [1, 1] 1000).apply oneUnitStore).stockNonneg ∧
    (((StoreOp.buyManyItems [1, 1] 1000).apply oneUnitStore).inventory 1).quantity = 1 ∧
    (oneUnitStore.buyManyItems [1, 1] 1000).status = Status.blocked := by
  have h0 : oneUnitStore.stockNonneg := by
    intro j
    by_cases hj : j = 1
    · subst hj
      simp [oneUnitStore, emptyFine, EStore.new, EStore.addItem, EStore.fineModeEnabled,
        EStore.setItem]
    · simp [oneUnitStore, emptyFine, EStore.new, EStore.addItem, EStore.fineModeEnabled,
        EStore.setItem, Function.update, hj]
  have h1 : (StoreOp.buyManyItems [1, 1] 1000 : StoreOp 16).nonnegArgs := by
    simp [StoreOp.nonnegArgs]
  have hm : oneUnitStore.fineMode = true := by
    simp [oneUnitStore, emptyFine, EStore.new, EStore.addItem, EStore.fineModeEnabled]
  have hsort : EStore.sortIds ([1, 1] : List (Fin 16)) = [1] ++ 1 :: [] := by decide
  have hrun := EStore.buyManyItems_blocked oneUnitStore [1, 1] 1000 hm (by simp)
    [1] 1 [] hsort
    (by simp [oneUnitStore, emptyFine, EStore.new, EStore.addItem, EStore.fineModeEnabled,
      EStore.setItem])
    (by simp) (by simp)
  refine ⟨h0, h1,
    (stock_never_negative oneUnitStore (StoreOp.buyManyItems [1, 1] 1000) [] true
      (fun _ => { valid := false, quantity := 0, price := 0, discount := 0 })).1 h0 h1,
    ?_, ?_⟩
  · simp only [StoreOp.apply]
    rw [hrun]
    simp [oneUnitStore, emptyFine, EStore.new, EStore.addItem, EStore.fineModeEnabled,
      EStore.setItem]
  · rw [hrun]

end StockInvariant


/-! ## The contract of the mutators -/

section MutatorContract

variable {N : Nat}

/-- C11. `addItem(id, qty, price, discount)`, in either mode: if the slot is invalid, the slot
is afterwards valid with exactly the given quantity, price and discount; if the slot is
already valid, the whole store is unchanged, whatever the parameters.  In both cases the call
returns and every other slot, the store discount, the shipping cost and the mode are
unchanged. -/
theorem addItem_effect (s : EStore N) (item_id : Fin N) (quantity : Int)
    (price discount : ℚ) :
    ((s.inventory item_id).valid = false →
      (s.addItem item_id quantity price discount).store.inventory item_id =
        { valid := true, quantity := quantity, price := price, discount := discount }) ∧
    ((s.inventory item_id).valid = true →
      (s.addItem item_id quantity price discount).store = s) ∧
    (∀ j, j ≠ item_id →
      (s.addItem item_id quantity price discount).store.inventory j = s.inventory j) ∧
    (s.addItem item_id quantity price discount).store.storeDiscount = s.storeDiscount ∧
    (s.addItem item_id quantity price discount).store.shippingCost = s.shippingCost ∧
    (s.addItem item_id quantity price discount).store.fineMode = s.fineMode ∧
    (s.addItem item_id quantity price discount).status = Status.returned := by
  rw [EStore.addItem_store]
  refine ⟨?_, ?_, ?_, ?_, ?_, ?_, ?_⟩
  · intro h
    simp [h]
  · intro h
    simp [h]
  · intro j hj
    split_ifs
    · rfl
    · exact EStore.setItem_inventory_ne s _ hj
  · split_ifs <;> rfl
  · split_ifs <;> rfl
  · split_ifs <;> rfl
  · unfold EStore.addItem
    split_ifs <;> rfl

/-- On an empty store `addItem(5, 2, 10.0, 0.0)` fills slot 5 with exactly these values, and
a second `addItem(5, 9, 1.0, 0.5)` on the result changes nothing. -/
theorem addItem_effect_witness :
    (emptyCoarse.addItem 5 2 10 0).store.inventory 5 =
      { valid := true, quantity := 2, price := 10, discount := 0 } ∧
    ((emptyCoarse.addItem 5 2 10 0).store.addItem 5 9 1 (1 / 2)).store
      = (emptyCoarse.addItem 5 2 10 0).store :=
  ⟨(addItem_effect emptyCoarse 5 2 10 0).1 (by simp [emptyCoarse, EStore.new]),
    (addItem_effect (emptyCoarse.addItem 5 2 10 0).store 5 9 1 (1 / 2)).2.1
      (by simp [emptyCoarse, EStore.new, EStore.addItem, EStore.fineModeEnabled])⟩

/-- C12. On a slot the store does not carry, in either mode, `removeItem`, `addStock`,
`priceItem` and `discountItem` each return with the whole store unchanged, the stale fields
of the invalid slot included; and `removeItem` applied twice leaves the same store as
`removeItem` applied once, on any store. -/
theorem not_carried_is_noop (s : EStore N) (item_id : Fin N) (count : Int)
    (price discount : ℚ) :
    ((s.inventory item_id).valid = false →
      ((s.removeItem item_id).store = s ∧
        (s.removeItem item_id).status = Status.returned) ∧
      ((s.addStock item_id count).store = s ∧
        (s.addStock item_id count).status = Status.returned) ∧
      ((s.priceItem item_id price).store = s ∧
        (s.priceItem item_id price).status = Status.returned) ∧
      ((s.discountItem item_id discount).store = s ∧
        (s.discountItem item_id discount).status = Status.returned)) ∧
    ((s.removeItem item_id).store.removeItem item_id).store = (s.removeItem item_id).store := by
  constructor
  · intro h
    refine ⟨⟨?_, ?_⟩, ⟨?_, ?_⟩, ⟨?_, ?_⟩, ⟨?_, ?_⟩⟩
    · rw [EStore.removeItem_store, if_pos h]
    · unfold EStore.removeItem
      split_ifs <;> rfl
    · rw [EStore.addStock_store, if_pos h]
    · unfold EStore.addStock
      split_ifs <;> rfl
    · rw [EStore.priceItem_store, if_pos h]
    · unfold EStore.priceItem
      split_ifs <;> rfl
    · rw [EStore.discountItem_store, if_pos h]
    · unfold EStore.discountItem
      split_ifs <;> rfl
  · have hinv : ((s.removeItem item_id).store.inventory item_id).valid = false := by
      rw [EStore.removeItem_store]
      split_ifs with h
      · exact h
      · simp
    rw [EStore.removeItem_store (s.removeItem item_id).store, if_pos hinv]

/-- On an empty store, whose slot 4 is invalid, `removeItem(4)` and `addStock(4, 3)` change
nothing. -/
theorem not_carried_is_noop_witness :
    (emptyCoarse.removeItem 4).store = emptyCoarse ∧
    (emptyCoarse.addStock 4 3).store = emptyCoarse :=
  ⟨((not_carried_is_noop emptyCoarse 4 3 1 0).1 (by simp [emptyCoarse, EStore.new])).1.1,
    ((not_carried_is_noop emptyCoarse 4 3 1 0).1 (by simp [emptyCoarse, EStore.new])).2.1.1⟩

/-- C13. Each mutator changes only the field it names.  On a valid slot, in either mode,
`removeItem` rewrites the slot with `valid` false, `addStock(id, n)` with `quantity + n`,
`priceItem(id, p)` with price `p`, `discountItem(id, d)` with discount `d`, every other field
of the slot, every other slot, both global parameters and the mode staying as they were;
`setShippingCost(c)` sets the shipping cost to `c` and `setStoreDiscount(d)` the store
discount to `d`, the inventory, the other global parameter and the mode staying as they
were. -/
theorem mutator_changes_one_field (s : EStore N) (item_id : Fin N) (count : Int)
    (price discount cost : ℚ) :
    ((s.inventory item_id).valid = true →
      (s.removeItem item_id).store =
        s.setItem item_id { s.inventory item_id with valid := false } ∧
      (s.addStock item_id count).store =
        s.setItem item_id
          { s.inventory item_id with quantity := (s.inventory item_id).quantity + count } ∧
      (s.priceItem item_id price).store =
        s.setItem item_id { s.inventory item_id with price := price } ∧
      (s.discountItem item_id discount).store =
        s.setItem item_id { s.inventory item_id with discount := discount }) ∧
    (s.setShippingCost cost).store = { s with shippingCost := cost } ∧
    (s.setStoreDiscount discount).store = { s with storeDiscount := discount } ∧
    (∀ (item : Item) (j : Fin N), j ≠ item_id →
      (s.setItem item_id item).inventory j = s.inventory j) ∧
    (∀ item : Item, (s.setItem item_id item).inventory item_id = item ∧
      (s.setItem item_id item).storeDiscount = s.storeDiscount ∧
      (s.setItem item_id item).shippingCost = s.shippingCost ∧
      (s.setItem item_id item).fineMode = s.fineMode) := by
  refine ⟨?_, EStore.setShippingCost_store s cost, EStore.setStoreDiscount_store s discount,
    fun item j hj => EStore.setItem_inventory_ne s item hj,
    fun item => ⟨EStore.setItem_inventory_same s item_id item, rfl, rfl, rfl⟩⟩
  intro h
  have h2 : ¬ (s.inventory item_id).valid = false := by simp [h]
  refine ⟨?_, ?_, ?_, ?_⟩
  · rw [EStore.removeItem_store, if_neg h2]
  · rw [EStore.addStock_store, if_neg h2]
  · rw [EStore.priceItem_store, if_neg h2]
  · rw [EStore.discountItem_store, if_neg h2]

/-- On the store of scenario 1 (slot 5: 2 units at 10.0), `addStock(5, 3)` leaves slot 5 with
5 units and its price at 10. -/
theorem mutator_changes_one_field_witness :
    ((basicBuyStore.addStock 5 3).store.inventory 5).quantity = 5 ∧
    ((basicBuyStore.addStock 5 3).store.inventory 5).price = 10 := by
  have h := ((mutator_changes_one_field basicBuyStore 5 3 0 0 0).1
    (by simp [basicBuyStore, emptyCoarse, EStore.new, EStore.addItem, EStore.setShippingCost,
      EStore.fineModeEnabled])).2.1
  rw [h]
  simp [basicBuyStore, emptyCoarse, EStore.new, EStore.addItem, EStore.setShippingCost,
    EStore.fineModeEnabled]

/-- C14, as stated, fails when the slot is valid at the start: on a store whose slot 3 holds
4 units at 20.0, `addItem(3, 1, 1.0, 0.0)`, `removeItem(3)`, `addItem(3, 7, 5.0, 0.0)` leaves
slot 3 with 7 units, while the single `addItem(3, 7, 5.0, 0.0)` leaves its 4 units. -/
theorem addItem_round_trip_counterexample :
    (((roundTripStore.addItem 3 1 1 0).store.removeItem 3).store.addItem 3 7 5 0).store
      ≠ (roundTripStore.addItem 3 7 5 0).store := by
  intro h
  have hq := congrArg (fun t : EStore 16 => (t.inventory 3).quantity) h
  simp [roundTripStore, emptyCoarse, EStore.new, EStore.addItem, EStore.removeItem,
    EStore.fineModeEnabled] at hq

/-- C14, amended. When the slot is invalid at the start, `addItem(id, q1, p1, d1)`, then
`removeItem(id)`, then `addItem(id, q2, p2, d2)` leaves the same store as the single call
`addItem(id, q2, p2, d2)`.  On any store the three calls leave the slot valid with
`q2, p2, d2` and everything else unchanged. -/
theorem addItem_round_trip (s : EStore N) (item_id : Fin N) (q1 q2 : Int)
    (p1 d1 p2 d2 : ℚ) :
    ((s.inventory item_id).valid = false →
      (((s.addItem item_id q1 p1 d1).store.removeItem item_id).store.addItem
          item_id q2 p2 d2).store
        = (s.addItem item_id q2 p2 d2).store) ∧
    (((s.addItem item_id q1 p1 d1).store.removeItem item_id).store.addItem
        item_id q2 p2 d2).store
      = s.setItem item_id { valid := true, quantity := q2, price := p2, discount := d2 } := by
  have hseq : (((s.addItem item_id q1 p1 d1).store.removeItem item_id).store.addItem
        item_id q2 p2 d2).store
      = s.setItem item_id { valid := true, quantity := q2, price := p2, discount := d2 } := by
    have hinv : (((s.addItem item_id q1 p1 d1).store.removeItem item_id).store.inventory
        item_id).valid = false := by
      rw [EStore.removeItem_store]
      split_ifs with h
      · exact h
      · simp
    rw [EStore.addItem_store, if_neg (by simp [hinv])]
    apply EStore.ext_fields
    · rw [EStore.removeItem_store, EStore.addItem_store]
      split_ifs <;> rfl
    · intro j
      by_cases hj : j = item_id
      · subst hj
        simp
      · rw [EStore.setItem_inventory_ne _ _ hj, EStore.setItem_inventory_ne _ _ hj,
          EStore.removeItem_store, EStore.addItem_store]
        split_ifs <;> simp [hj]
    · rw [EStore.removeItem_store, EStore.addItem_store]
      split_ifs <;> rfl
    · rw [EStore.removeItem_store, EStore.addItem_store]
      split_ifs <;> rfl
  refine ⟨?_, hseq⟩
  intro h
  rw [hseq, EStore.addItem_store, if_neg (by simp [h])]

/-- On an empty store, `addItem(5, 2, 10.0, 0.0)`, `removeItem(5)`, `addItem(5, 7, 5.0, 0.0)`
leaves the same store as `addItem(5, 7, 5.0, 0.0)` alone. -/
theorem addItem_round_trip_witness :
    (((emptyCoarse.addItem 5 2 10 0).store.removeItem 5).store.addItem 5 7 5 0).store
      = (emptyCoarse.addItem 5 7 5 0).store :=
  (addItem_round_trip emptyCoarse 5 2 7 10 0 5 0).1 (by simp [emptyCoarse, EStore.new])

/-- C15. The two modes share one mutator contract: on the same inventory, store discount
and shipping cost, every supplier call with the same arguments returns in both modes and
leaves the same inventory, store discount and shipping cost in fine mode as in coarse mode;
the mode itself is kept, and fine mode never touches `mutex` nor broadcasts. -/
theorem modes_share_mutator_contract (s : EStore N) (req : SupplierReq N) :
    (req.handle { s with fineMode := true }).store.inventory
      = (req.handle { s with fineMode := false }).store.inventory ∧
    (req.handle { s with fineMode := true }).store.storeDiscount
      = (req.handle { s with fineMode := false }).store.storeDiscount ∧
    (req.handle { s with fineMode := true }).store.shippingCost
      = (req.handle { s with fineMode := false }).store.shippingCost ∧
    (req.handle { s with fineMode := true }).store.fineMode = true ∧
    (req.handle { s with fineMode := false }).store.fineMode = false ∧
    (req.handle { s with fineMode := true }).status = Status.returned ∧
    (req.handle { s with fineMode := false }).status = Status.returned ∧
    Event.broadcast ∉ (req.handle { s with fineMode := true }).trace ∧
    Event.lock Mutex.mutex ∉ (req.handle { s with fineMode := true }).trace := by
  cases req with
  | addItem id quantity price discount =>
    simp only [SupplierReq.handle, EStore.addItem, EStore.fineModeEnabled]
    cases (s.inventory id).valid <;> simp [EStore.setItem]
  | removeItem id =>
    simp only [SupplierReq.handle, EStore.removeItem, EStore.fineModeEnabled]
    cases (s.inventory id).valid <;> simp [EStore.setItem]
  | addStock id additional_stock =>
    simp only [SupplierReq.handle, EStore.addStock, EStore.fineModeEnabled]
    cases (s.inventory id).valid <;> simp [EStore.setItem]
  | changeItemPrice id new_price =>
    simp only [SupplierReq.handle, EStore.priceItem, EStore.fineModeEnabled]
    cases (s.inventory id).valid <;> simp [EStore.setItem]
  | changeItemDiscount id new_discount =>
    simp only [SupplierReq.handle, EStore.discountItem, EStore.fineModeEnabled]
    cases (s.inventory id).valid <;> simp [EStore.setItem]
  | setShippingCost new_cost =>
    simp [SupplierReq.handle, EStore.setShippingCost, EStore.fineModeEnabled]
  | setStoreDiscount new_discount =>
    simp [SupplierReq.handle, EStore.setStoreDiscount, EStore.fineModeEnabled]

/-- C16. The mode preconditions are asserted before anything else: `buyItem` fails its
assertion exactly when the store is in fine mode and `buyManyItems` exactly when it is in
coarse mode, the mode being the one given to the constructor; in the failing case no call
into the threading library has been made, the store is unchanged and the caller's vector has
not been reordered. -/
theorem mode_assertions (s : EStore N) (item_id : Fin N) (item_ids : List (Fin N))
    (budget : ℚ) (enableFineMode : Bool) (memory : Fin N → Item) :
    ((s.buyItem item_id budget).status = Status.assertFailed ↔ s.fineMode = true) ∧
    ((s.buyManyItems item_ids budget).status = Status.assertFailed ↔ s.fineMode = false) ∧
    (s.fineMode = true →
      (s.buyItem item_id budget).trace = [] ∧ (s.buyItem item_id budget).store = s) ∧
    (s.fineMode = false →
      (s.buyManyItems item_ids budget).trace = [] ∧
      (s.buyManyItems item_ids budget).store = s ∧
      (s.buyManyItems item_ids budget).item_ids = item_ids) ∧
    (((EStore.new enableFineMode memory).buyItem item_id budget).status
      = Status.assertFailed ↔ enableFineMode = true) ∧
    (((EStore.new enableFineMode memory).buyManyItems item_ids budget).status
      = Status.assertFailed ↔ enableFineMode = false) := by
  have h1 : ∀ t : EStore N,
      ((t.buyItem item_id budget).status = Status.assertFailed ↔ t.fineMode = true) := by
    intro t
    unfold EStore.buyItem EStore.buyItemLoop EStore.fineModeEnabled
    cases t.fineMode
    · simp only [Bool.false_eq_true, if_false, iff_false]
      split_ifs <;> simp
    · simp
  have h2 : ∀ t : EStore N,
      ((t.buyManyItems item_ids budget).status = Status.assertFailed ↔
        t.fineMode = false) := by
    intro t
    cases hm : t.fineMode
    · simp [EStore.buyManyItems, EStore.fineModeEnabled, hm]
    · rcases EStore.buyManyItems_status t item_ids budget hm with hst | hst <;>
        simp [hst]
  refine ⟨h1 s, h2 s, ?_, ?_, h1 _, h2 _⟩
  · intro h
    simp [EStore.buyItem, EStore.fineModeEnabled, h]
  · intro h
    simp [EStore.buyManyItems, EStore.fineModeEnabled, h]

/-- On the fine-mode store of scenario 5, `buyItem(1, 100.0)` fails its assertion without
any library call, and on the coarse-mode store of scenario 1 `buyManyItems([5], 100.0)`
does. -/
theorem mode_assertions_witness :
    (atomicBuyStore.buyItem 1 100).trace = [] ∧
    (basicBuyStore.buyManyItems [5] 100).trace = [] :=
  ⟨((mode_assertions atomicBuyStore 1 [] 100 true (fun _ =>
      { valid := false, quantity := 0, price := 0, discount := 0 })).2.2.1
      (by simp [atomicBuyStore, emptyFine, EStore.new, EStore.addItem,
        EStore.setShippingCost, EStore.fineModeEnabled])).1,
    ((mode_assertions basicBuyStore 5 [5] 100 false (fun _ =>
      { valid := false, quantity := 0, price := 0, discount := 0 })).2.2.2.1
      (by simp [basicBuyStore, emptyCoarse, EStore.new, EStore.addItem,
        EStore.setShippingCost, EStore.fineModeEnabled])).1⟩

end MutatorContract

/-! ## The task queue -/

section Queue

variable {Req : Type}

theorem TaskQueue.enqueue_inStep (q : TaskQueue Req) (task : TaskQueue.Task Req)
    (hq : q.inStep) : (q.enqueue task).state.inStep := by
  unfold TaskQueue.inStep at hq ⊢
  simp [TaskQueue.enqueue, hq]

theorem TaskQueue.dequeueLoop_nil (q : TaskQueue Req) (hq : q.inStep) (h : q.queue = []) :
    q.dequeueLoop = some
      { state := q, trace := [QueueEvent.wait], status := Status.waiting, result := none } := by
  have h0 : q.queueSize = 0 := by
    unfold TaskQueue.inStep at hq
    simp [hq, h]
  simp [TaskQueue.dequeueLoop, h0]

theorem TaskQueue.dequeueLoop_cons (q : TaskQueue Req) (hq : q.inStep)
    (front : TaskQueue.Task Req) (rest : List (TaskQueue.Task Req))
    (h : q.queue = front :: rest) :
    q.dequeueLoop = some
      { state := { queue := rest, queueSize := q.queueSize - 1 },
        trace := [QueueEvent.broadcast, QueueEvent.unlock],
        status := Status.returned,
        result := some front } := by
  have h0 : q.queueSize ≠ 0 := by
    unfold TaskQueue.inStep at hq
    rw [hq, h]
    simp only [List.length_cons]
    omega
  simp [TaskQueue.dequeueLoop, h0, h]

theorem TaskQueue.dequeue_cons_inStep (q : TaskQueue Req) (hq : q.inStep)
    (front : TaskQueue.Task Req) (rest : List (TaskQueue.Task Req))
    (h : q.queue = front :: rest) :
    TaskQueue.inStep ({ queue := rest, queueSize := q.queueSize - 1 } : TaskQueue Req) := by
  unfold TaskQueue.inStep at hq ⊢
  simp only [hq, h, List.length_cons]
  push_cast
  ring

theorem TaskQueue.runCalls_enqueue (q : TaskQueue Req) (task : TaskQueue.Task Req)
    (rest : List (QueueCall Req)) :
    q.runCalls (QueueCall.enqueue task :: rest) = (q.enqueue task).state.runCalls rest := rfl

theorem TaskQueue.runCalls_dequeue (q : TaskQueue Req) (rest : List (QueueCall Req)) :
    q.runCalls (QueueCall.dequeue :: rest) =
      match q.dequeue with
      | none => none
      | some r =>
        match r.result with
        | none => none
        | some task =>
          match TaskQueue.runCalls r.state rest with
          | none => none
          | some (q2, out) => some (q2, task :: out) := rfl

theorem TaskQueue.runCalls_spec (calls : List (QueueCall Req)) (q : TaskQueue Req)
    (hq : q.inStep) :
    ((q.runCalls calls).isSome ↔ QueueCall.neverEmpty q.queue.length calls = true) ∧
    (∀ q2 out, q.runCalls calls = some (q2, out) →
      out ++ q2.queue = q.queue ++ QueueCall.enqueued calls ∧ q2.inStep) := by
  induction calls generalizing q with
  | nil =>
    refine ⟨by simp [TaskQueue.runCalls, QueueCall.neverEmpty], ?_⟩
    intro q2 out h
    simp only [TaskQueue.runCalls, Option.some.injEq, Prod.mk.injEq] at h
    obtain ⟨rfl, rfl⟩ := h
    exact ⟨by simp [QueueCall.enqueued], hq⟩
  | cons call rest ih =>
    cases call with
    | enqueue task =>
      have ih2 := ih (q.enqueue task).state (TaskQueue.enqueue_inStep q task hq)
      have hlen : (q.enqueue task).state.queue.length = q.queue.length + 1 := by
        simp [TaskQueue.enqueue]
      refine ⟨?_, ?_⟩
      · simp only [TaskQueue.runCalls, QueueCall.neverEmpty]
        rw [ih2.1, hlen]
      · intro q2 out h
        simp only [TaskQueue.runCalls] at h
        obtain ⟨h1, h2⟩ := ih2.2 q2 out h
        refine ⟨?_, h2⟩
        rw [h1]
        simp [TaskQueue.enqueue, QueueCall.enqueued]
    | dequeue =>
      cases hqq : q.queue with
      | nil =>
        have hd : q.dequeue = some
            { state := q, trace := [QueueEvent.lock, QueueEvent.wait],
              status := Status.waiting, result := none } := by
          simp [TaskQueue.dequeue, TaskQueue.dequeueLoop_nil q hq hqq]
        refine ⟨?_, ?_⟩
        · simp [TaskQueue.runCalls, hd, QueueCall.neverEmpty]
        · intro q2 out h
          simp [TaskQueue.runCalls, hd] at h
      | cons front tail =>
        have hd : q.dequeue = some
            { state := { queue := tail, queueSize := q.queueSize - 1 },
              trace := [QueueEvent.lock, QueueEvent.broadcast, QueueEvent.unlock],
              status := Status.returned, result := some front } := by
          simp [TaskQueue.dequeue, TaskQueue.dequeueLoop_cons q hq front tail hqq]
        have ih2 := ih { queue := tail, queueSize := q.queueSize - 1 }
          (TaskQueue.dequeue_cons_inStep q hq front tail hqq)
        refine ⟨?_, ?_⟩
        · simp only [TaskQueue.runCalls, hd, List.length_cons, QueueCall.neverEmpty]
          rw [← ih2.1]
          cases TaskQueue.runCalls
            ({ queue := tail, queueSize := q.queueSize - 1 } : TaskQueue Req) rest with
          | none => simp
          | some p => simp
        · intro q2 out h
          simp only [TaskQueue.runCalls, hd] at h
          cases hr : TaskQueue.runCalls
            ({ queue := tail, queueSize := q.queueSize - 1 } : TaskQueue Req) rest with
          | none => simp [hr] at h
          | some p =>
            obtain ⟨q3, out3⟩ := p
            simp only [hr, Option.some.injEq, Prod.mk.injEq] at h
            obtain ⟨rfl, rfl⟩ := h
            obtain ⟨h1, h2⟩ := ih2.2 q3 out3 hr
            refine ⟨?_, h2⟩
            simp only [List.cons_append, QueueCall.enqueued]
            rw [h1]

theorem TaskQueue.runCalls_enqueues (tasks : List (TaskQueue.Task Req)) (q : TaskQueue Req)
    (rest : List (QueueCall Req)) :
    q.runCalls (tasks.map QueueCall.enqueue ++ rest) =
      TaskQueue.runCalls
        { queue := q.queue ++ tasks, queueSize := q.queueSize + (tasks.length : Int) } rest := by
  induction tasks generalizing q with
  | nil => simp
  | cons t ts ih =>
    rw [List.map_cons, List.cons_append, TaskQueue.runCalls_enqueue, ih]
    congr 2
    · simp [TaskQueue.enqueue]
    · simp only [TaskQueue.enqueue, List.length_cons]
      push_cast
      ring

theorem TaskQueue.runCalls_dequeues (tasks : List (TaskQueue.Task Req)) :
    TaskQueue.runCalls
        ({ queue := tasks, queueSize := (tasks.length : Int) } : TaskQueue Req)
        (List.replicate tasks.length QueueCall.dequeue)
      = some (TaskQueue.new, tasks) := by
  induction tasks with
  | nil => simp [TaskQueue.runCalls, TaskQueue.new]
  | cons t ts ih =>
    have hq : TaskQueue.inStep
        ({ queue := t :: ts, queueSize := ((t :: ts).length : Int) } : TaskQueue Req) := rfl
    have hd := TaskQueue.dequeueLoop_cons _ hq t ts rfl
    have hs : ((t :: ts).length : Int) - 1 = (ts.length : Int) := by
      simp only [List.length_cons]
      push_cast
      ring
    simp only [List.length_cons] at hd hs ⊢
    rw [hs] at hd
    rw [List.replicate_succ, TaskQueue.runCalls_dequeue, TaskQueue.dequeue, hd]
    simp only [Option.map_some']
    rw [ih]

/-- C17. The task queue is first in, first out.  For a queue whose count is in step with its
sequence and any sequence of `enqueue` and `dequeue` calls made by one thread, the calls all
return exactly when no `dequeue` meets an empty queue, and then the tasks returned by the
`dequeue` calls, followed by what is left in the queue, are the tasks that were in the queue
followed by the tasks enqueued, in order: the k-th task returned is the k-th of them.  In
particular after `enqueue(t1)`, ..., `enqueue(tn)` on a new queue, n calls of `dequeue`
return `t1`, ..., `tn` in that order and leave the queue empty. -/
theorem taskQueue_fifo (q : TaskQueue Req) (calls : List (QueueCall Req))
    (tasks : List (TaskQueue.Task Req)) :
    (q.inStep →
      ((q.runCalls calls).isSome ↔ QueueCall.neverEmpty q.queue.length calls = true)) ∧
    (q.inStep → ∀ q2 out, q.runCalls calls = some (q2, out) →
      out ++ q2.queue = q.queue ++ QueueCall.enqueued calls ∧
      (∀ k, k < out.length → out[k]? = (q.queue ++ QueueCall.enqueued calls)[k]?)) ∧
    TaskQueue.new.runCalls
        (tasks.map QueueCall.enqueue ++ List.replicate tasks.length QueueCall.dequeue)
      = some (TaskQueue.new, tasks) := by
  refine ⟨fun hq => (TaskQueue.runCalls_spec calls q hq).1, ?_, ?_⟩
  · intro hq q2 out h
    have h1 := ((TaskQueue.runCalls_spec calls q hq).2 q2 out h).1
    refine ⟨h1, ?_⟩
    intro k hk
    rw [← h1, List.getElem?_append_left hk]
  · rw [TaskQueue.runCalls_enqueues]
    simp only [TaskQueue.new, List.nil_append, zero_add]
    exact TaskQueue.runCalls_dequeues tasks

/-- On the queue holding two requests and a stop marker, one thread that enqueues a second
stop marker and then calls `dequeue` twice gets the two requests, in the order in which they
were enqueued. -/
theorem taskQueue_fifo_witness :
    ∃ q2, threeTaskQueue.runCalls
        [QueueCall.enqueue TaskQueue.Task.stop, QueueCall.dequeue, QueueCall.dequeue]
      = some (q2, [TaskQueue.Task.request (SupplierReq.addItem 5 2 10 0),
          TaskQueue.Task.request (SupplierReq.addStock 5 1)]) := by
  have hq : threeTaskQueue.inStep := by
    simp [TaskQueue.inStep, threeTaskQueue, TaskQueue.enqueue, TaskQueue.new]
  have h := taskQueue_fifo threeTaskQueue
    [QueueCall.enqueue TaskQueue.Task.stop, QueueCall.dequeue, QueueCall.dequeue] []
  have hsome := (h.1 hq).mpr (by
    simp [threeTaskQueue, TaskQueue.enqueue, TaskQueue.new, QueueCall.neverEmpty])
  obtain ⟨⟨q2, out⟩, hr⟩ := Option.isSome_iff_exists.mp hsome
  refine ⟨q2, ?_⟩
  rw [hr]
  have h2 := (h.2.1 hq q2 out hr).2
  have hlen : out.length = 2 := by
    have h3 := congrArg List.length (h.2.1 hq q2 out hr).1
    have hq2 : q2.queue.length = 2 := by
      simp [threeTaskQueue, TaskQueue.runCalls, TaskQueue.dequeue, TaskQueue.dequeueLoop,
        TaskQueue.enqueue, TaskQueue.new] at hr
      rw [← hr.1]
      rfl
    simp [threeTaskQueue, TaskQueue.enqueue, TaskQueue.new, QueueCall.enqueued, hq2] at h3
    exact h3
  match out, hlen, h2 with
  | [a, b], _, h2 =>
    have ha := h2 0 (by simp)
    have hb := h2 1 (by simp)
    simp [threeTaskQueue, TaskQueue.enqueue, TaskQueue.new] at ha hb
    simp [ha, hb]

end Queue

/-! ## Blocking of the task queue and the worker threads -/

section QueueBlocking

variable {Req : Type}

/-- C18. Blocking semantics of the task queue.  On a queue whose count is in step with its
sequence, `dequeue`, on entry and after any wake-up, waits with no result and the queue
unchanged when the queue is empty, and only then; on a non-empty queue it returns the front
task, leaves the rest of the sequence (one task shorter, the count one less) and broadcasts.
On any queue `enqueue` returns without waiting, appends the task at the back and broadcasts;
after it a waiting `dequeue` that is woken up returns. -/
theorem taskQueue_blocking (q : TaskQueue Req) (task : TaskQueue.Task Req) :
    (q.inStep → q.queue = [] →
      q.dequeue = some
        { state := q, trace := [QueueEvent.lock, QueueEvent.wait],
          status := Status.waiting, result := none } ∧
      q.dequeueWake = some
        { state := q, trace := [QueueEvent.wait],
          status := Status.waiting, result := none }) ∧
    (q.inStep → ∀ front rest, q.queue = front :: rest →
      q.dequeue = some
        { state := { queue := rest, queueSize := q.queueSize - 1 },
          trace := [QueueEvent.lock, QueueEvent.broadcast, QueueEvent.unlock],
          status := Status.returned, result := some front } ∧
      q.dequeueWake = some
        { state := { queue := rest, queueSize := q.queueSize - 1 },
          trace := [QueueEvent.broadcast, QueueEvent.unlock],
          status := Status.returned, result := some front } ∧
      rest.length + 1 = q.queue.length) ∧
    (q.inStep → ∀ r, q.dequeue = some r → (r.status = Status.waiting ↔ q.queue = [])) ∧
    (q.inStep → ∀ r, q.dequeueWake = some r → (r.status = Status.waiting ↔ q.queue = [])) ∧
    ((q.enqueue task).status = Status.returned ∧
      QueueEvent.wait ∉ (q.enqueue task).trace ∧
      QueueEvent.broadcast ∈ (q.enqueue task).trace ∧
      (q.enqueue task).state.queue = q.queue ++ [task] ∧
      (q.enqueue task).state.queueSize = q.queueSize + 1) ∧
    (q.inStep → ∃ r, (q.enqueue task).state.dequeueWake = some r ∧
      r.status = Status.returned ∧ r.result = (q.queue ++ [task]).head?) := by
  have hnil : q.inStep → q.queue = [] →
      q.dequeue = some
        { state := q, trace := [QueueEvent.lock, QueueEvent.wait],
          status := Status.waiting, result := none } ∧
      q.dequeueWake = some
        { state := q, trace := [QueueEvent.wait],
          status := Status.waiting, result := none } := by
    intro hq h
    have hl := TaskQueue.dequeueLoop_nil q hq h
    exact ⟨by simp [TaskQueue.dequeue, hl], hl⟩
  have hcons : q.inStep → ∀ front rest, q.queue = front :: rest →
      q.dequeue = some
        { state := { queue := rest, queueSize := q.queueSize - 1 },
          trace := [QueueEvent.lock, QueueEvent.broadcast, QueueEvent.unlock],
          status := Status.returned, result := some front } ∧
      q.dequeueWake = some
        { state := { queue := rest, queueSize := q.queueSize - 1 },
          trace := [QueueEvent.broadcast, QueueEvent.unlock],
          status := Status.returned, result := some front } ∧
      rest.length + 1 = q.queue.length := by
    intro hq front rest h
    have hl := TaskQueue.dequeueLoop_cons q hq front rest h
    exact ⟨by simp [TaskQueue.dequeue, hl], hl, by simp [h]⟩
  refine ⟨hnil, hcons, ?_, ?_, ?_, ?_⟩
  · intro hq r hr
    cases hqq : q.queue with
    | nil =>
      rw [(hnil hq hqq).1] at hr
      cases hr
      simp
    | cons front rest =>
      rw [(hcons hq front rest hqq).1] at hr
      cases hr
      simp
  · intro hq r hr
    cases hqq : q.queue with
    | nil =>
      rw [(hnil hq hqq).2] at hr
      cases hr
      simp
    | cons front rest =>
      rw [(hcons hq front rest hqq).2.1] at hr
      cases hr
      simp
  · simp [TaskQueue.enqueue]
  · intro hq
    have hq2 := TaskQueue.enqueue_inStep q task hq
    cases hqq : q.queue with
    | nil =>
      have h2 : (q.enqueue task).state.queue = task :: [] := by
        simp [TaskQueue.enqueue, hqq]
      exact ⟨_, TaskQueue.dequeueLoop_cons _ hq2 task [] h2, rfl, by simp⟩
    | cons front rest =>
      have h2 : (q.enqueue task).state.queue = front :: (rest ++ [task]) := by
        simp [TaskQueue.enqueue, hqq]
      exact ⟨_, TaskQueue.dequeueLoop_cons _ hq2 front (rest ++ [task]) h2, rfl, by simp⟩

/-- On a new queue `dequeue` waits; after `enqueue` of a stop marker the woken `dequeue`
returns it. -/
theorem taskQueue_blocking_witness :
    (TaskQueue.new : TaskQueue Nat).dequeue = some
      { state := TaskQueue.new, trace := [QueueEvent.lock, QueueEvent.wait],
        status := Status.waiting, result := none } ∧
    (∃ r, ((TaskQueue.new : TaskQueue Nat).enqueue TaskQueue.Task.stop).state.dequeueWake
        = some r ∧ r.status = Status.returned ∧ r.result = some TaskQueue.Task.stop) := by
  have h := taskQueue_blocking (TaskQueue.new : TaskQueue Nat) TaskQueue.Task.stop
  refine ⟨(h.1 rfl rfl).1, ?_⟩
  obtain ⟨r, h1, h2, h3⟩ := h.2.2.2.2.2 rfl
  exact ⟨r, h1, h2, by simpa [TaskQueue.new] using h3⟩

/-- C19 at its failing input. On the supplier queue holding `addItem(5, 2, 10.0, 0.0)`,
`addStock(5, 1)` and a stop marker, a worker thread invokes the handler of the first request
and exits: it exits on a task that is not a stop marker, and the second request and the stop
marker are still in the queue. -/
theorem worker_exits_after_one_task :
    worker threeTaskQueue = some
      { queue :=
          { queue := [TaskQueue.Task.request (SupplierReq.addStock 5 1), TaskQueue.Task.stop],
            queueSize := 2 },
        handled := [TaskQueue.Task.request (SupplierReq.addItem 5 2 10 0)],
        status := Status.returned } := by
  simp [worker, workerAfterDequeue, threeTaskQueue, TaskQueue.dequeue, TaskQueue.dequeueLoop,
    TaskQueue.enqueue, TaskQueue.new]

/-- A worker thread handles at most one task, whatever the queue: on a non-empty queue it
invokes the handler of the front task, stop marker or not, and exits. -/
theorem worker_handles_front_only (q : TaskQueue Req) (hq : q.inStep)
    (front : TaskQueue.Task Req) (rest : List (TaskQueue.Task Req))
    (h : q.queue = front :: rest) :
    worker q = some
      { queue := { queue := rest, queueSize := q.queueSize - 1 },
        handled := [front],
        status := Status.returned } := by
  simp [worker, workerAfterDequeue, TaskQueue.dequeue,
    TaskQueue.dequeueLoop_cons q hq front rest h]

end QueueBlocking

/-! ## Stock conservation -/

section Conservation

variable {N : Nat}

theorem EStore.buyItemLoop_slot (s : EStore N) (item_id id : Fin N) (budget : ℚ)
    (hvalid : (s.inventory id).valid = true) :
    ((s.buyItemLoop item_id budget).store.inventory id).valid = true ∧
    ((s.buyItemLoop item_id budget).store.inventory id).quantity =
      (s.inventory id).quantity -
        (if item_id = id ∧ (s.buyItemLoop item_id budget).status = Status.returned ∧
          (s.inventory item_id).valid = true then 1 else 0) := by
  unfold EStore.buyItemLoop
  by_cases hw : s.waitCondition item_id budget
  · simp [hw, hvalid]
  · by_cases hv : (s.inventory item_id).valid = false
    · simp [hw, hv, hvalid]
    · have hv2 : (s.inventory item_id).valid = true := by simpa using hv
      rw [if_neg hw, if_neg hv, EStore.decrement_inventory]
      by_cases hid : id = item_id
      · subst hid
        simp [hvalid]
      · have hid2 : ¬ item_id = id := fun e => hid e.symm
        simp [hid, hid2, hvalid]

/-- What one operation does to a slot that is valid and that the operation does not remove:
the slot stays valid and its quantity moves by the count asked of `addStock` less the units
bought. -/
theorem StoreOp.apply_slot (s : EStore N) (op : StoreOp N) (id : Fin N)
    (hvalid : (s.inventory id).valid = true)
    (hkeep : op ≠ StoreOp.supplier (SupplierReq.removeItem id)) :
    ((op.apply s).inventory id).valid = true ∧
    ((op.apply s).inventory id).quantity =
      (s.inventory id).quantity + op.stockAsked id - op.unitsBought s id := by
  cases op with
  | supplier req =>
    cases req with
    | addItem i quantity price discount =>
      simp only [StoreOp.apply, SupplierReq.handle, EStore.addItem_store, StoreOp.stockAsked,
        StoreOp.unitsBought, add_zero, sub_zero]
      by_cases hi : id = i
      · subst hi
        simp [hvalid]
      · split_ifs <;> simp [hi, hvalid]
    | removeItem i =>
      have hi : id ≠ i := by
        intro e
        apply hkeep
        rw [e]
      simp only [StoreOp.apply, SupplierReq.handle, EStore.removeItem_store,
        StoreOp.stockAsked, StoreOp.unitsBought, add_zero, sub_zero]
      split_ifs <;> simp [hi, hvalid]
    | addStock i additional_stock =>
      simp only [StoreOp.apply, SupplierReq.handle, EStore.addStock_store, StoreOp.stockAsked,
        StoreOp.unitsBought, sub_zero]
      by_cases hi : id = i
      · subst hi
        simp [hvalid]
      · have hi2 : ¬ i = id := fun e => hi e.symm
        split_ifs <;> simp [hi, hvalid]
    | changeItemPrice i new_price =>
      simp only [StoreOp.apply, SupplierReq.handle, EStore.priceItem_store,
        StoreOp.stockAsked, StoreOp.unitsBought, add_zero, sub_zero]
      by_cases hi : id = i
      · subst hi
        simp [hvalid]
      · split_ifs <;> simp [hi, hvalid]
    | changeItemDiscount i new_discount =>
      simp only [StoreOp.apply, SupplierReq.handle, EStore.discountItem_store,
        StoreOp.stockAsked, StoreOp.unitsBought, add_zero, sub_zero]
      by_cases hi : id = i
      · subst hi
        simp [hvalid]
      · split_ifs <;> simp [hi, hvalid]
    | setShippingCost new_cost =>
      simp [StoreOp.apply, SupplierReq.handle, EStore.setShippingCost_store,
        StoreOp.stockAsked, StoreOp.unitsBought, hvalid]
    | setStoreDiscount new_discount =>
      simp [StoreOp.apply, SupplierReq.handle, EStore.setStoreDiscount_store,
        StoreOp.stockAsked, StoreOp.unitsBought, hvalid]
  | buyItem item_id budget =>
    simp only [StoreOp.apply, StoreOp.stockAsked, StoreOp.unitsBought, add_zero]
    have hloop := EStore.buyItemLoop_slot s item_id id budget hvalid
    unfold EStore.buyItem
    by_cases hm : s.fineModeEnabled = true
    · simp [hm, hvalid]
    · by_cases hv : (s.inventory item_id).valid = false
      · simp [hm, hv, hvalid]
      · rw [if_neg hm, if_neg hv]
        exact hloop
  | buyItemWake item_id budget =>
    simp only [StoreOp.apply, StoreOp.stockAsked, StoreOp.unitsBought, add_zero]
    exact EStore.buyItemLoop_slot s item_id id budget hvalid
  | buyManyItems item_ids budget =>
    simp only [StoreOp.apply, StoreOp.stockAsked, StoreOp.unitsBought, add_zero]
    by_cases hm : s.fineMode = true
    · rw [EStore.buyManyItems_store s item_ids budget hm]
      by_cases hc : s.commits item_ids budget
      · rw [if_pos ⟨hc.2.2.1, hc.2.1, hc.2.2.2⟩, if_pos hc, EStore.buyAll_inventory]
        exact ⟨hvalid, rfl⟩
      · rw [if_neg (fun h => hc ⟨hm, h.2.1, h.1, h.2.2⟩), if_neg hc]
        simp [hvalid]
    · have hm2 : s.fineMode = false := by simpa using hm
      have hc : ¬ s.commits item_ids budget := fun h => hm h.1
      simp [EStore.buyManyItems, EStore.fineModeEnabled, hm2, hc, hvalid]

/-- C20. Stock conservation.  For every finite sequence of store operations and every item
id whose slot is valid at the start, the sequence having no `removeItem(id)` call (the slot
being valid throughout, such a call would take effect), the slot is still valid at the end
and its quantity is the initial quantity, plus the sum of the
counts of all the `addStock(id, n)` calls, minus the units of `id` bought: one for each
`buyItem(id, _)` that completes its purchase and the number of occurrences of `id` in each
committed `buyManyItems` order. -/
theorem stock_conservation (s : EStore N) (ops : List (StoreOp N)) (id : Fin N)
    (hvalid : (s.inventory id).valid = true)
    (hkeep : ∀ op ∈ ops, op ≠ StoreOp.supplier (SupplierReq.removeItem id)) :
    ((s.runOps ops).inventory id).valid = true ∧
    ((s.runOps ops).inventory id).quantity =
      (s.inventory id).quantity + totalStockAsked id ops - s.totalUnitsBought id ops := by
  induction ops generalizing s with
  | nil => simp [EStore.runOps, totalStockAsked, EStore.totalUnitsBought, hvalid]
  | cons op rest ih =>
    have hstep := StoreOp.apply_slot s op id hvalid (hkeep op (List.mem_cons_self op rest))
    have hrest := ih (op.apply s) hstep.1 (fun o ho => hkeep o (List.mem_cons_of_mem op ho))
    refine ⟨hrest.1, ?_⟩
    have h2 := hrest.2
    simp only [EStore.runOps, totalStockAsked, EStore.totalUnitsBought, List.map_cons,
      List.sum_cons] at h2 ⊢
    rw [h2, hstep.2]
    ring

/-- On the store of scenario 1 (slot 5: 2 units at 10.0, shipping 3.0), the sequence
`addStock(5, 3)`, `buyItem(5, 13.0)`, `buyItem(5, 1.0)` (which waits), `priceItem(5, 1.0)`
leaves slot 5 with `2 + 3 - 1 = 4` units. -/
theorem stock_conservation_witness :
    ((basicBuyStore.runOps
      [StoreOp.supplier (SupplierReq.addStock 5 3), StoreOp.buyItem 5 13,
        StoreOp.buyItem 5 1, StoreOp.supplier (SupplierReq.changeItemPrice 5 1)]).inventory
      5).quantity = 4 := by
  have h := (stock_conservation basicBuyStore
    [StoreOp.supplier (SupplierReq.addStock 5 3), StoreOp.buyItem 5 13,
      StoreOp.buyItem 5 1, StoreOp.supplier (SupplierReq.changeItemPrice 5 1)] 5
    (by simp [basicBuyStore, emptyCoarse, EStore.new, EStore.addItem, EStore.setShippingCost,
      EStore.fineModeEnabled])
    (by
      intro op hop
      simp only [List.mem_cons, List.mem_singleton, List.not_mem_nil, or_false] at hop
      rcases hop with rfl | rfl | rfl | rfl <;> simp)).2
  rw [h]
  simp [totalStockAsked, StoreOp.stockAsked, EStore.totalUnitsBought, StoreOp.unitsBought,
    StoreOp.apply, SupplierReq.handle, basicBuyStore, emptyCoarse, EStore.new, EStore.addItem,
    EStore.setShippingCost, EStore.addStock, EStore.buyItem, EStore.buyItemLoop,
    EStore.waitCondition, EStore.itemCost, EStore.decrement, EStore.fineModeEnabled]
  norm_num
  decide

end Conservation

/-! ## The fresh store -/

section FreshStore

variable {N : Nat}

/-- On a store none of whose slots is valid, an operation other than `addItem` leaves every
slot invalid and keeps the mode. -/
theorem StoreOp.apply_allInvalid (s : EStore N) (op : StoreOp N)
    (hinv : ∀ i, (s.inventory i).valid = false)
    (hop : ∀ i q p d, op ≠ StoreOp.supplier (SupplierReq.addItem i q p d)) :
    (∀ i, ((op.apply s).inventory i).valid = false) ∧ (op.apply s).fineMode = s.fineMode := by
  cases op with
  | supplier req =>
    cases req with
    | addItem i q p d => exact absurd rfl (hop i q p d)
    | removeItem i =>
      simp only [StoreOp.apply, SupplierReq.handle, EStore.removeItem_store, if_pos (hinv i)]
      exact ⟨hinv, trivial⟩
    | addStock i n =>
      simp only [StoreOp.apply, SupplierReq.handle, EStore.addStock_store, if_pos (hinv i)]
      exact ⟨hinv, trivial⟩
    | changeItemPrice i p =>
      simp only [StoreOp.apply, SupplierReq.handle, EStore.priceItem_store, if_pos (hinv i)]
      exact ⟨hinv, trivial⟩
    | changeItemDiscount i d =>
      simp only [StoreOp.apply, SupplierReq.handle, EStore.discountItem_store,
        if_pos (hinv i)]
      exact ⟨hinv, trivial⟩
    | setShippingCost c =>
      simp only [StoreOp.apply, SupplierReq.handle, EStore.setShippingCost_store]
      exact ⟨hinv, trivial⟩
    | setStoreDiscount d =>
      simp only [StoreOp.apply, SupplierReq.handle, EStore.setStoreDiscount_store]
      exact ⟨hinv, trivial⟩
  | buyItem item_id budget =>
    have h : (s.buyItem item_id budget).store = s := by
      unfold EStore.buyItem
      split_ifs
      · rfl
      · rfl
      · exact absurd (hinv item_id) (by assumption)
    simp only [StoreOp.apply, h]
    exact ⟨hinv, trivial⟩
  | buyItemWake item_id budget =>
    have hw : ¬ s.waitCondition item_id budget := by
      simp [EStore.waitCondition, hinv item_id]
    have h : (s.buyItemWake item_id budget).store = s := by
      simp [EStore.buyItemWake, EStore.buyItemLoop, hw, hinv item_id]
    simp only [StoreOp.apply, h]
    exact ⟨hinv, trivial⟩
  | buyManyItems item_ids budget =>
    have h : (s.buyManyItems item_ids budget).store = s := by
      cases hm : s.fineMode
      · simp [EStore.buyManyItems, EStore.fineModeEnabled, hm]
      · rw [EStore.buyManyItems_store s item_ids budget hm]
        cases item_ids with
        | nil => simp [EStore.buyAll]
        | cons a l =>
          rw [if_neg]
          intro hc
          have := (hc.1 a (List.mem_cons_self a l)).1
          rw [hinv a] at this
          exact absurd this (by decide)
    simp only [StoreOp.apply, h]
    exact ⟨hinv, trivial⟩

/-- On a fine store none of whose slots is valid, `buyManyItems` returns: it gives up at the
first entry of the sorted list. -/
theorem EStore.buyManyItems_allInvalid_returns (s : EStore N) (ids : List (Fin N))
    (budget : ℚ) (hmode : s.fineMode = true) (hinv : ∀ i, (s.inventory i).valid = false) :
    (s.buyManyItems ids budget).status = Status.returned := by
  have hno : ∀ i, ¬ ((s.inventory i).valid = true ∧ (s.inventory i).quantity ≠ 0) := by
    intro i h
    rw [hinv i] at h
    exact absurd h.1 (by decide)
  by_cases hne : ids = []
  · subst hne
    simp [EStore.buyManyItems, EStore.fineModeEnabled, hmode]
  · rcases EStore.buyManyItems_cases s ids with ⟨_, hok⟩ |
      ⟨pre, bad, post, h1, h2, h3, h4⟩ | ⟨pre, again, post, _, h2, _, h4⟩
    · cases ids with
      | nil => exact absurd rfl hne
      | cons a l => exact absurd (hok a (List.mem_cons_self a l)) (hno a)
    · rw [EStore.buyManyItems_abort s ids budget hmode hne pre bad post h1 h2 h3 h4]
    · exact absurd (h2 again h4) (hno again)

theorem EStore.runOps_allInvalid (ops : List (StoreOp N)) (s : EStore N)
    (hinv : ∀ i, (s.inventory i).valid = false)
    (hops : ∀ op ∈ ops, ∀ i q p d, op ≠ StoreOp.supplier (SupplierReq.addItem i q p d)) :
    (∀ i, ((s.runOps ops).inventory i).valid = false) ∧ (s.runOps ops).fineMode = s.fineMode := by
  induction ops generalizing s with
  | nil => exact ⟨hinv, rfl⟩
  | cons op rest ih =>
    have h1 := StoreOp.apply_allInvalid s op hinv (hops op (List.mem_cons_self op rest))
    have h2 := ih (op.apply s) h1.1 (fun o ho => hops o (List.mem_cons_of_mem op ho))
    exact ⟨h2.1, h2.2.trans h1.2⟩

/-- C21. A freshly constructed store, in either mode, has `storeDiscount = 0`,
`shippingCost = 3.0` and every slot invalid.  Hence, after any sequence of operations none
of which is an `addItem` (on such a store any `addItem` would take effect), every slot is
still invalid, and then every `buyItem` of a coarse store returns without waiting and every
`buyManyItems` of a fine store, on a non-empty order, returns, both leaving the store
unchanged. -/
theorem fresh_store (enableFineMode : Bool) (memory : Fin N → Item)
    (ops : List (StoreOp N)) (item_id : Fin N) (item_ids : List (Fin N)) (budget : ℚ)
    (hops : ∀ op ∈ ops, ∀ i q p d, op ≠ StoreOp.supplier (SupplierReq.addItem i q p d)) :
    (EStore.new enableFineMode memory).storeDiscount = 0 ∧
    (EStore.new enableFineMode memory).shippingCost = 3 ∧
    (∀ i, ((EStore.new enableFineMode memory).inventory i).valid = false) ∧
    (EStore.new enableFineMode memory).fineMode = enableFineMode ∧
    (∀ i, (((EStore.new enableFineMode memory).runOps ops).inventory i).valid = false) ∧
    (enableFineMode = false →
      (((EStore.new enableFineMode memory).runOps ops).buyItem item_id budget).status
        = Status.returned ∧
      Event.wait ∉
        (((EStore.new enableFineMode memory).runOps ops).buyItem item_id budget).trace ∧
      (((EStore.new enableFineMode memory).runOps ops).buyItem item_id budget).store
        = (EStore.new enableFineMode memory).runOps ops) ∧
    (enableFineMode = true → item_ids ≠ [] →
      (((EStore.new enableFineMode memory).runOps ops).buyManyItems item_ids budget).status
        = Status.returned ∧
      (((EStore.new enableFineMode memory).runOps ops).buyManyItems item_ids budget).store
        = (EStore.new enableFineMode memory).runOps ops) := by
  have hnew : ∀ i, ((EStore.new enableFineMode memory).inventory i).valid = false :=
    fun i => rfl
  have hrun := EStore.runOps_allInvalid ops (EStore.new enableFineMode memory) hnew hops
  refine ⟨rfl, rfl, hnew, rfl, hrun.1, ?_, ?_⟩
  · intro hm
    have hmode : ((EStore.new enableFineMode memory).runOps ops).fineMode = false :=
      hrun.2.trans hm
    simp [EStore.buyItem, EStore.fineModeEnabled, hmode, hrun.1 item_id]
  · intro hm hne
    have hmode : ((EStore.new enableFineMode memory).runOps ops).fineMode = true :=
      hrun.2.trans hm
    refine ⟨EStore.buyManyItems_allInvalid_returns _ item_ids budget hmode hrun.1, ?_⟩
    rw [EStore.buyManyItems_store _ item_ids budget hmode, if_neg]
    intro hc
    cases item_ids with
    | nil => exact hne rfl
    | cons a l =>
      have := (hc.1 a (List.mem_cons_self a l)).1
      rw [hrun.1 a] at this
      exact absurd this (by decide)

/-- On a fresh coarse store, after `setShippingCost(1.0)` and `addStock(5, 3)` (which finds
slot 5 invalid), `buyItem(5, 100.0)` returns and leaves the store as it found it. -/
theorem fresh_store_witness :
    ((emptyCoarse.runOps [StoreOp.supplier (SupplierReq.setShippingCost 1),
        StoreOp.supplier (SupplierReq.addStock 5 3)]).buyItem 5 100).status
      = Status.returned ∧
    ((emptyCoarse.runOps [StoreOp.supplier (SupplierReq.setShippingCost 1),
        StoreOp.supplier (SupplierReq.addStock 5 3)]).buyItem 5 100).store
      = emptyCoarse.runOps [StoreOp.supplier (SupplierReq.setShippingCost 1),
        StoreOp.supplier (SupplierReq.addStock 5 3)] := by
  have h := (fresh_store false
    (fun _ => { valid := false, quantity := 0, price := 0, discount := 0 })
    [StoreOp.supplier (SupplierReq.setShippingCost 1),
      StoreOp.supplier (SupplierReq.addStock 5 3)] (5 : Fin 16) [] 100
    (by
      intro op hop
      simp only [List.mem_cons, List.mem_singleton, List.not_mem_nil, or_false] at hop
      rcases hop with rfl | rfl <;> simp)).2.2.2.2.2.1 rfl
  exact ⟨h.1, h.2.2⟩

end FreshStore

/-! ## The cached count of the task queue -/

section QueueCount

variable {Req : Type}

theorem TaskQueue.dequeueLoop_inStep (q : TaskQueue Req) (r : DequeueExec Req)
    (hq : q.inStep) (h : q.dequeueLoop = some r) : r.state.inStep := by
  cases hqq : q.queue with
  | nil =>
    rw [TaskQueue.dequeueLoop_nil q hq hqq] at h
    cases h
    exact hq
  | cons front rest =>
    rw [TaskQueue.dequeueLoop_cons q hq front rest hqq] at h
    cases h
    exact TaskQueue.dequeue_cons_inStep q hq front rest hqq

theorem TaskQueue.Reachable.inStep {q : TaskQueue Req} (h : q.Reachable) : q.inStep := by
  induction h with
  | new => rfl
  | enqueue q task _ ih => exact TaskQueue.enqueue_inStep q task ih
  | dequeue q r _ hd ih =>
    unfold TaskQueue.dequeue at hd
    cases hl : q.dequeueLoop with
    | none => simp [hl] at hd
    | some r0 =>
      simp only [hl, Option.map_some', Option.some.injEq] at hd
      rw [← hd]
      exact TaskQueue.dequeueLoop_inStep q r0 ih hl
  | dequeueWake q r _ hd ih => exact TaskQueue.dequeueLoop_inStep q r ih hd

/-- C23. In every queue state reachable from construction by `enqueue` and `dequeue` calls,
`queueSize` equals the number of tasks held in the sequence; so `size()` returns exactly
that number, `empty()` returns true if and only if `size()` returns 0, which is if and only
if the sequence is empty, and neither `size()` nor `empty()` changes the queue. -/
theorem taskQueue_count_in_step (q : TaskQueue Req) (h : q.Reachable) :
    q.queueSize = (q.queue.length : Int) ∧
    q.size.result = (q.queue.length : Int) ∧
    (q.empty.result = true ↔ q.size.result = 0) ∧
    (q.empty.result = true ↔ q.queue = []) ∧
    q.size.state = q ∧ q.empty.state = q ∧
    q.size.status = Status.returned ∧ q.empty.status = Status.returned := by
  have hq : q.queueSize = (q.queue.length : Int) := TaskQueue.Reachable.inStep h
  refine ⟨hq, hq, ?_, ?_, rfl, rfl, rfl, rfl⟩
  · simp [TaskQueue.empty, TaskQueue.size]
  · simp [TaskQueue.empty, hq]

/-- The queue built by three `enqueue` calls on a new queue is reachable: its count is 3,
`size()` returns 3 and `empty()` returns false. -/
theorem taskQueue_count_in_step_witness :
    threeTaskQueue.queueSize = 3 ∧ threeTaskQueue.size.result = 3 ∧
    threeTaskQueue.empty.result = false := by
  have h := taskQueue_count_in_step threeTaskQueue
    (TaskQueue.Reachable.enqueue _ _ (TaskQueue.Reachable.enqueue _ _
      (TaskQueue.Reachable.enqueue _ _ TaskQueue.Reachable.new)))
  have hl : (threeTaskQueue.queue.length : Int) = 3 := by
    simp [threeTaskQueue, TaskQueue.enqueue, TaskQueue.new]
  refine ⟨h.1.trans hl, h.2.1.trans hl, ?_⟩
  have h3 := h.2.2.1
  rw [h.2.1, hl] at h3
  cases hb : threeTaskQueue.empty.result with
  | false => rfl
  | true => exact absurd (h3.mp hb) (by decide)

end QueueCount

/-! ## A one-item order and the single-item buy -/

section OneItem

variable {N : Nat}

/-- C26. A one-item order agrees with the single-item buy.  On the same inventory, store
discount and shipping cost: when coarse-mode `buyItem(id, budget)` returns without waiting
(which it does exactly when the slot is invalid, or valid, in stock and within budget),
fine-mode `buyManyItems([id], budget)` returns and leaves the same inventory, store discount
and shipping cost as `buyItem` does; when `buyItem` waits, `buyManyItems([id], budget)`
returns with the inventory, store discount and shipping cost unchanged. -/
theorem one_item_order_agrees (s : EStore N) (item_id : Fin N) (budget : ℚ) :
    ((({ s with fineMode := false } : EStore N).buyItem item_id budget).status
        = Status.returned ↔
      ((s.inventory item_id).valid = false ∨
        ((s.inventory item_id).valid = true ∧ (s.inventory item_id).quantity ≠ 0 ∧
          (s.inventory item_id).price * (1 - (s.inventory item_id).discount)
            * (1 - s.storeDiscount) + s.shippingCost ≤ budget))) ∧
    ((({ s with fineMode := false } : EStore N).buyItem item_id budget).status
        = Status.returned →
      (({ s with fineMode := true } : EStore N).buyManyItems [item_id] budget).status
        = Status.returned ∧
      (({ s with fineMode := true } : EStore N).buyManyItems [item_id] budget).store.inventory
        = (({ s with fineMode := false } : EStore N).buyItem item_id budget).store.inventory ∧
      (({ s with fineMode := true } : EStore N).buyManyItems [item_id]
          budget).store.storeDiscount
        = (({ s with fineMode := false } : EStore N).buyItem item_id
          budget).store.storeDiscount ∧
      (({ s with fineMode := true } : EStore N).buyManyItems [item_id]
          budget).store.shippingCost
        = (({ s with fineMode := false } : EStore N).buyItem item_id
          budget).store.shippingCost) ∧
    ((({ s with fineMode := false } : EStore N).buyItem item_id budget).status
        = Status.waiting →
      (({ s with fineMode := true } : EStore N).buyManyItems [item_id] budget).status
        = Status.returned ∧
      (({ s with fineMode := true } : EStore N).buyManyItems [item_id] budget).store.inventory
        = s.inventory ∧
      (({ s with fineMode := true } : EStore N).buyManyItems [item_id]
          budget).store.storeDiscount = s.storeDiscount ∧
      (({ s with fineMode := true } : EStore N).buyManyItems [item_id]
          budget).store.shippingCost = s.shippingCost) ∧
    ((({ s with fineMode := false } : EStore N).buyItem item_id budget).status
        = Status.returned ∨
      (({ s with fineMode := false } : EStore N).buyItem item_id budget).status
        = Status.waiting) := by
  have hfs := EStore.buyManyItems_store ({ s with fineMode := true } : EStore N) [item_id]
    budget rfl
  have hfst := EStore.buyManyItems_returns ({ s with fineMode := true } : EStore N) [item_id]
    budget rfl (List.nodup_singleton item_id)
  simp only [List.mem_singleton, forall_eq, List.map_cons, List.map_nil, List.sum_cons,
    List.sum_nil, add_zero, List.length_singleton, Nat.cast_one, mul_one,
    List.nodup_singleton, true_and] at hfs
  rw [hfs]
  by_cases hv : (s.inventory item_id).valid = false
  · have hc : (({ s with fineMode := false } : EStore N).buyItem item_id budget)
        = { store := { s with fineMode := false },
            trace := [Event.lock Mutex.mutex, Event.unlock Mutex.mutex],
            status := Status.returned } := by
      simp [EStore.buyItem, EStore.fineModeEnabled, hv]
    rw [hc]
    simp [hv, hfst]
  · have hv2 : (s.inventory item_id).valid = true := by simpa using hv
    by_cases hw : (s.inventory item_id).quantity = 0 ∨
        (s.inventory item_id).price * (1 - (s.inventory item_id).discount)
          * (1 - s.storeDiscount) + s.shippingCost > budget
    · have hc : (({ s with fineMode := false } : EStore N).buyItem item_id budget)
          = { store := { s with fineMode := false },
              trace := [Event.lock Mutex.mutex, Event.wait],
              status := Status.waiting } := by
        simp [EStore.buyItem, EStore.buyItemLoop, EStore.waitCondition, EStore.itemCost,
          EStore.fineModeEnabled, hv2, hw]
      rw [hc]
      have hno : ¬ (((s.inventory item_id).valid = true ∧ (s.inventory item_id).quantity ≠ 0) ∧
          ¬ (s.inventory item_id).price * (1 - (s.inventory item_id).discount)
            * (1 - s.storeDiscount) + s.shippingCost > budget) := by
        rintro ⟨⟨_, h1⟩, h2⟩
        rcases hw with hw | hw
        · exact h1 hw
        · exact h2 hw
      rw [if_neg hno]
      refine ⟨?_, ?_, ?_, Or.inr rfl⟩
      · simp only [reduceCtorEq, false_iff, not_or, not_and, not_le]
        refine ⟨by simp [hv2], fun _ hq => ?_⟩
        rcases hw with hw | hw
        · exact absurd hw hq
        · exact hw
      · intro h
        cases h
      · intro _
        exact ⟨hfst, rfl, rfl, rfl⟩
    · have hq : (s.inventory item_id).quantity ≠ 0 := fun h => hw (Or.inl h)
      have hb : ¬ (s.inventory item_id).price * (1 - (s.inventory item_id).discount)
          * (1 - s.storeDiscount) + s.shippingCost > budget := fun h => hw (Or.inr h)
      have hc : (({ s with fineMode := false } : EStore N).buyItem item_id budget)
          = { store := ({ s with fineMode := false } : EStore N).decrement item_id,
              trace := [Event.lock Mutex.mutex, Event.unlock Mutex.mutex],
              status := Status.returned } := by
        simp [EStore.buyItem, EStore.buyItemLoop, EStore.waitCondition, EStore.itemCost,
          EStore.fineModeEnabled, hv2, hw]
      rw [hc, if_pos ⟨⟨hv2, hq⟩, hb⟩]
      refine ⟨?_, ?_, ?_, Or.inl rfl⟩
      · simp only [true_iff]
        exact Or.inr ⟨hv2, hq, not_lt.mp hb⟩
      · intro _
        refine ⟨hfst, ?_, rfl, rfl⟩
        funext j
        rw [EStore.buyAll_inventory, EStore.decrement_inventory]
        by_cases hj : j = item_id
        · subst hj
          simp
        · have hj2 : ¬ item_id = j := fun e => hj e.symm
          simp [hj, hj2]
      · intro h
        cases h

/-- On the data of scenario 1 (slot 5: 2 units at 10.0, shipping 3.0), `buyItem(5, 13.0)`
returns, and the one-item order `buyManyItems([5], 13.0)` leaves the same inventory. -/
theorem one_item_order_agrees_witness :
    (({ basicBuyStore with fineMode := true } : EStore 16).buyManyItems [5] 13).store.inventory
      = (({ basicBuyStore with fineMode := false } : EStore 16).buyItem 5 13).store.inventory :=
  ((one_item_order_agrees basicBuyStore 5 13).2.1
    (by
      simp [basicBuyStore, emptyCoarse, EStore.new, EStore.addItem, EStore.setShippingCost,
        EStore.buyItem, EStore.buyItemLoop, EStore.waitCondition, EStore.itemCost,
        EStore.fineModeEnabled]
      norm_num)).2.1

end OneItem

/-! ## The order in which `buyManyItems` locks the slots -/

section LockOrder

variable {N : Nat}

theorem heldAfter_locks (ls held : List (Mutex N)) (rest : List (Event N)) :
    heldAfter held (ls.map Event.lock ++ rest) = heldAfter (ls.reverse ++ held) rest := by
  induction ls generalizing held with
  | nil => rfl
  | cons a ls ih =>
    simp only [List.map_cons, List.cons_append, heldAfter, List.reverse_cons,
      List.append_assoc, List.singleton_append]
    exact ih (a :: held)

theorem heldAfter_unlocks (us held : List (Mutex N)) (rest : List (Event N))
    (h : us.Perm held) :
    heldAfter held (us.map Event.unlock ++ rest) = heldAfter [] rest := by
  induction us generalizing held with
  | nil =>
    have : held = [] := List.Perm.eq_nil h.symm
    subst this
    rfl
  | cons a us ih =>
    obtain ⟨hmem, hperm⟩ := List.cons_perm_iff_perm_erase.mp h
    simp only [List.map_cons, List.cons_append, heldAfter, if_pos hmem]
    exact ih (held.erase a) hperm

theorem heldAfter_waits (k : Nat) (held : List (Mutex N)) (rest : List (Event N)) :
    heldAfter held (List.replicate k Event.wait ++ rest) = heldAfter held rest := by
  induction k with
  | zero => rfl
  | succ k ih =>
    simp only [List.replicate_succ, List.cons_append, heldAfter]
    exact ih

/-- Every mutex is released as many times as it is acquired, once the mutexes held at the
start and at the end are counted in. -/
theorem heldAfter_count (trace : List (Event N)) (held held2 : List (Mutex N))
    (h : heldAfter held trace = some held2) (m : Mutex N) :
    held.count m + trace.count (Event.lock m)
      = held2.count m + trace.count (Event.unlock m) := by
  induction trace generalizing held with
  | nil =>
    simp only [heldAfter, Option.some.injEq] at h
    subst h
    simp
  | cons e rest ih =>
    cases e with
    | lock a =>
      simp only [heldAfter] at h
      have h2 := ih (a :: held) h
      have hne : Event.unlock m ≠ Event.lock a := by simp
      rw [List.count_cons_of_ne hne]
      by_cases ha : a = m
      · subst ha
        rw [List.count_cons_self] at h2 ⊢
        omega
      · have hne2 : Event.lock m ≠ Event.lock a := by
          intro e
          injection e with e
          exact ha e.symm
        have hne3 : m ≠ a := fun e => ha e.symm
        rw [List.count_cons_of_ne hne3] at h2
        rw [List.count_cons_of_ne hne2]
        exact h2
    | unlock a =>
      simp only [heldAfter] at h
      by_cases hmem : a ∈ held
      · rw [if_pos hmem] at h
        have h2 := ih (held.erase a) h
        have hne : Event.lock m ≠ Event.unlock a := by simp
        rw [List.count_cons_of_ne hne]
        by_cases ha : a = m
        · subst ha
          rw [List.count_erase_self] at h2
          rw [List.count_cons_self]
          have hpos : 0 < held.count a := List.count_pos_iff.mpr hmem
          omega
        · have hne2 : Event.unlock m ≠ Event.unlock a := by
            intro e
            injection e with e
            exact ha e.symm
          have hne3 : m ≠ a := fun e => ha e.symm
          rw [List.count_erase_of_ne hne3] at h2
          rw [List.count_cons_of_ne hne2]
          exact h2
      · rw [if_neg hmem] at h
        cases h
    | broadcast =>
      simp only [heldAfter] at h
      have h2 := ih held h
      have hne : Event.lock m ≠ Event.broadcast := by simp
      have hne2 : Event.unlock m ≠ Event.broadcast := by simp
      rw [List.count_cons_of_ne hne, List.count_cons_of_ne hne2]
      exact h2
    | wait =>
      simp only [heldAfter] at h
      have h2 := ih held h
      have hne : Event.lock m ≠ Event.wait := by simp
      have hne2 : Event.unlock m ≠ Event.wait := by simp
      rw [List.count_cons_of_ne hne, List.count_cons_of_ne hne2]
      exact h2

theorem lockBalanced_of_heldAfter (trace : List (Event N))
    (h : heldAfter [] trace = some []) : lockBalanced trace := by
  refine ⟨h, fun m => ?_⟩
  have := heldAfter_count trace [] [] h m
  simp only [List.count_nil, zero_add] at this
  exact this.symm

theorem slotLocks_locks_unlocks (ls us : List (Fin N)) :
    slotLocks (ls.map (fun j => Event.lock (Mutex.fineMutexes j)) ++
      us.map (fun j => (Event.unlock (Mutex.fineMutexes j) : Event N))) = ls := by
  induction ls with
  | nil =>
    induction us with
    | nil => rfl
    | cons u us ih => simpa [slotLocks] using ih
  | cons a ls ih => simpa [slotLocks] using ih

theorem EStore.sortIds_sorted (ids : List (Fin N)) :
    (EStore.sortIds ids).Pairwise (fun a b => a ≥ b) :=
  List.sorted_insertionSort (fun a b : Fin N => a ≥ b) ids

theorem slotLocks_locks (ls : List (Fin N)) :
    slotLocks (ls.map (fun j => (Event.lock (Mutex.fineMutexes j) : Event N))) = ls := by
  have h := slotLocks_locks_unlocks ls ([] : List (Fin N))
  simpa using h

theorem EStore.buyManyItems_item_ids (s : EStore N) (ids : List (Fin N)) (budget : ℚ)
    (hmode : s.fineMode = true) (hne : ids ≠ []) :
    (s.buyManyItems ids budget).item_ids = EStore.sortIds ids := by
  rcases EStore.buyManyItems_cases s ids with ⟨hnd, hok⟩ |
    ⟨pre, bad, post, h1, h2, h3, h4⟩ | ⟨pre, again, post, h1, h2, h3, h4⟩
  · rw [EStore.buyManyItems_all s ids budget hmode hne hnd hok]
  · rw [EStore.buyManyItems_abort s ids budget hmode hne pre bad post h1 h2 h3 h4]
  · rw [EStore.buyManyItems_blocked s ids budget hmode hne pre again post h1 h2 h3 h4]

/-- C24. In fine mode, for every non-empty list `ids`, `buyManyItems` leaves the caller's
list reordered into non-increasing item-id order, a permutation of the original, and calls
`smutex_lock` on the slot mutexes one by one in exactly that order: the ids it asks for are
a prefix of the sorted list, namely the whole sorted list when every listed slot is valid
and in stock and no id is repeated, the sorted list up to and including its first entry that
is invalid or out of stock (after which it returns), or the sorted list up to and including
the first entry that repeats an earlier one (at which it is blocked); so the ids it locks
are non-increasing whatever the order given by the caller.  For an empty list it returns
without sorting, making any library call or changing the store. -/
theorem buyManyItems_lock_order (s : EStore N) (ids : List (Fin N)) (budget : ℚ)
    (hmode : s.fineMode = true) :
    (ids ≠ [] →
      (s.buyManyItems ids budget).item_ids.Perm ids ∧
      (s.buyManyItems ids budget).item_ids.Pairwise (fun a b => a ≥ b) ∧
      slotLocks (s.buyManyItems ids budget).trace <+: (s.buyManyItems ids budget).item_ids ∧
      (ids.Nodup →
        (∀ i ∈ ids, (s.inventory i).valid = true ∧ (s.inventory i).quantity ≠ 0) →
        slotLocks (s.buyManyItems ids budget).trace = (s.buyManyItems ids budget).item_ids ∧
        (s.buyManyItems ids budget).status = Status.returned) ∧
      (∀ pre bad post, (s.buyManyItems ids budget).item_ids = pre ++ bad :: post →
        pre.Nodup →
        (∀ i ∈ pre, (s.inventory i).valid = true ∧ (s.inventory i).quantity ≠ 0) →
        ((s.inventory bad).valid = false ∨ (s.inventory bad).quantity = 0) →
        slotLocks (s.buyManyItems ids budget).trace = pre ++ [bad] ∧
        (s.buyManyItems ids budget).status = Status.returned) ∧
      (∀ pre again post, (s.buyManyItems ids budget).item_ids = pre ++ again :: post →
        pre.Nodup →
        (∀ i ∈ pre, (s.inventory i).valid = true ∧ (s.inventory i).quantity ≠ 0) →
        again ∈ pre →
        slotLocks (s.buyManyItems ids budget).trace = pre ++ [again] ∧
        (s.buyManyItems ids budget).status = Status.blocked) ∧
      (slotLocks (s.buyManyItems ids budget).trace).Pairwise (fun a b => a ≥ b)) ∧
    ((s.buyManyItems [] budget).item_ids = [] ∧ (s.buyManyItems [] budget).trace = [] ∧
      (s.buyManyItems [] budget).store = s ∧
      (s.buyManyItems [] budget).status = Status.returned) := by
  constructor
  · intro hne
    have hids := EStore.buyManyItems_item_ids s ids budget hmode hne
    rw [hids]
    have hall : ids.Nodup →
        (∀ i ∈ ids, (s.inventory i).valid = true ∧ (s.inventory i).quantity ≠ 0) →
        slotLocks (s.buyManyItems ids budget).trace = EStore.sortIds ids ∧
        (s.buyManyItems ids budget).status = Status.returned := by
      intro hnd hok
      rw [EStore.buyManyItems_all s ids budget hmode hne hnd hok]
      exact ⟨slotLocks_locks_unlocks _ _, rfl⟩
    have habort : ∀ pre bad post, EStore.sortIds ids = pre ++ bad :: post →
        pre.Nodup →
        (∀ i ∈ pre, (s.inventory i).valid = true ∧ (s.inventory i).quantity ≠ 0) →
        ((s.inventory bad).valid = false ∨ (s.inventory bad).quantity = 0) →
        slotLocks (s.buyManyItems ids budget).trace = pre ++ [bad] ∧
        (s.buyManyItems ids budget).status = Status.returned := by
      intro pre bad post hsplit hnd hok hbad
      have hnotin : bad ∉ pre := by
        intro hmem
        have := hok bad hmem
        rcases hbad with hbad | hbad
        · rw [hbad] at this
          exact absurd this.1 (by decide)
        · exact this.2 hbad
      have hnd2 : (pre ++ [bad]).Nodup := by
        rw [List.nodup_append]
        exact ⟨hnd, List.nodup_singleton bad, fun x hx hx2 => by
          rw [List.mem_singleton] at hx2
          subst hx2
          exact hnotin hx⟩
      rw [EStore.buyManyItems_abort s ids budget hmode hne pre bad post hsplit hok hnd2 hbad]
      exact ⟨slotLocks_locks_unlocks _ _, rfl⟩
    have hblocked : ∀ pre again post, EStore.sortIds ids = pre ++ again :: post →
        pre.Nodup →
        (∀ i ∈ pre, (s.inventory i).valid = true ∧ (s.inventory i).quantity ≠ 0) →
        again ∈ pre →
        slotLocks (s.buyManyItems ids budget).trace = pre ++ [again] ∧
        (s.buyManyItems ids budget).status = Status.blocked := by
      intro pre again post hsplit hnd hok hagain
      rw [EStore.buyManyItems_blocked s ids budget hmode hne pre again post hsplit hok hnd
        hagain]
      exact ⟨slotLocks_locks _, rfl⟩
    have hprefix : slotLocks (s.buyManyItems ids budget).trace <+: EStore.sortIds ids := by
      rcases EStore.buyManyItems_cases s ids with ⟨hnd, hok⟩ |
        ⟨pre, bad, post, h1, h2, h3, h4⟩ | ⟨pre, again, post, h1, h2, h3, h4⟩
      · rw [(hall hnd hok).1]
      · rw [(habort pre bad post h1 (List.nodup_append.mp h3).1 h2 h4).1, h1]
        exact ⟨post, by simp⟩
      · rw [(hblocked pre again post h1 h3 h2 h4).1, h1]
        exact ⟨post, by simp⟩
    exact ⟨EStore.sortIds_perm ids, EStore.sortIds_sorted ids, hprefix, hall, habort,
      hblocked, List.Pairwise.sublist hprefix.sublist (EStore.sortIds_sorted ids)⟩
  · simp [EStore.buyManyItems, EStore.fineModeEnabled, hmode]

/-- On the fine store of scenario 5, the order `[1, 2]` is left as `[2, 1]` and slot 2 is
locked before slot 1. -/
theorem buyManyItems_lock_order_witness :
    (atomicBuyStore.buyManyItems [1, 2] 22).item_ids = [2, 1] ∧
    slotLocks (atomicBuyStore.buyManyItems [1, 2] 22).trace = [2, 1] := by
  have hm : atomicBuyStore.fineMode = true := by
    simp [atomicBuyStore, emptyFine, EStore.new, EStore.addItem, EStore.setShippingCost,
      EStore.fineModeEnabled]
  have hids : (atomicBuyStore.buyManyItems [1, 2] 22).item_ids = [2, 1] := by
    rw [EStore.buyManyItems_item_ids _ _ _ hm (by simp)]
    decide
  have h := (((buyManyItems_lock_order atomicBuyStore [1, 2] 22 hm).1 (by simp)).2.2.2.1
    (by decide)
    (by simp [atomicBuyStore, emptyFine, EStore.new, EStore.addItem, EStore.setShippingCost,
      EStore.fineModeEnabled, EStore.setItem, Function.update])).1
  exact ⟨hids, h.trans hids⟩

end LockOrder

/-! ## Lock balance -/

section LockBalance

variable {N : Nat}

theorem lockBalanced_locks_unlocks (ls us : List (Fin N)) (h : us.Perm ls) :
    lockBalanced (ls.map (fun j => Event.lock (Mutex.fineMutexes j)) ++
      us.map (fun j => (Event.unlock (Mutex.fineMutexes j) : Event N))) := by
  apply lockBalanced_of_heldAfter
  have h1 : ls.map (fun j => (Event.lock (Mutex.fineMutexes j) : Event N))
      = (ls.map Mutex.fineMutexes).map Event.lock := by
    rw [List.map_map]
    rfl
  have h2 : us.map (fun j => (Event.unlock (Mutex.fineMutexes j) : Event N))
      = (us.map Mutex.fineMutexes).map Event.unlock ++ [] := by
    rw [List.map_map, List.append_nil]
    rfl
  rw [h1, h2, heldAfter_locks, heldAfter_unlocks]
  · rfl
  · rw [List.append_nil]
    exact (h.map Mutex.fineMutexes).trans (List.reverse_perm _).symm

theorem SupplierReq.handle_lockBalanced (s : EStore N) (req : SupplierReq N) :
    lockBalanced (req.handle s).trace := by
  apply lockBalanced_of_heldAfter
  cases req with
  | addItem id quantity price discount =>
    simp only [SupplierReq.handle, EStore.addItem]
    split_ifs <;> simp [heldAfter]
  | removeItem id =>
    simp only [SupplierReq.handle, EStore.removeItem]
    split_ifs <;> simp [heldAfter]
  | addStock id additional_stock =>
    simp only [SupplierReq.handle, EStore.addStock]
    split_ifs <;> simp [heldAfter]
  | changeItemPrice id new_price =>
    simp only [SupplierReq.handle, EStore.priceItem]
    split_ifs <;> simp [heldAfter]
  | changeItemDiscount id new_discount =>
    simp only [SupplierReq.handle, EStore.discountItem]
    split_ifs <;> simp [heldAfter]
  | setShippingCost new_cost =>
    simp only [SupplierReq.handle, EStore.setShippingCost]
    split_ifs <;> simp [heldAfter]
  | setStoreDiscount new_discount =>
    simp only [SupplierReq.handle, EStore.setStoreDiscount]
    split_ifs <;> simp [heldAfter]

theorem EStore.buyItemLoop_trace (s : EStore N) (item_id : Fin N) (budget : ℚ) :
    ((s.buyItemLoop item_id budget).status = Status.waiting ∧
      (s.buyItemLoop item_id budget).trace = [Event.wait]) ∨
    ((s.buyItemLoop item_id budget).status = Status.returned ∧
      (s.buyItemLoop item_id budget).trace = [Event.unlock Mutex.mutex]) := by
  unfold EStore.buyItemLoop
  split_ifs
  · exact Or.inl ⟨rfl, rfl⟩
  · exact Or.inr ⟨rfl, rfl⟩
  · exact Or.inr ⟨rfl, rfl⟩

theorem EStore.buyItemResume_balanced (item_id : Fin N) (budget : ℚ)
    (wakes : List (EStore N)) (r : Exec N)
    (hwait : r.status = Status.waiting →
      ∃ k, r.trace = Event.lock Mutex.mutex :: List.replicate k Event.wait)
    (hret : r.status = Status.returned → heldAfter [] r.trace = some [])
    (h : (EStore.buyItemResume item_id budget r wakes).status = Status.returned) :
    heldAfter [] (EStore.buyItemResume item_id budget r wakes).trace = some [] := by
  induction wakes generalizing r with
  | nil => exact hret h
  | cons t rest ih =>
    unfold EStore.buyItemResume at h ⊢
    by_cases hw : r.status = Status.waiting
    · rw [if_pos hw] at h ⊢
      obtain ⟨k, hk⟩ := hwait hw
      apply ih _ _ _ h
      · intro hst
        rcases EStore.buyItemLoop_trace t item_id budget with ⟨_, h2⟩ | ⟨h1, _⟩
        · refine ⟨k + 1, ?_⟩
          simp only [EStore.buyItemWake, hk, h2, List.cons_append]
          rw [List.replicate_succ']
        · simp only [EStore.buyItemWake] at hst
          rw [h1] at hst
          cases hst
      · intro hst
        rcases EStore.buyItemLoop_trace t item_id budget with ⟨h1, _⟩ | ⟨_, h2⟩
        · simp only [EStore.buyItemWake] at hst
          rw [h1] at hst
          cases hst
        · simp only [EStore.buyItemWake, hk, h2, List.cons_append, heldAfter]
          rw [heldAfter_waits]
          simp [heldAfter]
    · rw [if_neg hw] at h ⊢
      exact hret h

theorem EStore.buyItem_trace (s : EStore N) (item_id : Fin N) (budget : ℚ) :
    ((s.buyItem item_id budget).status = Status.assertFailed ∧
      (s.buyItem item_id budget).trace = []) ∨
    ((s.buyItem item_id budget).status = Status.waiting ∧
      (s.buyItem item_id budget).trace = [Event.lock Mutex.mutex, Event.wait]) ∨
    ((s.buyItem item_id budget).status = Status.returned ∧
      (s.buyItem item_id budget).trace
        = [Event.lock Mutex.mutex, Event.unlock Mutex.mutex]) := by
  unfold EStore.buyItem
  by_cases hm : s.fineModeEnabled = true
  · rw [if_pos hm]
    exact Or.inl ⟨rfl, rfl⟩
  · rw [if_neg hm]
    by_cases hv : (s.inventory item_id).valid = false
    · rw [if_pos hv]
      exact Or.inr (Or.inr ⟨rfl, rfl⟩)
    · rw [if_neg hv]
      rcases EStore.buyItemLoop_trace s item_id budget with ⟨h1, h2⟩ | ⟨h1, h2⟩
      · exact Or.inr (Or.inl ⟨h1, by simp [h2]⟩)
      · exact Or.inr (Or.inr ⟨h1, by simp [h2]⟩)

/-- A whole call of `buyItem` that returns, however many times it has waited, leaves the
calls on `mutex` balanced. -/
theorem EStore.buyItemCall_balanced (s : EStore N) (item_id : Fin N) (budget : ℚ)
    (wakes : List (EStore N))
    (h : (s.buyItemCall item_id budget wakes).status = Status.returned) :
    lockBalanced (s.buyItemCall item_id budget wakes).trace := by
  apply lockBalanced_of_heldAfter
  unfold EStore.buyItemCall at h ⊢
  apply EStore.buyItemResume_balanced item_id budget wakes _ _ _ h
  · intro hst
    rcases EStore.buyItem_trace s item_id budget with ⟨h1, _⟩ | ⟨_, h2⟩ | ⟨h1, _⟩
    · rw [h1] at hst
      cases hst
    · exact ⟨1, h2⟩
    · rw [h1] at hst
      cases hst
  · intro hst
    rcases EStore.buyItem_trace s item_id budget with ⟨h1, _⟩ | ⟨h1, _⟩ | ⟨_, h2⟩
    · rw [h1] at hst
      cases hst
    · rw [h1] at hst
      cases hst
    · rw [h2]
      simp [heldAfter]

/-- Every return path of `buyManyItems` leaves the calls on the slot mutexes balanced. -/
theorem EStore.buyManyItems_balanced (s : EStore N) (ids : List (Fin N)) (budget : ℚ)
    (hst : (s.buyManyItems ids budget).status = Status.returned) :
    lockBalanced (s.buyManyItems ids budget).trace := by
  cases hm : s.fineMode
  · have : (s.buyManyItems ids budget).trace = [] := by
      simp [EStore.buyManyItems, EStore.fineModeEnabled, hm]
    rw [this]
    exact lockBalanced_of_heldAfter [] rfl
  · by_cases hne : ids = []
    · subst hne
      have : (s.buyManyItems [] budget).trace = [] := by
        simp [EStore.buyManyItems, EStore.fineModeEnabled, hm]
      rw [this]
      exact lockBalanced_of_heldAfter [] rfl
    · rcases EStore.buyManyItems_cases s ids with ⟨hnd, hok⟩ |
        ⟨pre, bad, post, h1, h2, h3, h4⟩ | ⟨pre, again, post, h1, h2, h3, h4⟩
      · rw [EStore.buyManyItems_all s ids budget hm hne hnd hok]
        exact lockBalanced_locks_unlocks _ _ (List.Perm.refl _)
      · rw [EStore.buyManyItems_abort s ids budget hm hne pre bad post h1 h2 h3 h4]
        apply lockBalanced_locks_unlocks
        have : bad :: pre.reverse = (pre ++ [bad]).reverse := by simp
        rw [this]
        exact List.reverse_perm _
      · rw [EStore.buyManyItems_blocked s ids budget hm hne pre again post h1 h2 h3 h4] at hst
        cases hst

/-- On no path, the blocked one included, does `buyManyItems` release a mutex it does not
hold. -/
theorem EStore.buyManyItems_releases_held (s : EStore N) (ids : List (Fin N)) (budget : ℚ) :
    ∃ held, heldAfter [] (s.buyManyItems ids budget).trace = some held := by
  rcases hst : (s.buyManyItems ids budget).status with _ | _ | _ | _
  · exact ⟨[], (EStore.buyManyItems_balanced s ids budget hst).1⟩
  · exfalso
    cases hm : s.fineMode
    · simp [EStore.buyManyItems, EStore.fineModeEnabled, hm] at hst
    · rcases EStore.buyManyItems_status s ids budget hm with h | h <;> rw [h] at hst <;>
        cases hst
  · have hm : s.fineMode = false := by
      cases hm : s.fineMode
      · rfl
      · rcases EStore.buyManyItems_status s ids budget hm with h | h <;> rw [h] at hst <;>
          cases hst
    have : (s.buyManyItems ids budget).trace = [] := by
      simp [EStore.buyManyItems, EStore.fineModeEnabled, hm]
    rw [this]
    exact ⟨[], rfl⟩
  · have hm : s.fineMode = true := by
      cases hm : s.fineMode
      · simp [EStore.buyManyItems, EStore.fineModeEnabled, hm] at hst
      · rfl
    have hne : ids ≠ [] := by
      rintro rfl
      simp [EStore.buyManyItems, EStore.fineModeEnabled, hm] at hst
    rcases EStore.buyManyItems_cases s ids with ⟨hnd, hok⟩ |
      ⟨pre, bad, post, h1, h2, h3, h4⟩ | ⟨pre, again, post, h1, h2, h3, h4⟩
    · rw [EStore.buyManyItems_all s ids budget hm hne hnd hok] at hst
      cases hst
    · rw [EStore.buyManyItems_abort s ids budget hm hne pre bad post h1 h2 h3 h4] at hst
      cases hst
    · rw [EStore.buyManyItems_blocked s ids budget hm hne pre again post h1 h2 h3 h4]
      have h5 : (pre ++ [again]).map (fun j => (Event.lock (Mutex.fineMutexes j) : Event N))
          = ((pre ++ [again]).map Mutex.fineMutexes).map Event.lock ++ [] := by
        rw [List.map_map, List.append_nil]
        rfl
      simp only
      rw [h5, heldAfter_locks]
      exact ⟨_, rfl⟩

/-- The calls of a `buyManyItems` that returns after giving up at the entry `bad` of the
sorted list, the entries `pre` before it being valid and in stock. -/
theorem EStore.buyManyItems_trace_abort (s : EStore N) (ids : List (Fin N)) (budget : ℚ)
    (hmode : s.fineMode = true) (hne : ids ≠ [])
    (hst : (s.buyManyItems ids budget).status = Status.returned)
    (pre : List (Fin N)) (bad : Fin N) (post : List (Fin N))
    (hsplit : EStore.sortIds ids = pre ++ bad :: post)
    (hok : ∀ i ∈ pre, (s.inventory i).valid = true ∧ (s.inventory i).quantity ≠ 0)
    (hbad : (s.inventory bad).valid = false ∨ (s.inventory bad).quantity = 0) :
    (s.buyManyItems ids budget).trace =
      (pre ++ [bad]).map (fun j => Event.lock (Mutex.fineMutexes j)) ++
        (bad :: pre.reverse).map (fun j => Event.unlock (Mutex.fineMutexes j)) := by
  have hnotin : bad ∉ pre := by
    intro hmem
    have := hok bad hmem
    rcases hbad with hbad | hbad
    · rw [hbad] at this
      exact absurd this.1 (by decide)
    · exact this.2 hbad
  by_cases hnd : pre.Nodup
  · have hnd2 : (pre ++ [bad]).Nodup := by
      rw [List.nodup_append]
      exact ⟨hnd, List.nodup_singleton bad, fun x hx hx2 => by
        rw [List.mem_singleton] at hx2
        subst hx2
        exact hnotin hx⟩
    rw [EStore.buyManyItems_abort s ids budget hmode hne pre bad post hsplit hok hnd2 hbad]
  · have hno : ¬ ((∀ i ∈ pre, (s.inventory i).valid = true ∧ (s.inventory i).quantity ≠ 0) ∧
        pre.Nodup ∧ ∀ i ∈ pre, i ∉ ([] : List (Fin N))) := fun h => hnd h.2.1
    obtain ⟨p1, stop, p2, h1, h2, h3, _, h5⟩ := EStore.exists_first_stop s pre [] hno
    have hstop : stop ∈ p1 := by
      rcases h5 with (h5 | h5) | ⟨_, _, h7⟩
      · exact h5
      · exact absurd h5 (List.not_mem_nil stop)
      · have := hok stop (by rw [h1]; simp)
        rcases h7 with h7 | h7
        · rw [h7] at this
          exact absurd this.1 (by decide)
        · exact absurd h7 this.2
    have hsplit2 : EStore.sortIds ids = p1 ++ stop :: (p2 ++ bad :: post) := by
      rw [hsplit, h1]
      simp
    rw [EStore.buyManyItems_blocked s ids budget hmode hne p1 stop _ hsplit2 h2 h3 hstop]
      at hst
    cases hst

/-- The calls of a `buyManyItems` that returns when every listed slot is valid and in
stock. -/
theorem EStore.buyManyItems_trace_all (s : EStore N) (ids : List (Fin N)) (budget : ℚ)
    (hmode : s.fineMode = true) (hne : ids ≠ [])
    (hst : (s.buyManyItems ids budget).status = Status.returned)
    (hok : ∀ i ∈ ids, (s.inventory i).valid = true ∧ (s.inventory i).quantity ≠ 0) :
    (s.buyManyItems ids budget).trace =
      (EStore.sortIds ids).map (fun j => Event.lock (Mutex.fineMutexes j)) ++
        (EStore.sortIds ids).map (fun j => Event.unlock (Mutex.fineMutexes j)) := by
  rcases EStore.buyManyItems_cases s ids with ⟨hnd, _⟩ |
    ⟨pre, bad, post, h1, _, _, h4⟩ | ⟨pre, again, post, h1, h2, h3, h4⟩
  · rw [EStore.buyManyItems_all s ids budget hmode hne hnd hok]
  · have hmem : bad ∈ ids := (EStore.sortIds_perm ids).mem_iff.mp (by rw [h1]; simp)
    have := hok bad hmem
    rcases h4 with h4 | h4
    · rw [h4] at this
      exact absurd this.1 (by decide)
    · exact absurd h4 this.2
  · rw [EStore.buyManyItems_blocked s ids budget hmode hne pre again post h1 h2 h3 h4] at hst
    cases hst

theorem EStore.buyManyItems_no_global_lock (s : EStore N) (ids : List (Fin N)) (budget : ℚ) :
    Event.lock Mutex.shippingLock ∉ (s.buyManyItems ids budget).trace ∧
    Event.lock Mutex.discountLock ∉ (s.buyManyItems ids budget).trace ∧
    Event.lock Mutex.mutex ∉ (s.buyManyItems ids budget).trace := by
  cases hm : s.fineMode
  · simp [EStore.buyManyItems, EStore.fineModeEnabled, hm]
  · by_cases hne : ids = []
    · subst hne
      simp [EStore.buyManyItems, EStore.fineModeEnabled, hm]
    · rcases EStore.buyManyItems_cases s ids with ⟨hnd, hok⟩ |
        ⟨pre, bad, post, h1, h2, h3, h4⟩ | ⟨pre, again, post, h1, h2, h3, h4⟩
      · rw [EStore.buyManyItems_all s ids budget hm hne hnd hok]
        simp
      · rw [EStore.buyManyItems_abort s ids budget hm hne pre bad post h1 h2 h3 h4]
        simp
      · rw [EStore.buyManyItems_blocked s ids budget hm hne pre again post h1 h2 h3 h4]
        simp

theorem queueHeldAfter_count (trace : List QueueEvent) (held held2 : Nat)
    (h : queueHeldAfter held trace = some held2) :
    held + trace.count QueueEvent.lock = held2 + trace.count QueueEvent.unlock := by
  induction trace generalizing held with
  | nil =>
    simp only [queueHeldAfter, Option.some.injEq] at h
    subst h
    simp
  | cons e rest ih =>
    cases e with
    | lock =>
      simp only [queueHeldAfter] at h
      have h2 := ih (held + 1) h
      simp only [List.count_cons_self, List.count_cons_of_ne (by decide :
        QueueEvent.unlock ≠ QueueEvent.lock)]
      omega
    | unlock =>
      cases held with
      | zero => simp [queueHeldAfter] at h
      | succ n =>
        simp only [queueHeldAfter] at h
        have h2 := ih n h
        simp only [List.count_cons_self, List.count_cons_of_ne (by decide :
          QueueEvent.lock ≠ QueueEvent.unlock)]
        omega
    | broadcast =>
      simp only [queueHeldAfter] at h
      have h2 := ih held h
      simp only [List.count_cons_of_ne (by decide : QueueEvent.lock ≠ QueueEvent.broadcast),
        List.count_cons_of_ne (by decide : QueueEvent.unlock ≠ QueueEvent.broadcast)]
      exact h2
    | wait =>
      simp only [queueHeldAfter] at h
      have h2 := ih held h
      simp only [List.count_cons_of_ne (by decide : QueueEvent.lock ≠ QueueEvent.wait),
        List.count_cons_of_ne (by decide : QueueEvent.unlock ≠ QueueEvent.wait)]
      exact h2

theorem queueLockBalanced_of_heldAfter (trace : List QueueEvent)
    (h : queueHeldAfter 0 trace = some 0) : queueLockBalanced trace := by
  refine ⟨h, ?_⟩
  have := queueHeldAfter_count trace 0 0 h
  omega

theorem queueHeldAfter_waits (k held : Nat) (rest : List QueueEvent) :
    queueHeldAfter held (List.replicate k QueueEvent.wait ++ rest)
      = queueHeldAfter held rest := by
  induction k with
  | zero => rfl
  | succ k ih =>
    simp only [List.replicate_succ, List.cons_append, queueHeldAfter]
    exact ih

theorem TaskQueue.dequeueLoop_trace {Req : Type} (q : TaskQueue Req) (w : DequeueExec Req)
    (h : q.dequeueLoop = some w) :
    (w.status = Status.waiting ∧ w.trace = [QueueEvent.wait]) ∨
    (w.status = Status.returned ∧ w.trace = [QueueEvent.broadcast, QueueEvent.unlock]) := by
  unfold TaskQueue.dequeueLoop at h
  by_cases h0 : q.queueSize = 0
  · rw [if_pos h0] at h
    cases h
    exact Or.inl ⟨rfl, rfl⟩
  · rw [if_neg h0] at h
    cases hq : q.queue with
    | nil => simp [hq] at h
    | cons front rest =>
      simp only [hq, Option.some.injEq] at h
      subst h
      exact Or.inr ⟨rfl, rfl⟩

theorem TaskQueue.dequeueResume_balanced {Req : Type} (wakes : List (TaskQueue Req))
    (r out : DequeueExec Req)
    (hwait : r.status = Status.waiting →
      ∃ k, r.trace = QueueEvent.lock :: List.replicate k QueueEvent.wait)
    (hret : r.status = Status.returned → queueHeldAfter 0 r.trace = some 0)
    (hout : TaskQueue.dequeueResume r wakes = some out)
    (h : out.status = Status.returned) :
    queueHeldAfter 0 out.trace = some 0 := by
  induction wakes generalizing r with
  | nil =>
    simp only [TaskQueue.dequeueResume, Option.some.injEq] at hout
    subst hout
    exact hret h
  | cons q rest ih =>
    unfold TaskQueue.dequeueResume at hout
    by_cases hw : r.status = Status.waiting
    · rw [if_pos hw] at hout
      obtain ⟨k, hk⟩ := hwait hw
      cases hd : q.dequeueWake with
      | none => simp [hd] at hout
      | some w =>
        simp only [hd] at hout
        have htr := TaskQueue.dequeueLoop_trace q w hd
        apply ih _ _ _ hout
        · intro hst
          rcases htr with ⟨_, h2⟩ | ⟨h1, _⟩
          · refine ⟨k + 1, ?_⟩
            simp only [hk, h2, List.cons_append]
            rw [List.replicate_succ']
          · simp only at hst
            rw [h1] at hst
            cases hst
        · intro hst
          rcases htr with ⟨h1, _⟩ | ⟨_, h2⟩
          · simp only at hst
            rw [h1] at hst
            cases hst
          · simp only [hk, h2, List.cons_append, queueHeldAfter]
            rw [queueHeldAfter_waits]
            rfl
    · rw [if_neg hw] at hout
      simp only [Option.some.injEq] at hout
      subst hout
      exact hret h

/-- A whole call of `dequeue` that returns, however many times it has waited, leaves the
calls on the queue's `mutex` balanced. -/
theorem TaskQueue.dequeueCall_balanced {Req : Type} (q : TaskQueue Req)
    (wakes : List (TaskQueue Req)) (out : DequeueExec Req)
    (hout : q.dequeueCall wakes = some out) (h : out.status = Status.returned) :
    queueLockBalanced out.trace := by
  apply queueLockBalanced_of_heldAfter
  unfold TaskQueue.dequeueCall at hout
  cases hd : q.dequeue with
  | none => simp [hd] at hout
  | some r =>
    simp only [hd] at hout
    unfold TaskQueue.dequeue at hd
    cases hl : q.dequeueLoop with
    | none => simp [hl] at hd
    | some w =>
      simp only [hl, Option.map_some', Option.some.injEq] at hd
      subst hd
      have htr := TaskQueue.dequeueLoop_trace q w hl
      apply TaskQueue.dequeueResume_balanced wakes _ out _ _ hout h
      · intro hst
        rcases htr with ⟨_, h2⟩ | ⟨h1, _⟩
        · exact ⟨1, by simp [h2]⟩
        · simp only at hst
          rw [h1] at hst
          cases hst
      · intro hst
        rcases htr with ⟨h1, _⟩ | ⟨_, h2⟩
        · simp only at hst
          rw [h1] at hst
          cases hst
        · simp only [h2]
          rfl

/-- C25. Lock balance.  On every return path of every store and queue operation no mutex
is released without being held, none is held on return, and every mutex is released as many
times as it is acquired: for the seven mutators in both modes, for a whole `buyItem` call
however many times it has waited, for `buyManyItems` when it returns (as it does on every
order without a repeated id; on no path does it release a mutex it does not hold), and for
`size`, `empty`, `enqueue` and a whole `dequeue` call.  When `buyManyItems` gives up at position `i` of the sorted list it
makes exactly the locks of positions `0..i`, in order, then the unlocks of positions `i..0`;
on the over-budget and commit paths it makes the locks of all positions, then the unlocks of
all positions.  In fine mode a single-slot mutator locks and unlocks only the mutex of its
slot, `setShippingCost` only `shippingLock`, `setStoreDiscount` only `discountLock`, and
`buyManyItems` locks neither of these two nor `mutex`. -/
theorem lock_balance {Req : Type} (s : EStore N) (req : SupplierReq N) (item_id : Fin N)
    (ids : List (Fin N)) (quantity count : Int) (price discount cost budget : ℚ)
    (wakes : List (EStore N)) (q : TaskQueue Req) (task : TaskQueue.Task Req)
    (qwakes : List (TaskQueue Req)) :
    lockBalanced (req.handle s).trace ∧
    ((s.buyItemCall item_id budget wakes).status = Status.returned →
      lockBalanced (s.buyItemCall item_id budget wakes).trace) ∧
    ((s.buyManyItems ids budget).status = Status.returned →
      lockBalanced (s.buyManyItems ids budget).trace) ∧
    (s.fineMode = true → ids.Nodup →
      (s.buyManyItems ids budget).status = Status.returned) ∧
    (∃ held, heldAfter [] (s.buyManyItems ids budget).trace = some held) ∧
    (s.fineMode = true → ids ≠ [] →
      (s.buyManyItems ids budget).status = Status.returned → ∀ pre bad post,
      EStore.sortIds ids = pre ++ bad :: post →
      (∀ i ∈ pre, (s.inventory i).valid = true ∧ (s.inventory i).quantity ≠ 0) →
      ((s.inventory bad).valid = false ∨ (s.inventory bad).quantity = 0) →
      (s.buyManyItems ids budget).trace =
        (pre ++ [bad]).map (fun j => Event.lock (Mutex.fineMutexes j)) ++
          (bad :: pre.reverse).map (fun j => Event.unlock (Mutex.fineMutexes j))) ∧
    (s.fineMode = true → ids ≠ [] →
      (s.buyManyItems ids budget).status = Status.returned →
      (∀ i ∈ ids, (s.inventory i).valid = true ∧ (s.inventory i).quantity ≠ 0) →
      (s.buyManyItems ids budget).trace =
        (EStore.sortIds ids).map (fun j => Event.lock (Mutex.fineMutexes j)) ++
          (EStore.sortIds ids).map (fun j => Event.unlock (Mutex.fineMutexes j))) ∧
    (s.fineMode = true →
      (s.addItem item_id quantity price discount).trace =
        [Event.lock (Mutex.fineMutexes item_id), Event.unlock (Mutex.fineMutexes item_id)] ∧
      (s.removeItem item_id).trace =
        [Event.lock (Mutex.fineMutexes item_id), Event.unlock (Mutex.fineMutexes item_id)] ∧
      (s.addStock item_id count).trace =
        [Event.lock (Mutex.fineMutexes item_id), Event.unlock (Mutex.fineMutexes item_id)] ∧
      (s.priceItem item_id price).trace =
        [Event.lock (Mutex.fineMutexes item_id), Event.unlock (Mutex.fineMutexes item_id)] ∧
      (s.discountItem item_id discount).trace =
        [Event.lock (Mutex.fineMutexes item_id), Event.unlock (Mutex.fineMutexes item_id)] ∧
      (s.setShippingCost cost).trace =
        [Event.lock Mutex.shippingLock, Event.unlock Mutex.shippingLock] ∧
      (s.setStoreDiscount discount).trace =
        [Event.lock Mutex.discountLock, Event.unlock Mutex.discountLock]) ∧
    (Event.lock Mutex.shippingLock ∉ (s.buyManyItems ids budget).trace ∧
      Event.lock Mutex.discountLock ∉ (s.buyManyItems ids budget).trace ∧
      Event.lock Mutex.mutex ∉ (s.buyManyItems ids budget).trace) ∧
    queueLockBalanced q.size.trace ∧
    queueLockBalanced q.empty.trace ∧
    queueLockBalanced (q.enqueue task).trace ∧
    (∀ out, q.dequeueCall qwakes = some out → out.status = Status.returned →
      queueLockBalanced out.trace) := by
  refine ⟨SupplierReq.handle_lockBalanced s req,
    EStore.buyItemCall_balanced s item_id budget wakes,
    EStore.buyManyItems_balanced s ids budget,
    fun hm hnd => EStore.buyManyItems_returns s ids budget hm hnd,
    EStore.buyManyItems_releases_held s ids budget,
    fun hm hne hst pre bad post h1 h2 h3 =>
      EStore.buyManyItems_trace_abort s ids budget hm hne hst pre bad post h1 h2 h3,
    fun hm hne hst hok => EStore.buyManyItems_trace_all s ids budget hm hne hst hok,
    ?_, EStore.buyManyItems_no_global_lock s ids budget,
    queueLockBalanced_of_heldAfter _ rfl, queueLockBalanced_of_heldAfter _ rfl,
    queueLockBalanced_of_heldAfter _ rfl,
    fun out hout h => TaskQueue.dequeueCall_balanced q qwakes out hout h⟩
  intro hm
  refine ⟨?_, ?_, ?_, ?_, ?_, ?_, ?_⟩
  · unfold EStore.addItem
    simp only [EStore.fineModeEnabled, hm, Bool.true_eq_false, if_false]
    split_ifs <;> rfl
  · unfold EStore.removeItem
    simp only [EStore.fineModeEnabled, hm, Bool.true_eq_false, if_false]
    split_ifs <;> rfl
  · unfold EStore.addStock
    simp only [EStore.fineModeEnabled, hm, Bool.true_eq_false, if_false]
    split_ifs <;> rfl
  · unfold EStore.priceItem
    simp only [EStore.fineModeEnabled, hm, Bool.true_eq_false, if_false]
    split_ifs <;> rfl
  · unfold EStore.discountItem
    simp only [EStore.fineModeEnabled, hm, Bool.true_eq_false, if_false]
    split_ifs <;> rfl
  · unfold EStore.setShippingCost
    simp only [EStore.fineModeEnabled, hm, Bool.true_eq_false, if_false]
  · unfold EStore.setStoreDiscount
    simp only [EStore.fineModeEnabled, hm, Bool.true_eq_false, if_false]

/-- Scenario 6 of the specification: in fine mode with slot 1 in stock and slot 2 out of
stock, `buyManyItems([1, 2], 1000)` sorts the order to `[2, 1]`, gives up at position 0 and
makes exactly one lock and one unlock, both of the mutex of slot 2. -/
theorem lock_balance_witness :
    (atomicAbortStore.buyManyItems [1, 2] 1000).trace =
      [Event.lock (Mutex.fineMutexes 2), Event.unlock (Mutex.fineMutexes 2)] :=
  (lock_balance atomicAbortStore (SupplierReq.removeItem 1) 1 [1, 2] 0 0 0 0 0 1000 []
    (TaskQueue.new : TaskQueue Nat) TaskQueue.Task.stop []).2.2.2.2.2.1
    (by simp [atomicAbortStore, emptyFine, EStore.new, EStore.addItem,
      EStore.fineModeEnabled])
    (by simp)
    (EStore.buyManyItems_returns atomicAbortStore [1, 2] 1000
      (by simp [atomicAbortStore, emptyFine, EStore.new, EStore.addItem,
        EStore.fineModeEnabled])
      (by decide))
    [] 2 [1] (by decide) (by simp)
    (Or.inr (by simp [atomicAbortStore, emptyFine, EStore.new, EStore.addItem,
      EStore.fineModeEnabled, EStore.setItem]))

end LockBalance
